import Mathlib

/-!
Shallow embedding of the snake game engine (src/snake.js) and verification of
the specification claims about it.  The grid stores one color per cell in a
flat list (column major, exactly as the source); the snake is a fixed-capacity
ring buffer of cell indices; the per-frame handler `Game.update` mirrors the
source's `update`/`updateHead` pair.  JavaScript peculiarities that the claims
depend on are modelled explicitly:

* the sentinel values `-1` (off grid), `null` (empty ring-buffer slot) and
  `undefined` (failed random-cell query) are all folded into `Option.none` at
  the places where the source code treats them interchangeably; every use site
  is annotated where the distinction could matter;
* `score` and `bonusPoints` are JavaScript numbers that can become `NaN`
  (via `Math.max(0, NaN)` after a failed food placement), so they are modelled
  as `Option Int` with `none` playing the role of `NaN`;
* `Math.random()` draws are replaced by an oracle argument (`Rand`), so a
  "reachable state" is one reachable for some sequence of oracle values;
* timestamps and the cells-per-second speed are exact rationals, kept as
  unnormalized numerator/denominator pairs (`JNum`) so that the kernel can
  evaluate concrete game traces; the claims under study do not hinge on
  floating-point rounding.
-/

namespace SnakeSpec

/-- Cell states; the source uses fill colors as the terrain representation. -/
inductive Color where
  | grass
  | snake
  | food
  | superFood
deriving DecidableEq, Repr

/-- A direction object `{dx, dy}` as in the source's `directions` table. -/
structure Dir where
  dx : Int
  dy : Int
deriving DecidableEq, Repr

def dirUp : Dir := ⟨0, -1⟩
def dirDown : Dir := ⟨0, 1⟩
def dirLeft : Dir := ⟨-1, 0⟩
def dirRight : Dir := ⟨1, 0⟩

/-- The four canonical direction values of the source's `directions` table. -/
def canonicalDirs : List Dir := [dirUp, dirDown, dirLeft, dirRight]

/-- An exact rational kept as an unnormalized fraction.  Every value the
engine builds has a positive denominator (all divisors in the source are the
positive constants 1000, `boost` and `autoBoost`), and the one comparison the
engine performs (`proportion >= 1`) is guarded so that a degenerate zero
denominator behaves like the float `NaN` (the comparison is false). -/
structure JNum where
  num : Int
  den : Nat
deriving DecidableEq, Repr

namespace JNum

def ofInt (n : Int) : JNum := ⟨n, 1⟩

def mul (a b : JNum) : JNum := ⟨a.num * b.num, a.den * b.den⟩

/-- Division; only ever used with a divisor that is a positive constant. -/
def div (a b : JNum) : JNum := ⟨a.num * (b.den : Int), a.den * b.num.toNat⟩

def sub (a b : JNum) : JNum := ⟨a.num * (b.den : Int) - b.num * (a.den : Int), a.den * b.den⟩

/-- The `proportion >= 1` test: for a value with positive denominator this is
exactly `den ≤ num`; a zero denominator (the `NaN` analogue) compares
false, as `NaN >= 1` does. -/
def ge1 (a : JNum) : Bool :=
  decide (0 < a.den) && decide ((a.den : Int) ≤ a.num)

/-- The rational value represented. -/
def val (a : JNum) : ℚ := (a.num : ℚ) / (a.den : ℚ)

instance (n : Nat) : OfNat JNum n := ⟨⟨n, 1⟩⟩

end JNum

/-- Source constant `squaresPerSecond = 6`. -/
def initialSquaresPerSecond : JNum := ⟨6, 1⟩
/-- Source constant `speedUp = 1.01`. -/
def speedUpFactor : JNum := ⟨101, 100⟩
/-- Source constant `boost = 1.5`. -/
def boostFactor : JNum := ⟨3, 2⟩
/-- Source constant `autoBoost = 2`. -/
def autoBoostFactor : JNum := ⟨2, 1⟩
/-- The millisecond scale constant in `update`. -/
def thousand : JNum := ⟨1000, 1⟩

/-- JavaScript number addition on values that may be `NaN` (`none`). -/
def jadd : Option Int → Option Int → Option Int
  | some a, some b => some (a + b)
  | _, _ => none

/-- JavaScript number subtraction on values that may be `NaN` (`none`). -/
def jsub : Option Int → Option Int → Option Int
  | some a, some b => some (a - b)
  | _, _ => none

/-- 'Math.max(0, x)': on 'NaN' it returns 'NaN'. -/
def jmax0 : Option Int → Option Int
  | some a => some (max 0 a)
  | none => none

/-- JavaScript `<` on gradient entries, where `none` stands for `Infinity`:
`Infinity < x` is false, `x < Infinity` is true for finite `x`. -/
def jltInf : Option Nat → Option Nat → Bool
  | none, _ => false
  | some _, none => true
  | some a, some b => a < b

/-- Random-choice oracle standing in for `Math.random()`: which cell the
random-cell query lands on, and whether the 10%-probability super-food draw
fires. -/
structure Rand where
  cell : Nat
  super : Bool
deriving DecidableEq, Repr

/-! ### Grid -/

/-- The grid of cells, stored flat exactly as in the source (`cells` has
`dimension * dimension` entries; index `cell = x * dimension + y`). -/
structure Grid where
  dimension : Nat
  cells : List Color
deriving DecidableEq, Repr

namespace Grid

/-- Read a cell's color.  Out-of-range reads are JavaScript `undefined`,
which compares unequal to every color; the `grass` default gives the same
outcome at every comparison site in the source. -/
def colorAt (g : Grid) (cell : Nat) : Color :=
  g.cells.getD cell Color.grass

def set (g : Grid) (cell : Nat) (value : Color) : Grid :=
  { g with cells := g.cells.set cell value }

/-- `onGrid(cell)`: the source compares against the `-1` off-grid sentinel,
here `none`. -/
def onGrid (cell : Option Nat) : Bool :=
  cell.isSome

def count (g : Grid) (value : Color) : Nat :=
  g.cells.count value

/-- `randomCell(value)`: the source loops on uniform random indices until one
has the requested color, so its result is some cell of that color, selected
here by the oracle (falling back to the first matching cell when the oracle
index does not match).  When no cell has the color the JS function falls off
the end, returning `undefined` (`none`). -/
def randomCell (g : Grid) (value : Color) (pick : Nat) : Option Nat :=
  if 0 < g.count value then
    some (if decide (pick < g.cells.length) && (g.colorAt pick == value) then pick
          else (((List.range g.cells.length).find? fun i => g.colorAt i == value).getD 0))
  else
    none

def toXY (g : Grid) (cell : Nat) : Nat × Nat :=
  (cell / g.dimension, cell % g.dimension)

/-- `center()`; meaningful for `dimension ≥ 2` (the game always has at
least a 2-cell-wide grid). -/
def center (g : Grid) : Nat :=
  (g.dimension / 2 - 1) * (g.dimension + 1)

/-- `inDirection(cell, d)` returns the adjacent cell in direction `d`, or the
`-1` sentinel (`none`) when it falls off the grid. -/
def inDirection (g : Grid) (cell : Nat) (d : Dir) : Option Nat :=
  let x : Int := cell / g.dimension
  let y : Int := cell % g.dimension
  let newX := x + d.dx
  let newY := y + d.dy
  if 0 ≤ newX ∧ newX < g.dimension ∧ 0 ≤ newY ∧ newY < g.dimension then
    some (newX * g.dimension + newY).toNat
  else
    none

/-- `inDirection` lifted to a possibly-null cell: JavaScript coerces `null`
to `0` in the arithmetic, so a null cell behaves exactly like cell 0. -/
def inDirectionO (g : Grid) (cell : Option Nat) (d : Dir) : Option Nat :=
  g.inDirection (cell.getD 0) d

/-- `isTraversable(cell)`: on grid and not snake-colored. -/
def isTraversable (g : Grid) : Option Nat → Bool
  | none => false
  | some cell => !(g.colorAt cell == Color.snake)

def isSuperFood (g : Grid) (cell : Nat) : Bool :=
  g.colorAt cell == Color.superFood

def isFood (g : Grid) (cell : Nat) : Bool :=
  (g.colorAt cell == Color.food) || g.isSuperFood cell

/-- `neighbors(cell)`: up to four axis-adjacent cells, in the source's fixed
order (toward-negative-x, toward-positive-x, toward-negative-y,
toward-positive-y). -/
def neighbors (g : Grid) (cell : Nat) : List Nat :=
  let x := cell / g.dimension
  let y := cell % g.dimension
  (if 0 < x then [cell - g.dimension] else []) ++
    (if x < g.dimension - 1 then [cell + g.dimension] else []) ++
      (if 0 < y then [cell - 1] else []) ++
        (if y < g.dimension - 1 then [cell + 1] else [])

/-- `direction(fromCell, toCell)`: componentwise sign of the difference. -/
def direction (g : Grid) (fromCell toCell : Nat) : Dir :=
  let a := g.toXY fromCell
  let b := g.toXY toCell
  ⟨Int.sign ((b.1 : Int) - a.1), Int.sign ((b.2 : Int) - a.2)⟩

def manhattanDistance (g : Grid) (fromCell toCell : Nat) : Nat :=
  let a := g.toXY fromCell
  let b := g.toXY toCell
  ((a.1 : Int) - b.1).natAbs + ((a.2 : Int) - b.2).natAbs

/-- The breadth-first traversal loop of `gradient`: `queue` is the FIFO work
list of (cell, distance) pairs (the source pushes at the back and shifts from
the front), `seen` the set of cells ever enqueued, `acc` the distance array
(`none` = `Infinity`).  The fuel only serves termination; `gradient` passes
enough for the loop to drain (each push adds a previously unseen cell). -/
def gradientLoop (g : Grid) : Nat → List (Nat × Nat) → List Nat → List (Option Nat) →
    List (Option Nat)
  | 0, _, _, acc => acc
  | _ + 1, [], _, acc => acc
  | fuel + 1, (cell, d) :: rest, seen, acc =>
    let acc1 := acc.set cell (some d)
    let ns := (g.neighbors cell).filter fun n =>
      !(seen.contains n) && !(g.colorAt n == Color.snake)
    g.gradientLoop fuel (rest ++ ns.map fun n => (n, d + 1)) (seen ++ ns) acc1

/-- `gradient(start)`: BFS distance field from `start` over cells that are not
snake-colored.  A `none` start models the `undefined` food cell after a failed
placement: the JS loop then visits no real cell, so every entry stays
`Infinity`. -/
def gradient (g : Grid) : Option Nat → List (Option Nat)
  | some start =>
    g.gradientLoop (g.cells.length + 1) [(start, 0)] [start]
      (List.replicate g.cells.length none)
  | none => List.replicate g.cells.length none

end Grid

/-! ### Snake -/

/-- The snake's circular buffer.  `segments` slots hold `none` (JS `null`)
until written; occupied slots are the window from `tail` (inclusive) to
`head` (exclusive), the head cell sitting at index `head - 1`. -/
structure Snake where
  segments : List (Option Nat)
  head : Nat
  tail : Nat
  direction : Dir
  /-- Pending turn requests.  `none` models the non-direction value (the
  string `"right"`) that `placeSnake` pushes, which every legality test
  rejects. -/
  turns : List (Option Dir)
deriving DecidableEq, Repr

namespace Snake

def init (dimension : Nat) : Snake :=
  { segments := List.replicate (dimension * dimension) none
    head := 0
    tail := 0
    direction := ⟨1, 0⟩
    turns := [] }

def getHead (s : Snake) : Option Nat :=
  s.segments.getD ((s.head + s.segments.length - 1) % s.segments.length) none

def getTail (s : Snake) : Option Nat :=
  s.segments.getD s.tail none

def getAfterTail (s : Snake) : Option Nat :=
  s.segments.getD ((s.tail + 1) % s.segments.length) none

/-- `length()` as computed from the cursors. -/
def len (s : Snake) : Nat :=
  (s.segments.length + s.head - s.tail) % s.segments.length

/-- The occupied segment window from tail to head, in the order `map`
visits it (the source's `map` runs from `tail` up to but excluding the
`head` cursor, which is one past the head cell, so it covers every
segment including the head cell). -/
def window (s : Snake) : List (Option Nat) :=
  (List.range s.len).map fun i => s.segments.getD ((s.tail + i) % s.segments.length) none

def addAtHead (s : Snake) (cell : Option Nat) : Snake :=
  { s with
    segments := s.segments.set s.head cell
    head := (s.head + 1) % s.segments.length }

def removeTail (s : Snake) : Snake :=
  { s with tail := (s.tail + 1) % s.segments.length }

def changeDirection (s : Snake) (d : Option Dir) : Snake :=
  { s with turns := s.turns ++ [d] }

/-- `isLegalTurn(d)` for a fixed current heading.  A `none` request (the
string pushed by `placeSnake`) has undefined `dx`/`dy` fields, so both
comparisons are false. -/
def legalTurn (direction : Dir) : Option Dir → Bool
  | none => false
  | some d => (direction.dx == d.dy) || (direction.dy == d.dx)

def isLegalTurn (s : Snake) (d : Option Dir) : Bool :=
  legalTurn s.direction d

/-- The dequeue loop of `applyNextTurn`: shift until the first legal turn,
return it together with the remaining queue. -/
def applyNextTurnAux (direction : Dir) : List (Option Dir) → Dir × List (Option Dir)
  | [] => (direction, [])
  | d :: rest =>
    if legalTurn direction d then
      (d.getD direction, rest)
    else
      applyNextTurnAux direction rest

def applyNextTurn (s : Snake) : Snake :=
  let p := applyNextTurnAux s.direction s.turns
  { s with direction := p.1, turns := p.2 }

end Snake

/-! ### Scorekeeper -/

/-- Score state.  Both numbers are JavaScript numbers that stay integral but
can become `NaN` (`none`) through the failed-food-placement path. -/
structure Scorekeeper where
  score : Option Int
  bonusPoints : Option Int
deriving DecidableEq, Repr

namespace Scorekeeper

def init : Scorekeeper := ⟨some 0, some 0⟩

/-- `incrementScore()`: `score += 1 + bonusPoints` (UI notification is
external). -/
def incrementScore (sk : Scorekeeper) : Scorekeeper :=
  { sk with score := jadd sk.score (jadd (some 1) sk.bonusPoints) }

/-- `setBonusPoints(points)`: clamp at 0 (`Math.max(0, NaN)` is `NaN`). -/
def setBonusPoints (sk : Scorekeeper) (points : Option Int) : Scorekeeper :=
  { sk with bonusPoints := jmax0 points }

def decrementBonusPoints (sk : Scorekeeper) : Scorekeeper :=
  sk.setBonusPoints (jsub sk.bonusPoints (some 1))

end Scorekeeper

/-! ### The pathfinder (`move`) -/

/-- Reading a gradient array at a cell (`tailGradient[n]` in the source);
`none` is the `Infinity` fill.  The pathfinder only ever indexes in range. -/
def gradAt (gradient : List (Option Nat)) (n : Nat) : Option Nat :=
  gradient.getD n none

/-- The `ok` predicate inside `move`: a candidate is unsafe when it is null,
when its tail-gradient entry is `Infinity`, or when it is the food cell
(`foodGradient` 0) with tail-gradient distance exactly 1. -/
def okCell (tailGradient foodGradient : List (Option Nat)) : Option Nat → Bool
  | none => false
  | some n =>
    if gradAt tailGradient n == none then false
    else if (gradAt foodGradient n == some 0) && (gradAt tailGradient n == some 1) then
      false
    else true

/-- The `better` comparison inside `move` (`n` is a real neighbor cell,
`current` may be null). -/
def betterCell (tailGradient foodGradient : List (Option Nat)) (n : Nat)
    (current : Option Nat) : Bool :=
  if !(okCell tailGradient foodGradient current) then true
  else if !(okCell tailGradient foodGradient (some n)) then false
  else if jltInf (gradAt foodGradient n) (gradAt foodGradient (current.getD 0)) then true
  else if gradAt foodGradient n == gradAt foodGradient (current.getD 0) then
    jltInf (gradAt tailGradient (current.getD 0)) (gradAt tailGradient n)
  else false

/-- The candidate scan of `move`: start from straight ahead (if on grid) and
replace the candidate by any strictly better non-snake neighbor. -/
def moveScan (g : Grid) (tailGradient foodGradient : List (Option Nat))
    (neighborList : List Nat) (start : Option Nat) : Option Nat :=
  neighborList.foldl
    (fun choice n =>
      if !(g.colorAt n == Color.snake) then
        if betterCell tailGradient foodGradient n choice then some n else choice
      else choice)
    start

/-- The robot mover `move(grid, snake, food)`.  Note the JavaScript
comparisons at the end: `choice == next` is false whenever either side is a
sentinel (`null == -1` is false), and a null `choice` is caught by the second
disjunct, so folding the sentinels together preserves the result.  In
`grid.direction` a null operand coerces to cell 0. -/
def moveFn (g : Grid) (s : Snake) (food : Option Nat) : Option Dir :=
  let head := s.getHead
  let next := g.inDirectionO head s.direction
  let tailGradient := g.gradient s.getTail
  let foodGradient := g.gradient food
  let start := if Grid.onGrid next then next else none
  let choice := moveScan g tailGradient foodGradient (g.neighbors (head.getD 0)) start
  if (match choice, next with
      | some a, some b => a == b
      | _, _ => false) || (choice == none) then
    none
  else
    some (g.direction (head.getD 0) (choice.getD 0))

/-! ### Game -/

/-- The full engine state.  Only model state is kept: canvas drawing is the
external rendering surface, and key/pointer wiring enters through
`handleEvent`. -/
structure Game where
  dimension : Nat
  grid : Grid
  snake : Snake
  running : Bool
  scorekeeper : Scorekeeper
  enteredSquare : Option JNum
  isEating : Bool
  speedUp : JNum
  boosted : Bool
  squaresPerSecond : JNum
  automatic : Bool
  foodCell : Option Nat
deriving DecidableEq, Repr

namespace Game

/-- `drawCell(cell, color)` as far as the model is concerned: set the grid
cell (the two `fillRect` calls touch only the canvas).  A null/undefined cell
index creates a stray array property in JS and leaves every numeric cell
unchanged. -/
def drawCell (gm : Game) (cell : Option Nat) (color : Color) : Game :=
  match cell with
  | some c => { gm with grid := gm.grid.set c color }
  | none => gm

/-- `enterSquare(cell, timestamp, isFood)`. -/
def enterSquare (gm : Game) (cell : Nat) (timestamp : JNum) (isFood : Bool) : Game :=
  { gm with
    enteredSquare := some timestamp
    isEating := isFood
    snake := gm.snake.addAtHead (some cell)
    grid := gm.grid.set cell Color.snake }

/-- `removeTail()` on the game: erase the tail cell and advance the cursor. -/
def removeTail (gm : Game) : Game :=
  let gm1 := gm.drawCell gm.snake.getTail Color.grass
  { gm1 with snake := gm1.snake.removeTail }

/-- One growth step of `placeSnake`'s loop. -/
def placeSnakeStep (gm : Game) : Game :=
  { gm with snake := gm.snake.addAtHead (gm.grid.inDirectionO gm.snake.getHead gm.snake.direction) }

/-- `placeSnake(cell, direction, length)`.  The source passes the direction
as the string `"right"`; the queue discards it as illegal, so the heading
keeps its constructor value (which happens to be right). -/
def placeSnake (gm : Game) (cell : Nat) (length : Nat) : Game :=
  let gm1 := { gm with snake := ((gm.snake.addAtHead (some cell)).changeDirection none).applyNextTurn }
  let gm2 := placeSnakeStep^[length - 1] gm1
  gm2.snake.window.foldl (fun a c => a.drawCell c Color.snake) gm2

/-- `addRandomFood()`: returns the new food cell together with the updated
state.  The guard in the source is `cell !== null`, and `randomCell` never
yields `null` — it yields a cell or `undefined`, and `undefined !== null` is
true — so the body runs unconditionally; on the `undefined` branch the fill
targets index `NaN` (changing no cell) and the Manhattan distance is `NaN`,
which `Math.max` propagates into `bonusPoints`. -/
def addRandomFood (gm : Game) (r : Rand) : Option Nat × Game :=
  let cell := gm.grid.randomCell Color.grass r.cell
  match cell with
  | some c =>
    let color := if !gm.boosted && r.super then Color.superFood else Color.food
    let gm1 := gm.drawCell (some c) color
    let dist : Option Int :=
      match gm1.snake.getHead with
      | some h => some (gm1.grid.manhattanDistance c h)
      | none => none
    let bonus := jadd dist (some (if color == Color.food then 20 else 60))
    (some c, { gm1 with scorekeeper := gm1.scorekeeper.setBonusPoints bonus })
  | none =>
    (none, { gm with scorekeeper := gm.scorekeeper.setBonusPoints none })

/-- The state after `updateHead`'s first two statements (turn application and
bonus decay), before the collision test. -/
def turnApplied (gm : Game) : Game :=
  { gm with
    snake := gm.snake.applyNextTurn
    scorekeeper := gm.scorekeeper.decrementBonusPoints }

/-- The cell `updateHead` tries to commit: straight ahead of the head in the
heading that results from applying the queued turns. -/
def commitCell (gm : Game) : Option Nat :=
  gm.turnApplied.grid.inDirectionO gm.turnApplied.snake.getHead gm.turnApplied.snake.direction

/-- The food branch of `updateHead`, factored out: boost bookkeeping, score
increment, compounding speed-up, and placement of the next food.  The
source's second condition is `nextIsFood && this.boosted` verbatim (the
branch already knows `nextIsFood`). -/
def eatFood (gm2 : Game) (r : Rand) (nextIsFood nextIsSuperfood : Bool) : Game :=
  let gm3 :=
    if nextIsSuperfood then
      { gm2 with boosted := true, squaresPerSecond := gm2.squaresPerSecond.mul boostFactor }
    else if nextIsFood && gm2.boosted then
      { gm2 with boosted := false, squaresPerSecond := gm2.squaresPerSecond.div boostFactor }
    else gm2
  let gm4 := { gm3 with scorekeeper := gm3.scorekeeper.incrementScore }
  let gm5 := { gm4 with squaresPerSecond := gm4.squaresPerSecond.mul gm4.speedUp }
  let p := gm5.addRandomFood r
  { p.2 with foodCell := p.1 }

/-- `updateHead(timestamp)`: apply the next legal queued turn, pay the bonus
decay, then either commit the straight-ahead cell or report the collision by
returning `false`. -/
def updateHead (r : Rand) (gm : Game) (timestamp : JNum) : Bool × Game :=
  let gm1 := gm.turnApplied
  let next := gm1.grid.inDirectionO gm1.snake.getHead gm1.snake.direction
  match next, gm1.grid.isTraversable next with
  | some nx, true =>
    let nextIsFood := gm1.grid.isFood nx
    let nextIsSuperfood := gm1.grid.isSuperFood nx
    let gm2 := gm1.enterSquare nx timestamp nextIsFood
    if nextIsFood then
      (true, gm2.eatFood r nextIsFood nextIsSuperfood)
    else
      (true, gm2)
  | _, _ => (false, gm1)

/-- The filled-square stage of `update` (run when the fill proportion has
reached 1, before `updateHead` is called again): fully draw the head cell,
retract the tail unless eating, and in autoplay mode enqueue the
pathfinder's heading. -/
def frameFillStage (gm : Game) : Game :=
  let gm1 := gm.drawCell gm.snake.getHead Color.snake
  let gm2 := if !gm1.isEating then gm1.removeTail else gm1
  if gm2.automatic then
    match moveFn gm2.grid gm2.snake gm2.foodCell with
    | some m => { gm2 with snake := gm2.snake.changeDirection (some m) }
    | none => gm2
  else gm2

/-- The per-frame handler `update(timestamp)`.  Partial fills and partial
tail erases touch only the canvas, so that branch leaves the model state
unchanged. -/
def update (r : Rand) (gm : Game) (timestamp : JNum) : Bool × Game :=
  if !gm.running then (false, gm)
  else
    match gm.enteredSquare with
    | none => updateHead r gm timestamp
    | some entered =>
      let timeInSquare := timestamp.sub entered
      let proportion := (timeInSquare.mul gm.squaresPerSecond).div thousand
      if proportion.ge1 then
        updateHead r gm.frameFillStage timestamp
      else
        (true, gm)

/-- `toggleAutomatic()`. -/
def toggleAutomatic (gm : Game) : Game :=
  if gm.automatic then
    { gm with automatic := false, squaresPerSecond := gm.squaresPerSecond.div autoBoostFactor }
  else
    { gm with automatic := true, squaresPerSecond := gm.squaresPerSecond.mul autoBoostFactor }

/-- `start()`: mark running; re-arming the frame scheduler is external. -/
def start (gm : Game) : Game :=
  { gm with running := true }

/-- `reset()` for a given dimension (the constructor argument). -/
def reset (dimension : Nat) (r : Rand) : Game :=
  let base : Game :=
    { dimension := dimension
      grid := ⟨dimension, List.replicate (dimension * dimension) Color.grass⟩
      snake := Snake.init dimension
      running := false
      scorekeeper := Scorekeeper.init
      enteredSquare := none
      isEating := false
      speedUp := speedUpFactor
      boosted := false
      squaresPerSecond := initialSquaresPerSecond
      automatic := false
      foodCell := none }
  let gm1 := base.placeSnake base.grid.center 2
  let p := gm1.addRandomFood r
  { p.2 with foodCell := p.1 }

end Game

/-- The external input events after key-code translation. -/
inductive Key where
  | up
  | down
  | left
  | right
  | space
  | rerun
  | auto
  | pointer
deriving DecidableEq, Repr

def dirOfKey : Key → Option Dir
  | .up => some dirUp
  | .down => some dirDown
  | .left => some dirLeft
  | .right => some dirRight
  | _ => none

namespace Game

/-- `handleEvent` after key translation.  The oracle is consumed only by the
`rerun` branch (its `reset` places food). -/
def handleEvent (r : Rand) (gm : Game) (k : Key) : Game :=
  match k with
  | .pointer =>
    let gm1 := gm.toggleAutomatic
    if !gm1.running then gm1.start else gm1
  | .space => gm.start
  | .rerun => Game.reset gm.dimension r
  | .auto =>
    let gm1 := gm.toggleAutomatic
    if !gm1.running then gm1.start else gm1
  | k =>
    if !gm.automatic then
      let gm1 := if !gm.running then gm.start else gm
      { gm1 with snake := gm1.snake.changeDirection (dirOfKey k) }
    else gm

/-- The `animate` loop: feed frames until the handler asks to stop; after a
`false` return the frame callback is not re-armed, so the remaining
timestamps are ignored. -/
def runFrames (gm : Game) : List (Rand × JNum) → Game
  | [] => gm
  | (r, t) :: rest =>
    match update r gm t with
    | (true, gm1) => runFrames gm1 rest
    | (false, gm1) => gm1

/-! #### Named stages of the per-frame handler (used to state the claims) -/

/-- The state `update` hands to `updateHead` on a committing frame (`none`
when this frame does not commit: not running, or still mid-square). -/
def frameCommitState (gm : Game) (timestamp : JNum) : Option Game :=
  if !gm.running then none
  else
    match gm.enteredSquare with
    | none => some gm
    | some entered =>
      if ((timestamp.sub entered).mul gm.squaresPerSecond).div thousand |>.ge1 then
        some gm.frameFillStage
      else none

end Game

/-! ### Reachability -/

/-- States reachable from a fresh game by any interleaving of inputs and
per-frame handler calls (for some outcomes of the random draws).  This
closure even allows the handler to run after it has signalled stop, as
happens when `start()` re-arms the frame loop at game over. -/
inductive ReachAny (dimension : Nat) : Game → Prop where
  | init (r : Rand) : ReachAny dimension (Game.reset dimension r)
  | inp {g : Game} (hg : ReachAny dimension g) (r : Rand) (k : Key) :
      ReachAny dimension (Game.handleEvent r g k)
  | upd {g : Game} (hg : ReachAny dimension g) (r : Rand) (t : JNum) :
      ReachAny dimension (Game.update r g t).2

/-- States reachable when the external frame scheduler honors the stop
signal: a frame runs only while the previous frames returned `true`
(inputs may still arrive at any time). -/
inductive ReachRun (dimension : Nat) : Game → Prop where
  | init (r : Rand) : ReachRun dimension (Game.reset dimension r)
  | inp {g : Game} (hg : ReachRun dimension g) (r : Rand) (k : Key) :
      ReachRun dimension (Game.handleEvent r g k)
  | upd {g g1 : Game} (hg : ReachRun dimension g) (r : Rand) (t : JNum)
      (h : Game.update r g t = (true, g1)) : ReachRun dimension g1

/-! ### Specification-side notions -/

/-- Two direction vectors are perpendicular when their dot product vanishes. -/
def Dir.perp (a b : Dir) : Prop :=
  a.dx * b.dx + a.dy * b.dy = 0

instance (a b : Dir) : Decidable (a.perp b) :=
  inferInstanceAs (Decidable (_ = _))

/-- A path of the BFS graph: `Reaches g src n c` says the source cell reaches
cell `c` in `n` steps, every step moving to an adjacent cell that is not
snake-colored (the source itself is exempt — the tail gradient starts on a
snake cell). -/
inductive Reaches (g : Grid) (src : Nat) : Nat → Nat → Prop where
  | zero : Reaches g src 0 src
  | succ {n c c' : Nat} (h : Reaches g src n c) (hadj : c' ∈ g.neighbors c)
      (hcol : g.colorAt c' ≠ Color.snake) : Reaches g src (n + 1) c'

/-- `d` is the BFS shortest-path distance from the source to `c`. -/
def IsBFSDist (g : Grid) (src c d : Nat) : Prop :=
  Reaches g src d c ∧ ∀ d', Reaches g src d' c → d ≤ d'

/-- Loop invariant of `gradientLoop`, at the point where layer `D` is being
processed: the queue splits into the unprocessed remainder `q1` of layer `D`
and the prefix `q2` of layer `D + 1` discovered so far.  `seen` is the set of
cells ever enqueued and `acc` the distance array written so far. -/
structure BFSInv (g : Grid) (src : Nat) (queue : List (Nat × Nat)) (seen : List Nat)
    (acc : List (Option Nat)) (D : Nat) (q1 q2 : List (Nat × Nat)) : Prop where
  hsplit : queue = q1 ++ q2
  hq1 : ∀ p ∈ q1, p.2 = D ∧ IsBFSDist g src p.1 D
  hq2 : ∀ p ∈ q2, p.2 = D + 1 ∧ IsBFSDist g src p.1 (D + 1)
  hseen_nodup : seen.Nodup
  hqueue_sub : ∀ p ∈ queue, p.1 ∈ seen
  hqueue_nodup : (queue.map Prod.fst).Nodup
  hseen_lt : ∀ x ∈ seen, x < g.cells.length
  hcomplete_le : ∀ x d, IsBFSDist g src x d → d ≤ D → x ∈ seen
  hfrontier : ∀ x, IsBFSDist g src x (D + 1) →
    x ∈ seen ∨ ∃ p ∈ q1, x ∈ g.neighbors p.1 ∧ g.colorAt x ≠ Color.snake
  hpopped : ∀ y ∈ seen, y ∉ queue.map Prod.fst →
    ∀ nb ∈ g.neighbors y, g.colorAt nb ≠ Color.snake → nb ∈ seen
  hacc_some : ∀ x d', acc.getD x none = some d' →
    IsBFSDist g src x d' ∧ x ∈ seen ∧ x ∉ queue.map Prod.fst
  hacc_pop : ∀ x ∈ seen, x ∉ queue.map Prod.fst → ∃ d', acc.getD x none = some d'
  hacc_none : ∀ x, x ∈ queue.map Prod.fst ∨ x ∉ seen → acc.getD x none = none
  hacc_len : acc.length = g.cells.length

/-! ### Concrete states used as witnesses and counterexamples -/

/-- A snake heading right with a few queued turns, for the turn-queue
witness. -/
def turnSnake : Snake :=
  { segments := [some 0, some 2, none, none], head := 2, tail := 0,
    direction := ⟨1, 0⟩, turns := [some dirRight, some dirDown, some dirUp] }

/-- Dimension-2 game, food placed at cell 3. -/
def tinyA0 : Game := Game.reset 2 ⟨3, false⟩
/-- Turn down queued (also starts the game). -/
def tinyA1 : Game := Game.handleEvent ⟨0, false⟩ tinyA0 Key.down
/-- First commit: eats the food at cell 3; new food lands on cell 1. -/
def tinyA2 : Game := (Game.update ⟨1, false⟩ tinyA1 0).2
/-- Turn left queued. -/
def tinyA3 : Game := Game.handleEvent ⟨0, false⟩ tinyA2 Key.left
/-- Second commit: eats the food at cell 1; the snake now fills the whole
grid and the ring buffer wraps (`head = tail`). -/
def tinyA4 : Game := (Game.update ⟨0, false⟩ tinyA3 1000).2

/-- Dimension-3 game, food placed at cell 1; the snake will run straight
into the right wall. -/
def wallB0 : Game := Game.reset 3 ⟨1, false⟩
def wallB1 : Game := Game.handleEvent ⟨0, false⟩ wallB0 Key.space
/-- First commit: head moves to cell 6, no food eaten. -/
def wallB2 : Game := (Game.update ⟨0, false⟩ wallB1 0).2
/-- Collision frame: the tail is retracted, then the straight-ahead cell is
off grid, so the handler returns false. -/
def wallB3 : Game := (Game.update ⟨0, false⟩ wallB2 1000).2
/-- Space pressed at game over: `start()` re-arms the frame loop without
resetting anything. -/
def wallB3s : Game := Game.handleEvent ⟨0, false⟩ wallB3 Key.space
/-- The next frame after the restart: it retracts the tail again. -/
def wallB4 : Game := (Game.update ⟨0, false⟩ wallB3s 2000).2

/-- 3x3 grid for the pathfinder counterexample: snake occupies cells
0,1,4,6,7 (head at 0, tail at 6), food at cell 3, which is adjacent to both
head and tail. -/
def corner3 : Grid :=
  ⟨3, [Color.snake, Color.snake, Color.grass, Color.food, Color.snake,
       Color.grass, Color.snake, Color.snake, Color.grass]⟩

/-- The matching snake: body 6 → 7 → 4 → 1 → 0, heading up (so the
straight-ahead cell is off grid). -/
def cornerSnake : Snake :=
  { segments := [some 6, some 7, some 4, some 1, some 0, none, none, none, none],
    head := 5, tail := 0, direction := ⟨0, -1⟩, turns := [] }

/-- A full dimension-2 grid with live score state, for the failed food
placement. -/
def fullGame : Game :=
  { dimension := 2
    grid := ⟨2, [Color.snake, Color.snake, Color.snake, Color.snake]⟩
    snake := { segments := [some 0, some 2, some 3, some 1], head := 0, tail := 0,
               direction := ⟨-1, 0⟩, turns := [] }
    running := true
    scorekeeper := ⟨some 5, some 7⟩
    enteredSquare := some ⟨1000, 1⟩
    isEating := true
    speedUp := speedUpFactor
    boosted := false
    squaresPerSecond := ⟨6, 1⟩
    automatic := false
    foodCell := some 1 }

/-- 3x3 grid where a safe straight-ahead candidate exists besides the
food-at-tail-distance-1 cell: snake occupies 3 → 0 → 1, food at 4. -/
def open3 : Grid :=
  ⟨3, [Color.snake, Color.snake, Color.grass, Color.snake, Color.food,
       Color.grass, Color.grass, Color.grass, Color.grass]⟩

/-- The matching snake: body 3 → 0 → 1 (head at cell 1, tail at cell 3),
heading down. -/
def open3Snake : Snake :=
  { segments := [some 3, some 0, some 1, none, none, none, none, none, none],
    head := 3, tail := 0, direction := ⟨0, 1⟩, turns := [] }

/-- An obstacle-free 2x2 grid for the gradient witness. -/
def free2 : Grid := ⟨2, [Color.grass, Color.grass, Color.grass, Color.grass]⟩

/-! ### The body/segment correspondence invariant (C2) -/

/-- Structural well-formedness of a game state built with side `d`: the grid
and the segment ring have the advertised `d * d` size and the ring cursors
are in range (the game is always constructed with `d ≥ 2`). -/
def WFCore (d : Nat) (g : Grid) (s : Snake) : Prop :=
  2 ≤ d ∧ g.dimension = d ∧ g.cells.length = d * d ∧
    s.segments.length = d * d ∧
      s.head < s.segments.length ∧ s.tail < s.segments.length

/-- Body/segment correspondence while the ring buffer has not wrapped: the
occupied window holds at least `lo` distinct in-range cells and marks
exactly the snake-colored grid cells. -/
def CorrACore (lo : Nat) (g : Grid) (s : Snake) : Prop :=
  lo ≤ s.len ∧
    (∀ o ∈ s.window, ∃ v, o = some v ∧ v < g.cells.length) ∧
      s.window.Nodup ∧
        (∀ i, i < g.cells.length →
          (g.colorAt i = Color.snake ↔ some i ∈ s.window))

/-- The wrapped ring: the snake has filled the whole grid, the cursors
coincide (so the occupied window reads back empty), every ring slot holds a
distinct in-range cell, and every grid cell is snake-colored. -/
def CorrBCore (g : Grid) (s : Snake) : Prop :=
  s.head = s.tail ∧
    (∀ o ∈ s.segments, ∃ v, o = some v ∧ v < g.cells.length) ∧
      s.segments.Nodup ∧
        (∀ i, i < g.cells.length → g.colorAt i = Color.snake)

/-- The reachable-state invariant behind C2: the state is well formed and is
either in correspondence (window of length ≥ 2) or wrapped. -/
def Game.BodyInv (gm : Game) : Prop :=
  WFCore gm.dimension gm.grid gm.snake ∧
    (CorrACore 2 gm.grid gm.snake ∨ CorrBCore gm.grid gm.snake)

/-! ### The food/boost invariant (C9, C10) -/

/-- The reachable-state invariant behind the boost bookkeeping: the grid has
its advertised size, at most one food item (plain or super) is on the grid
at any time, and while a boost is active no super-food is on the grid. -/
def Game.FoodInv (gm : Game) : Prop :=
  gm.grid.dimension = gm.dimension ∧
    gm.grid.cells.length = gm.dimension * gm.dimension ∧
      (gm.boosted = true → gm.grid.count Color.superFood = 0) ∧
        gm.grid.count Color.food + gm.grid.count Color.superFood ≤ 1

/-- Dimension-2 game whose initial food draw is a super-food at cell 3. -/
def boostA0 : Game := Game.reset 2 ⟨3, true⟩
/-- Turn down queued (also starts the game). -/
def boostA1 : Game := Game.handleEvent ⟨0, false⟩ boostA0 Key.down
/-- First commit: eats the super-food at cell 3, activating the boost. -/
def boostA2 : Game := (Game.update ⟨1, false⟩ boostA1 0).2
/-- A boosted state over a grid that still has an empty cell, for exercising
the food-placement query while the boost is active. -/
def boostB : Game :=
  { boostA2 with grid := ⟨2, [Color.grass, Color.snake, Color.snake, Color.snake]⟩ }

/-! ## Helper lemmas -/

/-- A proportion with zero numerator never passes the `>= 1` test. -/
theorem JNum.ge1_of_num_zero {a : JNum} (h : a.num = 0) : a.ge1 = false := by
  unfold JNum.ge1
  rw [h]
  by_cases hd : 0 < a.den
  · have : ¬ ((a.den : Int) ≤ 0) := by omega
    simp [this]
  · simp [hd]

namespace Game

@[simp] theorem drawCell_snake (gm : Game) (c : Option Nat) (col : Color) :
    (gm.drawCell c col).snake = gm.snake := by cases c <;> rfl

@[simp] theorem drawCell_running (gm : Game) (c : Option Nat) (col : Color) :
    (gm.drawCell c col).running = gm.running := by cases c <;> rfl

@[simp] theorem drawCell_scorekeeper (gm : Game) (c : Option Nat) (col : Color) :
    (gm.drawCell c col).scorekeeper = gm.scorekeeper := by cases c <;> rfl

@[simp] theorem drawCell_enteredSquare (gm : Game) (c : Option Nat) (col : Color) :
    (gm.drawCell c col).enteredSquare = gm.enteredSquare := by cases c <;> rfl

@[simp] theorem drawCell_isEating (gm : Game) (c : Option Nat) (col : Color) :
    (gm.drawCell c col).isEating = gm.isEating := by cases c <;> rfl

@[simp] theorem drawCell_boosted (gm : Game) (c : Option Nat) (col : Color) :
    (gm.drawCell c col).boosted = gm.boosted := by cases c <;> rfl

@[simp] theorem drawCell_squaresPerSecond (gm : Game) (c : Option Nat) (col : Color) :
    (gm.drawCell c col).squaresPerSecond = gm.squaresPerSecond := by cases c <;> rfl

@[simp] theorem drawCell_automatic (gm : Game) (c : Option Nat) (col : Color) :
    (gm.drawCell c col).automatic = gm.automatic := by cases c <;> rfl

@[simp] theorem drawCell_foodCell (gm : Game) (c : Option Nat) (col : Color) :
    (gm.drawCell c col).foodCell = gm.foodCell := by cases c <;> rfl

@[simp] theorem drawCell_dimension (gm : Game) (c : Option Nat) (col : Color) :
    (gm.drawCell c col).dimension = gm.dimension := by cases c <;> rfl

@[simp] theorem drawCell_speedUp (gm : Game) (c : Option Nat) (col : Color) :
    (gm.drawCell c col).speedUp = gm.speedUp := by cases c <;> rfl

@[simp] theorem removeTail_running (gm : Game) : gm.removeTail.running = gm.running := by
  simp [removeTail]

@[simp] theorem removeTail_scorekeeper (gm : Game) :
    gm.removeTail.scorekeeper = gm.scorekeeper := by simp [removeTail]

@[simp] theorem removeTail_enteredSquare (gm : Game) :
    gm.removeTail.enteredSquare = gm.enteredSquare := by simp [removeTail]

@[simp] theorem removeTail_isEating (gm : Game) : gm.removeTail.isEating = gm.isEating := by
  simp [removeTail]

@[simp] theorem removeTail_boosted (gm : Game) : gm.removeTail.boosted = gm.boosted := by
  simp [removeTail]

@[simp] theorem removeTail_squaresPerSecond (gm : Game) :
    gm.removeTail.squaresPerSecond = gm.squaresPerSecond := by simp [removeTail]

@[simp] theorem removeTail_automatic (gm : Game) :
    gm.removeTail.automatic = gm.automatic := by simp [removeTail]

@[simp] theorem removeTail_foodCell (gm : Game) :
    gm.removeTail.foodCell = gm.foodCell := by simp [removeTail]

@[simp] theorem removeTail_dimension (gm : Game) :
    gm.removeTail.dimension = gm.dimension := by simp [removeTail]

@[simp] theorem removeTail_speedUp (gm : Game) :
    gm.removeTail.speedUp = gm.speedUp := by simp [removeTail]

@[simp] theorem addRandomFood_running (gm : Game) (r : Rand) :
    (gm.addRandomFood r).2.running = gm.running := by
  simp only [addRandomFood]
  cases gm.grid.randomCell Color.grass r.cell <;> simp

@[simp] theorem addRandomFood_snake (gm : Game) (r : Rand) :
    (gm.addRandomFood r).2.snake = gm.snake := by
  simp only [addRandomFood]
  cases gm.grid.randomCell Color.grass r.cell <;> simp

@[simp] theorem addRandomFood_enteredSquare (gm : Game) (r : Rand) :
    (gm.addRandomFood r).2.enteredSquare = gm.enteredSquare := by
  simp only [addRandomFood]
  cases gm.grid.randomCell Color.grass r.cell <;> simp

@[simp] theorem addRandomFood_isEating (gm : Game) (r : Rand) :
    (gm.addRandomFood r).2.isEating = gm.isEating := by
  simp only [addRandomFood]
  cases gm.grid.randomCell Color.grass r.cell <;> simp

@[simp] theorem addRandomFood_boosted (gm : Game) (r : Rand) :
    (gm.addRandomFood r).2.boosted = gm.boosted := by
  simp only [addRandomFood]
  cases gm.grid.randomCell Color.grass r.cell <;> simp

@[simp] theorem addRandomFood_squaresPerSecond (gm : Game) (r : Rand) :
    (gm.addRandomFood r).2.squaresPerSecond = gm.squaresPerSecond := by
  simp only [addRandomFood]
  cases gm.grid.randomCell Color.grass r.cell <;> simp

@[simp] theorem addRandomFood_automatic (gm : Game) (r : Rand) :
    (gm.addRandomFood r).2.automatic = gm.automatic := by
  simp only [addRandomFood]
  cases gm.grid.randomCell Color.grass r.cell <;> simp

@[simp] theorem addRandomFood_dimension (gm : Game) (r : Rand) :
    (gm.addRandomFood r).2.dimension = gm.dimension := by
  simp only [addRandomFood]
  cases gm.grid.randomCell Color.grass r.cell <;> simp

@[simp] theorem addRandomFood_speedUp (gm : Game) (r : Rand) :
    (gm.addRandomFood r).2.speedUp = gm.speedUp := by
  simp only [addRandomFood]
  cases gm.grid.randomCell Color.grass r.cell <;> simp

@[simp] theorem enterSquare_running (gm : Game) (c : Nat) (ts : JNum) (f : Bool) :
    (gm.enterSquare c ts f).running = gm.running := rfl

@[simp] theorem enterSquare_scorekeeper (gm : Game) (c : Nat) (ts : JNum) (f : Bool) :
    (gm.enterSquare c ts f).scorekeeper = gm.scorekeeper := rfl

@[simp] theorem enterSquare_boosted (gm : Game) (c : Nat) (ts : JNum) (f : Bool) :
    (gm.enterSquare c ts f).boosted = gm.boosted := rfl

@[simp] theorem enterSquare_squaresPerSecond (gm : Game) (c : Nat) (ts : JNum) (f : Bool) :
    (gm.enterSquare c ts f).squaresPerSecond = gm.squaresPerSecond := rfl

@[simp] theorem enterSquare_automatic (gm : Game) (c : Nat) (ts : JNum) (f : Bool) :
    (gm.enterSquare c ts f).automatic = gm.automatic := rfl

@[simp] theorem enterSquare_dimension (gm : Game) (c : Nat) (ts : JNum) (f : Bool) :
    (gm.enterSquare c ts f).dimension = gm.dimension := rfl

@[simp] theorem enterSquare_speedUp (gm : Game) (c : Nat) (ts : JNum) (f : Bool) :
    (gm.enterSquare c ts f).speedUp = gm.speedUp := rfl

@[simp] theorem turnApplied_running (gm : Game) : gm.turnApplied.running = gm.running := rfl

@[simp] theorem turnApplied_grid (gm : Game) : gm.turnApplied.grid = gm.grid := rfl

@[simp] theorem turnApplied_boosted (gm : Game) : gm.turnApplied.boosted = gm.boosted := rfl

@[simp] theorem turnApplied_squaresPerSecond (gm : Game) :
    gm.turnApplied.squaresPerSecond = gm.squaresPerSecond := rfl

@[simp] theorem turnApplied_automatic (gm : Game) :
    gm.turnApplied.automatic = gm.automatic := rfl

@[simp] theorem turnApplied_dimension (gm : Game) :
    gm.turnApplied.dimension = gm.dimension := rfl

@[simp] theorem turnApplied_speedUp (gm : Game) : gm.turnApplied.speedUp = gm.speedUp := rfl

@[simp] theorem eatFood_running (gm : Game) (r : Rand) (f s : Bool) :
    (gm.eatFood r f s).running = gm.running := by
  simp only [eatFood]
  split
  · simp
  · split <;> simp

@[simp] theorem eatFood_enteredSquare (gm : Game) (r : Rand) (f s : Bool) :
    (gm.eatFood r f s).enteredSquare = gm.enteredSquare := by
  simp only [eatFood]
  split
  · simp
  · split <;> simp

@[simp] theorem eatFood_isEating (gm : Game) (r : Rand) (f s : Bool) :
    (gm.eatFood r f s).isEating = gm.isEating := by
  simp only [eatFood]
  split
  · simp
  · split <;> simp

@[simp] theorem eatFood_snake (gm : Game) (r : Rand) (f s : Bool) :
    (gm.eatFood r f s).snake = gm.snake := by
  simp only [eatFood]
  split
  · simp
  · split <;> simp

@[simp] theorem eatFood_automatic (gm : Game) (r : Rand) (f s : Bool) :
    (gm.eatFood r f s).automatic = gm.automatic := by
  simp only [eatFood]
  split
  · simp
  · split <;> simp

@[simp] theorem eatFood_dimension (gm : Game) (r : Rand) (f s : Bool) :
    (gm.eatFood r f s).dimension = gm.dimension := by
  simp only [eatFood]
  split
  · simp
  · split <;> simp

@[simp] theorem eatFood_speedUp (gm : Game) (r : Rand) (f s : Bool) :
    (gm.eatFood r f s).speedUp = gm.speedUp := by
  simp only [eatFood]
  split
  · simp
  · split <;> simp

@[simp] theorem frameFillStage_running (gm : Game) :
    gm.frameFillStage.running = gm.running := by
  simp only [frameFillStage]
  repeat' split
  all_goals simp

@[simp] theorem frameFillStage_scorekeeper (gm : Game) :
    gm.frameFillStage.scorekeeper = gm.scorekeeper := by
  simp only [frameFillStage]
  repeat' split
  all_goals simp

@[simp] theorem frameFillStage_enteredSquare (gm : Game) :
    gm.frameFillStage.enteredSquare = gm.enteredSquare := by
  simp only [frameFillStage]
  repeat' split
  all_goals simp

@[simp] theorem frameFillStage_isEating (gm : Game) :
    gm.frameFillStage.isEating = gm.isEating := by
  simp only [frameFillStage]
  repeat' split
  all_goals simp

@[simp] theorem frameFillStage_boosted (gm : Game) :
    gm.frameFillStage.boosted = gm.boosted := by
  simp only [frameFillStage]
  repeat' split
  all_goals simp

@[simp] theorem frameFillStage_squaresPerSecond (gm : Game) :
    gm.frameFillStage.squaresPerSecond = gm.squaresPerSecond := by
  simp only [frameFillStage]
  repeat' split
  all_goals simp

@[simp] theorem frameFillStage_automatic (gm : Game) :
    gm.frameFillStage.automatic = gm.automatic := by
  simp only [frameFillStage]
  repeat' split
  all_goals simp

@[simp] theorem frameFillStage_foodCell (gm : Game) :
    gm.frameFillStage.foodCell = gm.foodCell := by
  simp only [frameFillStage]
  repeat' split
  all_goals simp

@[simp] theorem frameFillStage_dimension (gm : Game) :
    gm.frameFillStage.dimension = gm.dimension := by
  simp only [frameFillStage]
  repeat' split
  all_goals simp

@[simp] theorem frameFillStage_speedUp (gm : Game) :
    gm.frameFillStage.speedUp = gm.speedUp := by
  simp only [frameFillStage]
  repeat' split
  all_goals simp

theorem updateHead_running (r : Rand) (gm : Game) (t : JNum) :
    (updateHead r gm t).2.running = gm.running := by
  simp only [updateHead]
  cases gm.turnApplied.grid.inDirectionO gm.turnApplied.snake.getHead
      gm.turnApplied.snake.direction with
  | none => simp
  | some nx =>
    cases gm.turnApplied.grid.isTraversable (some nx) with
    | false => simp
    | true =>
      simp only []
      split <;> simp

theorem updateHead_automatic (r : Rand) (gm : Game) (t : JNum) :
    (updateHead r gm t).2.automatic = gm.automatic := by
  simp only [updateHead]
  cases gm.turnApplied.grid.inDirectionO gm.turnApplied.snake.getHead
      gm.turnApplied.snake.direction with
  | none => simp
  | some nx =>
    cases gm.turnApplied.grid.isTraversable (some nx) with
    | false => simp
    | true =>
      simp only []
      split <;> simp

theorem update_running (r : Rand) (gm : Game) (t : JNum) :
    (update r gm t).2.running = gm.running := by
  simp only [update]
  split
  · rfl
  · split
    · exact updateHead_running ..
    · split
      · rw [updateHead_running, frameFillStage_running]
      · rfl

/-- `update` on a non-committing frame returns the state unchanged with the
`running` flag as the continue signal. -/
theorem update_of_commit_none (r : Rand) (gm : Game) (t : JNum)
    (h : gm.frameCommitState t = none) : update r gm t = (gm.running, gm) := by
  simp only [frameCommitState] at h
  simp only [update]
  by_cases hr : gm.running
  · rw [hr] at h ⊢
    simp only [Bool.not_true, Bool.false_eq_true, if_false] at h ⊢
    cases he : gm.enteredSquare with
    | none => rw [he] at h; simp at h
    | some entered =>
      rw [he] at h
      simp only at h ⊢
      split at h
      · simp at h
      · simp only [if_neg (by assumption)]
  · have hr' : gm.running = false := by simpa using hr
    rw [hr']
    simp

/-- `update` on a committing frame is `updateHead` on the commit-stage
state. -/
theorem update_of_commit_some (r : Rand) (gm : Game) (t : JNum) (g1 : Game)
    (h : gm.frameCommitState t = some g1) : update r gm t = updateHead r g1 t := by
  simp only [frameCommitState] at h
  simp only [update]
  by_cases hr : gm.running
  · rw [hr] at h ⊢
    simp only [Bool.not_true, Bool.false_eq_true, if_false] at h ⊢
    cases he : gm.enteredSquare with
    | none =>
      rw [he] at h
      simp only [Option.some_inj] at h
      rw [h]
    | some entered =>
      rw [he] at h
      simp only at h ⊢
      split at h
      · simp only [Option.some_inj] at h
        rw [if_pos (by assumption), h]
      · simp at h
  · have hr' : gm.running = false := by simpa using hr
    rw [hr'] at h
    simp at h

end Game

/-! ## C3: turn legality and the turn queue -/

namespace Snake

theorem applyNextTurnAux_first_legal (dir : Dir) (pre post : List (Option Dir)) (d : Dir)
    (hpre : ∀ x ∈ pre, legalTurn dir x = false) (hd : legalTurn dir (some d) = true) :
    applyNextTurnAux dir (pre ++ some d :: post) = (d, post) := by
  induction pre with
  | nil => simp [applyNextTurnAux, hd]
  | cons x rest ih =>
    have hx := hpre x (List.mem_cons_self x rest)
    simp only [List.cons_append, applyNextTurnAux, hx, Bool.false_eq_true, if_false]
    exact ih fun y hy => hpre y (List.mem_cons_of_mem x hy)

theorem applyNextTurnAux_all_illegal (dir : Dir) (q : List (Option Dir))
    (h : ∀ x ∈ q, legalTurn dir x = false) :
    applyNextTurnAux dir q = (dir, []) := by
  induction q with
  | nil => rfl
  | cons x rest ih =>
    have hx := h x (List.mem_cons_self x rest)
    simp only [applyNextTurnAux, hx, Bool.false_eq_true, if_false]
    exact ih fun y hy => h y (List.mem_cons_of_mem x hy)

end Snake

/-- C3: for every canonical heading H and canonical direction D, the turn
legality test accepts D exactly when D is perpendicular to H (equivalently
`dx = dy' OR dy = dx'`); straight-ahead re-issues and reversals are always
rejected; and `applyNextTurn` discards the leading illegal queued turns,
applies the first legal one (leaving the rest queued), and leaves the heading
unchanged (draining the queue) when no queued turn is legal. -/
theorem C3_turn_legality :
    (∀ H ∈ canonicalDirs, ∀ D ∈ canonicalDirs,
      (Snake.legalTurn H (some D) = true ↔ Dir.perp H D)) ∧
    (∀ H ∈ canonicalDirs,
      Snake.legalTurn H (some H) = false ∧
        Snake.legalTurn H (some ⟨-H.dx, -H.dy⟩) = false) ∧
    (∀ (s : Snake) (pre post : List (Option Dir)) (d : Dir),
      s.turns = pre ++ some d :: post →
      (∀ x ∈ pre, s.isLegalTurn x = false) →
      s.isLegalTurn (some d) = true →
      s.applyNextTurn = { s with direction := d, turns := post }) ∧
    (∀ s : Snake, (∀ x ∈ s.turns, s.isLegalTurn x = false) →
      s.applyNextTurn = { s with turns := [] }) := by
  refine ⟨by decide, by decide, ?_, ?_⟩
  · intro s pre post d hturns hpre hd
    unfold Snake.applyNextTurn
    rw [hturns, Snake.applyNextTurnAux_first_legal s.direction pre post d hpre hd]
  · intro s h
    unfold Snake.applyNextTurn
    rw [Snake.applyNextTurnAux_all_illegal s.direction s.turns h]

/-- Witness for C3 at concrete inputs: heading right, queue
[right, down, up]; the illegal straight-ahead re-issue is discarded and the
first legal turn (down) is applied, leaving [up] queued. -/
theorem C3_turn_legality_witness :
    turnSnake.applyNextTurn =
      { turnSnake with direction := dirDown, turns := [some dirUp] } := by
  have h := C3_turn_legality.2.2.1 turnSnake [some dirRight] [some dirUp] dirDown
    (by decide) (by decide) (by decide)
  exact h

/-! ## C7: re-entrant frame with the same timestamp -/

/-- C7: if a frame at timestamp `t` advanced the state and committed a head
cell (the entry timestamp of the current square is `t`), then running the
per-frame handler again at the same timestamp is a no-op on the model state:
the fill proportion is zero, so the handler only re-draws a partial fill on
the canvas, returns `true`, and changes nothing — no segment added, no tail
removed, no bonus decrement. -/
theorem C7_same_timestamp_idempotent (r r' : Rand) (g g1 : Game) (t : JNum)
    (h : Game.update r g t = (true, g1)) (he : g1.enteredSquare = some t) :
    Game.update r' g1 t = (true, g1) := by
  have hrun : g.running = true := by
    by_contra hr
    have hr' : g.running = false := by simpa using hr
    unfold Game.update at h
    rw [hr'] at h
    simp at h
  have hrun1 : g1.running = true := by
    have := Game.update_running r g t
    rw [h] at this
    simpa [hrun] using this
  unfold Game.update
  rw [hrun1, he]
  have hz : ((((t.sub t)).mul g1.squaresPerSecond).div thousand).num = 0 := by
    simp [JNum.sub, JNum.mul, JNum.div]
  simp [JNum.ge1_of_num_zero hz]

/-- Witness for C7: the first dimension-2 commit enters cell 3 at timestamp
0; calling the handler again at timestamp 0 returns `true` with the state
unchanged. -/
theorem C7_same_timestamp_idempotent_witness :
    Game.update ⟨0, false⟩ tinyA2 0 = (true, tinyA2) :=
  C7_same_timestamp_idempotent ⟨1, false⟩ ⟨0, false⟩ tinyA1 tinyA2 0 (by decide) (by decide)

/-! ## C8: failed food placement is not the specified skip -/

/-- C8 (code bug evidence): on a grid with no grass cell, `randomCell`
returns `undefined` (not `null`), so `addRandomFood`'s guard `cell !== null`
still takes the placement branch: no real grid cell changes and the game does
not fault, but — contrary to the specified "skip with no bonus-points
update" — `setBonusPoints(Math.max(0, NaN))` stores `NaN` into
`bonusPoints`, and the food cell becomes `undefined`. -/
theorem C8_full_grid_not_skipped :
    fullGame.grid.randomCell Color.grass 0 = none ∧
      fullGame.addRandomFood ⟨0, false⟩ =
        (none, { fullGame with scorekeeper := ⟨some 5, none⟩ }) ∧
      (fullGame.addRandomFood ⟨0, false⟩).2.scorekeeper.bonusPoints ≠
        fullGame.scorekeeper.bonusPoints := by
  refine ⟨by decide, by decide, by decide⟩

/-! ## A case characterization of `updateHead` -/

namespace Game

@[simp] theorem decrementBonusPoints_score (sk : Scorekeeper) :
    sk.decrementBonusPoints.score = sk.score := rfl

@[simp] theorem setBonusPoints_score (sk : Scorekeeper) (p : Option Int) :
    (sk.setBonusPoints p).score = sk.score := rfl

@[simp] theorem turnApplied_score (gm : Game) :
    gm.turnApplied.scorekeeper.score = gm.scorekeeper.score := rfl

@[simp] theorem addRandomFood_score (gm : Game) (r : Rand) :
    (gm.addRandomFood r).2.scorekeeper.score = gm.scorekeeper.score := by
  simp only [addRandomFood]
  cases gm.grid.randomCell Color.grass r.cell <;>
    simp [Scorekeeper.setBonusPoints]

theorem eatFood_score (gm : Game) (r : Rand) (f s : Bool) :
    (gm.eatFood r f s).scorekeeper.score =
      jadd gm.scorekeeper.score (jadd (some 1) gm.scorekeeper.bonusPoints) := by
  simp only [eatFood]
  split
  · simp [Scorekeeper.incrementScore]
  · split <;> simp [Scorekeeper.incrementScore]

/-- `updateHead` by cases: collision, plain commit, or food commit. -/
theorem updateHead_char (r : Rand) (gm : Game) (t : JNum) :
    updateHead r gm t =
      match gm.commitCell, gm.turnApplied.grid.isTraversable gm.commitCell with
      | some nx, true =>
        if gm.turnApplied.grid.isFood nx = true then
          (true, (gm.turnApplied.enterSquare nx t true).eatFood r true
            (gm.turnApplied.grid.isSuperFood nx))
        else
          (true, gm.turnApplied.enterSquare nx t false)
      | _, _ => (false, gm.turnApplied) := by
  simp only [updateHead, commitCell]
  cases hnext : gm.turnApplied.grid.inDirectionO gm.turnApplied.snake.getHead
      gm.turnApplied.snake.direction with
  | none => rfl
  | some nx =>
    cases htrav : gm.turnApplied.grid.isTraversable (some nx) with
    | false => rfl
    | true =>
      by_cases hfood : gm.grid.isFood nx = true
      · simp [hfood]
      · have hf : gm.grid.isFood nx = false := by simpa using hfood
        simp [hf]

end Game

/-! ## C1: collision is terminal -/

/-- C1 (amended): on the frame whose commit-stage state would commit a
non-traversable cell (off grid or snake-colored), the per-frame handler
returns the stop signal `false`; past that point the only fields that were
touched on the way to the test are the turn queue, the heading and the
bonus decay — grid, snake segments and score are exactly those of the
commit-stage state — and, since the frame loop does not re-arm after a
`false` return, feeding any further frames to the loop leaves the state
unchanged (until `reset()`, or until `start()` is invoked again). -/
theorem C1_collision_stop (r : Rand) (g g' : Game) (t : JNum)
    (hc : g.frameCommitState t = some g')
    (hcol : g'.turnApplied.grid.isTraversable g'.commitCell = false) :
    Game.update r g t = (false, g'.turnApplied) ∧
      (Game.update r g t).2.grid = g'.grid ∧
      (Game.update r g t).2.snake.segments = g'.snake.segments ∧
      (Game.update r g t).2.snake.head = g'.snake.head ∧
      (Game.update r g t).2.snake.tail = g'.snake.tail ∧
      (Game.update r g t).2.scorekeeper.score = g'.scorekeeper.score ∧
      ∀ frames, Game.runFrames g ((r, t) :: frames) = g'.turnApplied := by
  have hupd : Game.update r g t = (false, g'.turnApplied) := by
    rw [Game.update_of_commit_some r g t g' hc, Game.updateHead_char]
    cases hcc : g'.commitCell with
    | none => rfl
    | some nx =>
      rw [hcc] at hcol
      rw [hcol]
  refine ⟨hupd, ?_, ?_, ?_, ?_, ?_, ?_⟩
  · rw [hupd]; rfl
  · rw [hupd]; simp [Game.turnApplied, Snake.applyNextTurn]
  · rw [hupd]; simp [Game.turnApplied, Snake.applyNextTurn]
  · rw [hupd]; simp [Game.turnApplied, Snake.applyNextTurn]
  · rw [hupd]; simp
  · intro frames
    unfold Game.runFrames
    rw [hupd]

/-- Witness for C1 at the dimension-3 wall run: the frame at timestamp 1000
signals stop, and the loop ignores any further frames. -/
theorem C1_collision_stop_witness :
    Game.update ⟨0, false⟩ wallB2 1000 = (false, wallB2.frameFillStage.turnApplied) ∧
      Game.runFrames wallB2 [(⟨0, false⟩, 1000), (⟨0, false⟩, 3000)] =
        wallB2.frameFillStage.turnApplied := by
  have h := C1_collision_stop ⟨0, false⟩ wallB2 wallB2.frameFillStage 1000
    (by decide) (by decide)
  exact ⟨h.1, h.2.2.2.2.2.2 [(⟨0, false⟩, 3000)]⟩

/-- Counterexample to C1 as stated: the engine does not remain in the
terminal state until `reset()` — pressing space at game over calls
`start()`, which re-arms the frame loop without any reset, and the next
frame mutates grid and snake (it retracts the tail again).  `wallB3` is the
terminal state of a dimension-3 run into the wall (update at 1000 returned
`false`), `wallB3s` the same state after the space key, and the frame at
2000 changes the grid. -/
theorem C1_terminal_until_reset_cex :
    Game.update ⟨0, false⟩ wallB2 1000 = (false, wallB3) ∧
      Game.handleEvent ⟨0, false⟩ wallB3 Key.space = wallB3s ∧
      wallB3s = wallB3 ∧
      (Game.update ⟨0, false⟩ wallB3s 2000).2.grid ≠ wallB3.grid ∧
      (Game.update ⟨0, false⟩ wallB3s 2000).2.snake.tail ≠ wallB3.snake.tail := by
  refine ⟨by decide, by decide, by decide, by decide, by decide⟩

/-! ## C5: pathfinder safety classification -/

theorem betterCell_false_of_ok_not_ok (tg fg : List (Option Nat)) (n : Nat)
    (c : Option Nat) (hc : okCell tg fg c = true) (hn : okCell tg fg (some n) = false) :
    betterCell tg fg n c = false := by
  simp [betterCell, hc, hn]

theorem ok_of_betterCell_true (tg fg : List (Option Nat)) (n : Nat) (c : Option Nat)
    (hc : okCell tg fg c = true) (hb : betterCell tg fg n c = true) :
    okCell tg fg (some n) = true := by
  cases hn : okCell tg fg (some n) with
  | true => rfl
  | false => rw [betterCell_false_of_ok_not_ok tg fg n c hc hn] at hb; cases hb

theorem ok_of_betterCell_false (tg fg : List (Option Nat)) (n : Nat) (c : Option Nat)
    (hb : betterCell tg fg n c = false) : okCell tg fg c = true := by
  cases hc : okCell tg fg c with
  | true => rfl
  | false => simp [betterCell, hc] at hb

theorem moveScan_ok_preserved (g : Grid) (tg fg : List (Option Nat)) (ns : List Nat)
    (c : Option Nat) (hc : okCell tg fg c = true) :
    okCell tg fg (moveScan g tg fg ns c) = true := by
  induction ns generalizing c with
  | nil => simpa [moveScan]
  | cons n rest ih =>
    simp only [moveScan, List.foldl_cons] at ih ⊢
    by_cases hcol : (!(g.colorAt n == Color.snake)) = true
    · rw [if_pos hcol]
      by_cases hb : betterCell tg fg n c = true
      · rw [if_pos hb]
        exact ih _ (ok_of_betterCell_true tg fg n c hc hb)
      · rw [if_neg hb]
        exact ih _ hc
    · rw [if_neg hcol]
      exact ih _ hc

theorem moveScan_ok_attained (g : Grid) (tg fg : List (Option Nat)) (ns : List Nat)
    (c : Option Nat)
    (h : ∃ n ∈ ns, g.colorAt n ≠ Color.snake ∧ okCell tg fg (some n) = true) :
    okCell tg fg (moveScan g tg fg ns c) = true := by
  induction ns generalizing c with
  | nil => rcases h with ⟨n, hn, _⟩; cases hn
  | cons m rest ih =>
    rcases h with ⟨n, hn, hcol, hok⟩
    rcases List.mem_cons.mp hn with rfl | hn'
    · simp only [moveScan, List.foldl_cons]
      have hcol' : (!(g.colorAt n == Color.snake)) = true := by
        simp [hcol]
      rw [if_pos hcol']
      by_cases hb : betterCell tg fg n c = true
      · rw [if_pos hb]
        exact moveScan_ok_preserved g tg fg rest (some n) hok
      · rw [if_neg hb]
        have hc : okCell tg fg c = true :=
          ok_of_betterCell_false tg fg n c (by simpa using hb)
        exact moveScan_ok_preserved g tg fg rest c hc
    · simp only [moveScan, List.foldl_cons]
      exact ih _ ⟨n, hn', hcol, hok⟩

/-- C5 (amended): the pathfinder classifies a neighbor as unsafe exactly when
its tail-gradient entry is Infinity or it is the food cell (food-gradient 0)
at tail-gradient distance exactly 1; an unsafe neighbor never replaces a safe
candidate; and whenever any safe candidate exists at all (the straight-ahead
default or some non-Body neighbor of the head), the selected cell is safe, so
the food cell with tail-gradient distance 1 is not selected that turn.
(Without a safe candidate the original claim fails: see the counterexample.) -/
theorem C5_pathfinder_safety (g : Grid) (s : Snake) (food : Option Nat) :
    (∀ n : Nat,
      okCell (g.gradient s.getTail) (g.gradient food) (some n) = false ↔
        (gradAt (g.gradient s.getTail) n = none ∨
          (gradAt (g.gradient food) n = some 0 ∧
            gradAt (g.gradient s.getTail) n = some 1))) ∧
    (∀ (n : Nat) (c : Option Nat),
      okCell (g.gradient s.getTail) (g.gradient food) c = true →
      okCell (g.gradient s.getTail) (g.gradient food) (some n) = false →
      betterCell (g.gradient s.getTail) (g.gradient food) n c = false) ∧
    (∀ start : Option Nat,
      (okCell (g.gradient s.getTail) (g.gradient food) start = true ∨
        ∃ n ∈ g.neighbors (s.getHead.getD 0),
          g.colorAt n ≠ Color.snake ∧
            okCell (g.gradient s.getTail) (g.gradient food) (some n) = true) →
      ∀ f : Nat, gradAt (g.gradient food) f = some 0 →
        gradAt (g.gradient s.getTail) f = some 1 →
        moveScan g (g.gradient s.getTail) (g.gradient food)
          (g.neighbors (s.getHead.getD 0)) start ≠ some f) := by
  refine ⟨?_, betterCell_false_of_ok_not_ok _ _, ?_⟩
  · intro n
    simp only [okCell]
    generalize gradAt (g.gradient s.getTail) n = tgv
    generalize gradAt (g.gradient food) n = fgv
    rcases tgv with _ | a
    · simp
    · rcases fgv with _ | b
      · simp
      · by_cases ha : a = 1 <;> by_cases hb : b = 0 <;> simp [ha, hb]
  · intro start hstart f hf0 hf1
    intro hcontra
    have hok : okCell (g.gradient s.getTail) (g.gradient food)
        (moveScan g (g.gradient s.getTail) (g.gradient food)
          (g.neighbors (s.getHead.getD 0)) start) = true := by
      rcases hstart with hs | hex
      · exact moveScan_ok_preserved _ _ _ _ _ hs
      · exact moveScan_ok_attained _ _ _ _ _ hex
    rw [hcontra] at hok
    simp [okCell, hf0, hf1] at hok

/-- Witness for C5 on the `open3` board: the straight-ahead cell 2 is safe,
the food cell 4 has food-gradient 0 and tail-gradient 1, and the scan does
not select it. -/
theorem C5_pathfinder_safety_witness :
    moveScan open3 (open3.gradient open3Snake.getTail) (open3.gradient (some 4))
        (open3.neighbors (open3Snake.getHead.getD 0))
        (some 2) ≠ some 4 :=
  (C5_pathfinder_safety open3 open3Snake (some 4)).2.2 (some 2)
    (Or.inl (by decide)) 4 (by decide) (by decide)

/-- Counterexample to C5 as stated: when no safe candidate exists, the
pathfinder does select the food cell with tail-gradient distance exactly 1.
On the `corner3` board the head (cell 0) faces the wall, its only non-Body
neighbor is the food cell 3 with food-gradient 0 and tail-gradient 1, and
`move` returns the heading pointing straight into it. -/
theorem C5_pathfinder_safety_cex :
    cornerSnake.getHead = some 0 ∧
      cornerSnake.getTail = some 6 ∧
      3 ∈ corner3.neighbors 0 ∧
      gradAt (corner3.gradient (some 3)) 3 = some 0 ∧
      gradAt (corner3.gradient (some 6)) 3 = some 1 ∧
      moveFn corner3 cornerSnake (some 3) = some (corner3.direction 0 3) ∧
      corner3.direction 0 3 = ⟨1, 0⟩ := by
  refine ⟨by decide, by decide, by decide, by decide, by decide, by decide, by decide⟩

/-! ## C6: score dynamics -/

/-- C6: the score is a non-negative integer that never decreases; a frame
that does not commit leaves it unchanged, and a committing frame increases it
by exactly `1 + b` — where `b` is the bonus value at the moment
`incrementScore` runs, i.e. the commit-stage bonus after its single decay
step — exactly when the committed cell is food, and leaves it unchanged
otherwise. -/
theorem C6_score_increment (r : Rand) (g : Game) (t : JNum) :
    (g.frameCommitState t = none →
      (Game.update r g t).2.scorekeeper.score = g.scorekeeper.score) ∧
    (∀ g' q b, g.frameCommitState t = some g' →
      g'.scorekeeper.score = some q → g'.scorekeeper.bonusPoints = some b → 0 ≤ q →
      ∃ q' : Int, (Game.update r g t).2.scorekeeper.score = some q' ∧
        q ≤ q' ∧ 0 ≤ q' ∧
        (∀ nx, g'.commitCell = some nx →
          g'.turnApplied.grid.isTraversable (some nx) = true →
          (g'.turnApplied.grid.isFood nx = true → q' = q + 1 + max 0 (b - 1)) ∧
          (g'.turnApplied.grid.isFood nx = false → q' = q)) ∧
        ((g'.turnApplied.grid.isTraversable g'.commitCell = false) → q' = q)) := by
  constructor
  · intro h
    rw [Game.update_of_commit_none r g t h]
  · intro g' q b hc hq hb h0
    rw [Game.update_of_commit_some r g t g' hc]
    cases hcc : g'.commitCell with
    | none =>
      rw [Game.updateHead_char, hcc]
      refine ⟨q, by simpa using hq, le_refl q, h0, ?_, fun _ => rfl⟩
      intro nx hnx
      exact Option.noConfusion hnx
    | some nx =>
      cases htrav : g'.turnApplied.grid.isTraversable (some nx) with
      | false =>
        rw [Game.updateHead_char, hcc, htrav]
        refine ⟨q, by simpa using hq, le_refl q, h0, ?_, fun _ => rfl⟩
        intro nx' hnx'
        have hEq : nx' = nx := (Option.some_inj.mp hnx').symm
        subst hEq
        intro ht
        rw [htrav] at ht
        exact Bool.noConfusion ht
      | true =>
        by_cases hfood : g'.turnApplied.grid.isFood nx = true
        · rw [Game.updateHead_char, hcc, htrav]
          dsimp only
          rw [if_pos hfood]
          have hm : (0 : Int) ≤ max 0 (b - 1) := le_max_left 0 (b - 1)
          refine ⟨q + 1 + max 0 (b - 1), ?_, by linarith, by linarith, ?_, ?_⟩
          · rw [Game.eatFood_score]
            have h1 : (g'.turnApplied.enterSquare nx t true).scorekeeper =
                g'.scorekeeper.decrementBonusPoints := rfl
            rw [h1]
            simp [Scorekeeper.decrementBonusPoints, Scorekeeper.setBonusPoints,
              jsub, jmax0, hq, hb, jadd, add_assoc]
          · intro nx' hnx'
            have hEq : nx' = nx := (Option.some_inj.mp hnx').symm
            subst hEq
            exact fun _ => ⟨fun _ => rfl, fun hf => absurd hfood (by simpa using hf)⟩
          · intro hfalse
            exact Bool.noConfusion hfalse
        · have hf : g'.turnApplied.grid.isFood nx = false := by simpa using hfood
          rw [Game.updateHead_char, hcc, htrav]
          dsimp only
          rw [if_neg (by simpa using hf)]
          refine ⟨q, by simpa using hq, le_refl q, h0, ?_, ?_⟩
          · intro nx' hnx'
            have hEq : nx' = nx := (Option.some_inj.mp hnx').symm
            subst hEq
            exact fun _ => ⟨fun ht => absurd ht (by simpa using hf), fun _ => rfl⟩
          · intro hfalse
            exact Bool.noConfusion hfalse

/-! ## C4: the gradient is the BFS distance field -/

/-- Every cell reachable at all has a least path length. -/
theorem exists_isBFSDist {g : Grid} {src d x : Nat} (h : Reaches g src d x) :
    ∃ dm, IsBFSDist g src x dm := by
  classical
  have hne : ∃ n, Reaches g src n x := ⟨d, h⟩
  exact ⟨Nat.find hne, Nat.find_spec hne, fun d' hd' => Nat.find_min' hne hd'⟩

theorem isBFSDist_unique {g : Grid} {src x d d' : Nat}
    (h : IsBFSDist g src x d) (h' : IsBFSDist g src x d') : d = d' :=
  Nat.le_antisymm (h.2 d' h'.1) (h'.2 d h.1)

theorem nodup_lt_length_le {N : Nat} {l : List Nat} (hnd : l.Nodup)
    (hlt : ∀ x ∈ l, x < N) : l.length ≤ N := by
  have h1 : l.toFinset.card = l.length := List.toFinset_card_of_nodup hnd
  have h2 : l.toFinset ⊆ Finset.range N := by
    intro x hx
    rw [List.mem_toFinset] at hx
    exact Finset.mem_range.mpr (hlt x hx)
  calc l.length = l.toFinset.card := h1.symm
    _ ≤ (Finset.range N).card := Finset.card_le_card h2
    _ = N := Finset.card_range N

theorem getD_replicate_none (N x : Nat) :
    (List.replicate N (none : Option Nat)).getD x none = none := by
  rcases Nat.lt_or_ge x N with h | h
  · rw [List.getD_eq_getElem?_getD, List.getElem?_replicate]
    simp [h]
  · rw [List.getD_eq_getElem?_getD, List.getElem?_eq_none (by simpa using h)]
    rfl

theorem getD_set_self {l : List (Option Nat)} {i : Nat} (h : i < l.length)
    (v : Option Nat) : (l.set i v).getD i none = v := by
  rw [List.getD_eq_getElem?_getD, List.getElem?_set_self (by simpa using h)]
  rfl

theorem getD_set_ne {l : List (Option Nat)} {i j : Nat} (h : i ≠ j)
    (v : Option Nat) : (l.set i v).getD j none = l.getD j none := by
  rw [List.getD_eq_getElem?_getD, List.getElem?_set_ne h, ← List.getD_eq_getElem?_getD]

namespace Grid

/-- Membership in the neighbor list, in raw index arithmetic. -/
theorem mem_neighbors_iff (g : Grid) (c n : Nat) :
    n ∈ g.neighbors c ↔
      ((0 < c / g.dimension ∧ n = c - g.dimension) ∨
        (c / g.dimension < g.dimension - 1 ∧ n = c + g.dimension) ∨
          (0 < c % g.dimension ∧ n = c - 1) ∨
            (c % g.dimension < g.dimension - 1 ∧ n = c + 1)) := by
  simp only [neighbors, List.mem_append]
  constructor
  · intro h
    rcases h with ((h | h) | h) | h <;>
      · split at h <;> simp_all
  · intro h
    rcases h with ⟨h1, rfl⟩ | ⟨h1, rfl⟩ | ⟨h1, rfl⟩ | ⟨h1, rfl⟩
    · exact Or.inl (Or.inl (Or.inl (by simp [h1])))
    · exact Or.inl (Or.inl (Or.inr (by simp [h1])))
    · exact Or.inl (Or.inr (by simp [h1]))
    · exact Or.inr (by simp [h1])

/-- Neighbors of an in-range cell are in range (the grid is square). -/
theorem neighbors_lt (g : Grid) (hwf : g.cells.length = g.dimension * g.dimension)
    {c n : Nat} (hc : c < g.cells.length) (hn : n ∈ g.neighbors c) :
    n < g.cells.length := by
  have hd : 0 < g.dimension := by
    by_contra hd0
    have : g.dimension = 0 := by omega
    rw [hwf, this] at hc
    omega
  have hsp := Nat.div_add_mod c g.dimension
  have hmod : c % g.dimension < g.dimension := Nat.mod_lt _ hd
  have hdiv : c / g.dimension < g.dimension := by
    rw [hwf] at hc
    exact Nat.div_lt_iff_lt_mul hd |>.mpr (by omega)
  rw [mem_neighbors_iff] at hn
  rw [hwf]
  rw [hwf] at hc
  have hq : g.dimension * (c / g.dimension) ≤ g.dimension * (g.dimension - 1) :=
    Nat.mul_le_mul_left _ (by omega)
  have hq' : g.dimension * (g.dimension - 1) = g.dimension * g.dimension - g.dimension := by
    rw [Nat.mul_sub, Nat.mul_one]
  have hBB : g.dimension * 1 ≤ g.dimension * g.dimension := Nat.mul_le_mul_left _ hd
  rw [Nat.mul_one] at hBB
  rcases hn with ⟨h1, rfl⟩ | ⟨h1, rfl⟩ | ⟨h1, rfl⟩ | ⟨h1, rfl⟩
  · omega
  · have hq2 : g.dimension * (c / g.dimension + 1) ≤ g.dimension * (g.dimension - 1) :=
      Nat.mul_le_mul_left _ (by omega)
    have hq3 : g.dimension * (c / g.dimension + 1) =
        g.dimension * (c / g.dimension) + g.dimension := by ring
    omega
  · omega
  · omega

/-- The neighbor list never repeats a cell. -/
theorem neighbors_nodup (g : Grid) (c : Nat) : (g.neighbors c).Nodup := by
  have k1 : c % g.dimension ≤ c := Nat.mod_le c g.dimension
  have k2 : g.dimension = 0 ∨ (0 < g.dimension ∧ c % g.dimension < g.dimension) := by
    rcases Nat.eq_zero_or_pos g.dimension with h | h
    · exact Or.inl h
    · exact Or.inr ⟨h, Nat.mod_lt _ h⟩
  have k3 : c / g.dimension = 0 ∨ g.dimension ≤ c := by
    rcases Nat.lt_or_ge c g.dimension with h | h
    · exact Or.inl (Nat.div_eq_of_lt h)
    · exact Or.inr h
  have k4 : g.dimension ≠ 1 ∨ c % g.dimension = 0 := by
    by_cases h : g.dimension = 1
    · exact Or.inr (by rw [h, Nat.mod_one])
    · exact Or.inl h
  have k5 : g.dimension ≠ 0 ∨ c / g.dimension = 0 := by
    by_cases h : g.dimension = 0
    · exact Or.inr (by rw [h, Nat.div_zero])
    · exact Or.inl h
  simp only [neighbors]
  split_ifs <;> simp_all <;> omega

end Grid

/-- At the end of the traversal (empty queue) the distance array is exactly
the BFS distance field. -/
theorem BFSInv_final {g : Grid} {src : Nat} {seen : List Nat} {acc : List (Option Nat)}
    {D : Nat} {q1 q2 : List (Nat × Nat)} (hinv : BFSInv g src [] seen acc D q1 q2) :
    ∀ x, ((∀ d, acc.getD x none = some d ↔ IsBFSDist g src x d) ∧
      (acc.getD x none = none ↔ ∀ d, ¬ Reaches g src d x)) := by
  have hall : ∀ d x, IsBFSDist g src x d → x ∈ seen := by
    intro d
    induction d using Nat.strong_induction_on with
    | _ d ih =>
      intro x hx
      by_cases hD : d ≤ D
      · exact hinv.hcomplete_le x d hx hD
      · match d, hx, ih with
        | 0, hx, ih => exact absurd (Nat.zero_le D) hD
        | k + 1, hx, ih =>
          cases hx.1 with
          | succ hy hadj hcol =>
            obtain ⟨dy, hdy⟩ := exists_isBFSDist hy
            have hylt : dy < k + 1 := Nat.lt_of_le_of_lt (hdy.2 _ hy) (Nat.lt_succ_self k)
            have hyseen := ih dy hylt _ hdy
            exact hinv.hpopped _ hyseen (by simp) _ hadj hcol
  intro x
  refine ⟨fun d => ⟨fun h => (hinv.hacc_some x d h).1, fun h => ?_⟩, ?_, ?_⟩
  · have hx : x ∈ seen := hall d x h
    obtain ⟨d', hd'⟩ := hinv.hacc_pop x hx (by simp)
    rw [hd']
    exact congrArg some (isBFSDist_unique (hinv.hacc_some x d' hd').1 h)
  · intro h d hr
    obtain ⟨dm, hdm⟩ := exists_isBFSDist hr
    obtain ⟨d', hd'⟩ := hinv.hacc_pop x (hall dm x hdm) (by simp)
    rw [h] at hd'
    exact Option.noConfusion hd'
  · intro h
    cases hacc : acc.getD x none with
    | none => rfl
    | some d' => exact absurd ((hinv.hacc_some x d' hacc).1).1 (h d')

/-- When the unprocessed part of the current layer is exhausted, the
invariant shifts to the next layer. -/
theorem BFSInv_relabel {g : Grid} {src : Nat} {queue : List (Nat × Nat)} {seen : List Nat}
    {acc : List (Option Nat)} {D : Nat} {q2 : List (Nat × Nat)}
    (hinv : BFSInv g src queue seen acc D [] q2) :
    BFSInv g src queue seen acc (D + 1) q2 [] := by
  refine ⟨by simpa using hinv.hsplit, hinv.hq2, by simp, hinv.hseen_nodup, hinv.hqueue_sub,
    hinv.hqueue_nodup, hinv.hseen_lt, ?_, ?_, hinv.hpopped, hinv.hacc_some, hinv.hacc_pop,
    hinv.hacc_none, hinv.hacc_len⟩
  · intro x d hx hd
    rcases Nat.lt_or_ge d (D + 1) with h | h
    · exact hinv.hcomplete_le x d hx (by omega)
    · have hd1 : d = D + 1 := by omega
      subst hd1
      rcases hinv.hfrontier x hx with h | ⟨p, hp, _⟩
      · exact h
      · cases hp
  · intro x hx
    cases hx1 : hx.1 with
    | succ hy hadj hcol =>
      rename_i y
      obtain ⟨dy, hdy⟩ := exists_isBFSDist hy
      have hdyle : dy ≤ D + 1 := hdy.2 _ hy
      have hdyeq : dy = D + 1 := by
        by_contra hne
        have hstep : Reaches g src (dy + 1) x := Reaches.succ hdy.1 hadj hcol
        have := hx.2 _ hstep
        omega
      subst hdyeq
      rcases hinv.hfrontier y hdy with hyseen | ⟨p, hp, _⟩
      · by_cases hyq : y ∈ queue.map Prod.fst
        · rw [List.mem_map] at hyq
          obtain ⟨p, hpq, hpy⟩ := hyq
          have hpq2 : p ∈ q2 := by
            have := hinv.hsplit
            simp only [List.nil_append] at this
            rwa [this] at hpq
          right
          exact ⟨p, hpq2, by rw [hpy]; exact hadj, hcol⟩
        · left
          exact hinv.hpopped _ hyseen hyq _ hadj hcol
      · cases hp

/-- The starting state of the traversal satisfies the invariant. -/
theorem BFSInv_init (g : Grid) (src : Nat) (hsrc : src < g.cells.length) :
    BFSInv g src [(src, 0)] [src] (List.replicate g.cells.length none) 0 [(src, 0)] [] := by
  have hdist0 : IsBFSDist g src src 0 := ⟨Reaches.zero, fun d' _ => Nat.zero_le d'⟩
  refine ⟨rfl, ?_, by simp, by simp, ?_, by simp, ?_, ?_, ?_, ?_, ?_, ?_, ?_, by simp⟩
  · intro p hp
    rw [List.mem_singleton] at hp
    subst hp
    exact ⟨rfl, hdist0⟩
  · intro p hp
    rw [List.mem_singleton] at hp
    subst hp
    exact List.mem_singleton.mpr rfl
  · intro x hx
    rw [List.mem_singleton] at hx
    subst hx
    exact hsrc
  · intro x d hx hd
    have hd0 : d = 0 := by omega
    subst hd0
    cases hx.1 with
    | zero => exact List.mem_singleton.mpr rfl
  · intro x hx
    cases hx.1 with
    | succ hy hadj hcol =>
      cases hy with
      | zero =>
        right
        exact ⟨(src, 0), List.mem_singleton.mpr rfl, hadj, hcol⟩
  · intro y hy hyq
    rw [List.mem_singleton] at hy
    subst hy
    exact absurd (by simp) hyq
  · intro x d' h
    rw [getD_replicate_none] at h
    exact Option.noConfusion h
  · intro x hx hxq
    rw [List.mem_singleton] at hx
    subst hx
    exact absurd (by simp) hxq
  · intro x _
    exact getD_replicate_none _ _

/-- Processing the front of the queue preserves the invariant. -/
theorem BFSInv_step {g : Grid} {src c D : Nat} {t q2 rest : List (Nat × Nat)}
    {seen : List Nat} {acc : List (Option Nat)}
    (hwf : g.cells.length = g.dimension * g.dimension)
    (hinv : BFSInv g src ((c, D) :: rest) seen acc D ((c, D) :: t) q2) :
    BFSInv g src
      (rest ++ ((g.neighbors c).filter fun n =>
        !(seen.contains n) && !(g.colorAt n == Color.snake)).map (fun n => (n, D + 1)))
      (seen ++ ((g.neighbors c).filter fun n =>
        !(seen.contains n) && !(g.colorAt n == Color.snake)))
      (acc.set c (some D)) D t
      (q2 ++ ((g.neighbors c).filter fun n =>
        !(seen.contains n) && !(g.colorAt n == Color.snake)).map (fun n => (n, D + 1))) := by
  set ns := (g.neighbors c).filter fun n =>
    !(seen.contains n) && !(g.colorAt n == Color.snake) with hns
  have hrest : rest = t ++ q2 := by
    have h := hinv.hsplit
    rw [List.cons_append] at h
    exact (List.cons.injEq _ _ _ _).mp h |>.2
  have hcdist : IsBFSDist g src c D := (hinv.hq1 (c, D) (List.mem_cons_self _ _)).2
  have hcseen : c ∈ seen := hinv.hqueue_sub (c, D) (List.mem_cons_self _ _)
  have hclt : c < g.cells.length := hinv.hseen_lt c hcseen
  have hns_mem : ∀ n, n ∈ ns ↔
      (n ∈ g.neighbors c ∧ n ∉ seen ∧ g.colorAt n ≠ Color.snake) := by
    intro n
    rw [hns, List.mem_filter]
    simp [List.elem_iff]
  have hns_nodup : ns.Nodup := (g.neighbors_nodup c).filter _
  have hns_lt : ∀ n ∈ ns, n < g.cells.length := fun n hn =>
    g.neighbors_lt hwf hclt ((hns_mem n).mp hn).1
  have hns_new : ∀ n ∈ ns, n ∉ seen := fun n hn => ((hns_mem n).mp hn).2.1
  have hns_dist : ∀ n ∈ ns, IsBFSDist g src n (D + 1) := by
    intro n hn
    obtain ⟨hadj, hnseen, hcol⟩ := (hns_mem n).mp hn
    refine ⟨Reaches.succ hcdist.1 hadj hcol, ?_⟩
    intro d' hr
    by_contra hlt
    have hle : d' ≤ D := by omega
    obtain ⟨dm, hdm⟩ := exists_isBFSDist hr
    exact hnseen (hinv.hcomplete_le n dm hdm (le_trans (hdm.2 _ hr) hle))
  have hcnotrest : c ∉ rest.map Prod.fst := by
    have h := hinv.hqueue_nodup
    rw [List.map_cons] at h
    exact (List.nodup_cons.mp h).1
  have hmapfst : ((ns.map fun n => (n, D + 1)).map Prod.fst) = ns := by
    rw [List.map_map]
    exact List.map_id _
  have hq2cells : ∀ p ∈ rest, p.1 ∈ seen := fun p hp =>
    hinv.hqueue_sub p (List.mem_cons_of_mem _ hp)
  refine ⟨?_, ?_, ?_, ?_, ?_, ?_, ?_, ?_, ?_, ?_, ?_, ?_, ?_, ?_⟩
  · rw [hrest, List.append_assoc]
  · exact fun p hp => hinv.hq1 p (List.mem_cons_of_mem _ hp)
  · intro p hp
    rcases List.mem_append.mp hp with h | h
    · exact hinv.hq2 p h
    · rw [List.mem_map] at h
      obtain ⟨n, hn, rfl⟩ := h
      exact ⟨rfl, hns_dist n hn⟩
  · rw [List.nodup_append]
    exact ⟨hinv.hseen_nodup, hns_nodup, fun x hx => fun hx' => hns_new x hx' hx⟩
  · intro p hp
    rcases List.mem_append.mp hp with h | h
    · exact List.mem_append.mpr (Or.inl (hq2cells p h))
    · rw [List.mem_map] at h
      obtain ⟨n, hn, rfl⟩ := h
      exact List.mem_append.mpr (Or.inr hn)
  · rw [List.map_append, hmapfst, List.nodup_append]
    refine ⟨?_, hns_nodup, ?_⟩
    · have h := hinv.hqueue_nodup
      rw [List.map_cons] at h
      exact (List.nodup_cons.mp h).2
    · intro x hx hx'
      rw [List.mem_map] at hx
      obtain ⟨p, hp, rfl⟩ := hx
      exact hns_new _ hx' (hq2cells p hp)
  · intro x hx
    rcases List.mem_append.mp hx with h | h
    · exact hinv.hseen_lt x h
    · exact hns_lt x h
  · intro x d hx hd
    exact List.mem_append.mpr (Or.inl (hinv.hcomplete_le x d hx hd))
  · intro x hx
    rcases hinv.hfrontier x hx with h | ⟨p, hp, hadjx, hcolx⟩
    · exact Or.inl (List.mem_append.mpr (Or.inl h))
    · rcases List.mem_cons.mp hp with rfl | hp'
      · by_cases hxseen : x ∈ seen
        · exact Or.inl (List.mem_append.mpr (Or.inl hxseen))
        · exact Or.inl (List.mem_append.mpr (Or.inr ((hns_mem x).mpr ⟨hadjx, hxseen, hcolx⟩)))
      · exact Or.inr ⟨p, hp', hadjx, hcolx⟩
  · intro y hy hyq
    rw [List.map_append, hmapfst] at hyq
    rcases List.mem_append.mp hy with hyseen | hyns
    · by_cases hyc : y = c
      · subst hyc
        intro nb hnb hnbcol
        by_cases hnbseen : nb ∈ seen
        · exact List.mem_append.mpr (Or.inl hnbseen)
        · exact List.mem_append.mpr (Or.inr ((hns_mem nb).mpr ⟨hnb, hnbseen, hnbcol⟩))
      · have hyold : y ∉ ((c, D) :: rest).map Prod.fst := by
          rw [List.map_cons]
          intro hmem
          rcases List.mem_cons.mp hmem with h | h
          · exact hyc h
          · exact hyq (List.mem_append.mpr (Or.inl h))
        intro nb hnb hnbcol
        exact List.mem_append.mpr (Or.inl (hinv.hpopped y hyseen hyold nb hnb hnbcol))
    · exact absurd (List.mem_append.mpr (Or.inr hyns)) hyq
  · intro x d' hx
    by_cases hxc : x = c
    · subst hxc
      rw [getD_set_self (by rw [hinv.hacc_len]; exact hclt)] at hx
      have hd : d' = D := (Option.some_inj.mp hx).symm
      subst hd
      refine ⟨hcdist, List.mem_append.mpr (Or.inl hcseen), ?_⟩
      rw [List.map_append, hmapfst]
      intro hmem
      rcases List.mem_append.mp hmem with h | h
      · exact hcnotrest h
      · exact hns_new x h hcseen
    · rw [getD_set_ne (fun h => hxc h.symm)] at hx
      obtain ⟨hdist, hseen', hnotq⟩ := hinv.hacc_some x d' hx
      refine ⟨hdist, List.mem_append.mpr (Or.inl hseen'), ?_⟩
      rw [List.map_append, hmapfst]
      intro hmem
      rcases List.mem_append.mp hmem with h | h
      · exact hnotq (by rw [List.map_cons]; exact List.mem_cons_of_mem _ h)
      · exact hns_new x h hseen'
  · intro x hx hxq
    rw [List.map_append, hmapfst] at hxq
    rcases List.mem_append.mp hx with hxseen | hxns
    · by_cases hxc : x = c
      · subst hxc
        exact ⟨D, getD_set_self (by rw [hinv.hacc_len]; exact hclt) _⟩
      · have hxold : x ∉ ((c, D) :: rest).map Prod.fst := by
          rw [List.map_cons]
          intro hmem
          rcases List.mem_cons.mp hmem with h | h
          · exact hxc h
          · exact hxq (List.mem_append.mpr (Or.inl h))
        obtain ⟨d', hd'⟩ := hinv.hacc_pop x hxseen hxold
        exact ⟨d', by rw [getD_set_ne (fun h => hxc h.symm)]; exact hd'⟩
    · exact absurd (List.mem_append.mpr (Or.inr hxns)) hxq
  · intro x hx
    by_cases hxc : x = c
    · subst hxc
      exfalso
      rcases hx with h | h
      · rw [List.map_append, hmapfst] at h
        rcases List.mem_append.mp h with h' | h'
        · exact hcnotrest h'
        · exact hns_new _ h' hcseen
      · exact h (List.mem_append.mpr (Or.inl hcseen))
    · rw [getD_set_ne (fun h => hxc h.symm)]
      apply hinv.hacc_none
      rcases hx with h | h
      · rw [List.map_append, hmapfst] at h
        rcases List.mem_append.mp h with h' | h'
        · exact Or.inl (by rw [List.map_cons]; exact List.mem_cons_of_mem _ h')
        · exact Or.inr (hns_new _ h')
      · exact Or.inr fun hmem => h (List.mem_append.mpr (Or.inl hmem))
  · rw [List.length_set]
    exact hinv.hacc_len

/-- The queue-driven traversal computes the exact BFS distance field. -/
theorem gradientLoop_correct (g : Grid) (src : Nat)
    (hwf : g.cells.length = g.dimension * g.dimension) :
    ∀ (fuel : Nat) (queue : List (Nat × Nat)) (seen : List Nat) (acc : List (Option Nat))
      (D : Nat) (q1 q2 : List (Nat × Nat)),
      BFSInv g src queue seen acc D q1 q2 →
      queue.length + (g.cells.length - seen.length) ≤ fuel →
      ∀ x,
        ((∀ d, (g.gradientLoop fuel queue seen acc).getD x none = some d ↔
            IsBFSDist g src x d) ∧
          ((g.gradientLoop fuel queue seen acc).getD x none = none ↔
            ∀ d, ¬ Reaches g src d x)) := by
  intro fuel
  induction fuel with
  | zero =>
    intro queue seen acc D q1 q2 hinv hfuel x
    have hq : queue = [] := List.length_eq_zero.mp (by omega)
    subst hq
    exact BFSInv_final hinv x
  | succ fuel ih =>
    intro queue seen acc D q1 q2 hinv hfuel x
    cases queue with
    | nil => exact BFSInv_final hinv x
    | cons p rest =>
      obtain ⟨c, dval⟩ := p
      have hstep : ∃ t q2', BFSInv g src ((c, dval) :: rest) seen acc dval
          ((c, dval) :: t) q2' := by
        cases q1 with
        | nil =>
          have hq2eq : q2 = (c, dval) :: rest := by
            have h := hinv.hsplit
            rw [List.nil_append] at h
            exact h.symm
          subst hq2eq
          have hrel := BFSInv_relabel hinv
          have hdv : dval = D + 1 := (hrel.hq1 (c, dval) (List.mem_cons_self _ _)).1
          subst hdv
          exact ⟨rest, [], hrel⟩
        | cons p1 t =>
          have hsplit := hinv.hsplit
          rw [List.cons_append] at hsplit
          obtain ⟨hp1, hrest⟩ := (List.cons.injEq _ _ _ _).mp hsplit
          subst hp1
          have hdv : dval = D := (hinv.hq1 (c, dval) (List.mem_cons_self _ _)).1
          subst hdv
          exact ⟨t, q2, hinv⟩
      obtain ⟨t, q2', hinv'⟩ := hstep
      have hloop : g.gradientLoop (fuel + 1) ((c, dval) :: rest) seen acc =
          g.gradientLoop fuel
            (rest ++ ((g.neighbors c).filter fun n =>
              !(seen.contains n) && !(g.colorAt n == Color.snake)).map (fun n => (n, dval + 1)))
            (seen ++ ((g.neighbors c).filter fun n =>
              !(seen.contains n) && !(g.colorAt n == Color.snake)))
            (acc.set c (some dval)) := rfl
      rw [hloop]
      have hnext := BFSInv_step hwf hinv'
      apply ih _ _ _ _ _ _ hnext _ x
      have hle := nodup_lt_length_le hnext.hseen_nodup hnext.hseen_lt
      rw [List.length_cons] at hfuel
      rw [List.length_append] at hle
      rw [List.length_append, List.length_map, List.length_append]
      omega

/-- `gradient(start)` is the exact BFS distance field from a valid start. -/
theorem gradient_correct (g : Grid) (src : Nat) (hsrc : src < g.cells.length)
    (hwf : g.cells.length = g.dimension * g.dimension) :
    ∀ x, ((∀ d, gradAt (g.gradient (some src)) x = some d ↔ IsBFSDist g src x d) ∧
      (gradAt (g.gradient (some src)) x = none ↔ ∀ d, ¬ Reaches g src d x)) := by
  intro x
  have hb : List.length [(src, 0)] + (g.cells.length - List.length [src]) ≤
      g.cells.length + 1 := by
    simp only [List.length_singleton]
    omega
  exact gradientLoop_correct g src hwf (g.cells.length + 1) [(src, 0)] [src]
    (List.replicate g.cells.length none) 0 [(src, 0)] [] (BFSInv_init g src hsrc) hb x

/-- Division and remainder of a coordinate-composed index. -/
theorem div_mod_of_mul_add (d x y : Nat) (hd : 0 < d) (hy : y < d) :
    (x * d + y) / d = x ∧ (x * d + y) % d = y := by
  constructor
  · rw [Nat.mul_comm x d, Nat.mul_add_div hd, Nat.div_eq_of_lt hy, Nat.add_zero]
  · rw [Nat.mul_comm x d, Nat.mul_add_mod, Nat.mod_eq_of_lt hy]

/-- Cells reachable from a valid source are valid. -/
theorem reaches_lt {g : Grid} {src d x : Nat}
    (hwf : g.cells.length = g.dimension * g.dimension)
    (hsrc : src < g.cells.length) (h : Reaches g src d x) : x < g.cells.length := by
  induction h with
  | zero => exact hsrc
  | succ hy hadj hcol ih => exact g.neighbors_lt hwf ih hadj

/-- Adjacent cells are at Manhattan distance exactly 1. -/
theorem manhattan_adj (g : Grid) (hd : 0 < g.dimension) {c n : Nat}
    (hn : n ∈ g.neighbors c) : g.manhattanDistance c n = 1 := by
  have hsp : c / g.dimension * g.dimension + c % g.dimension = c := by
    rw [Nat.mul_comm]
    exact Nat.div_add_mod c g.dimension
  have hrlt : c % g.dimension < g.dimension := Nat.mod_lt _ hd
  rw [Grid.mem_neighbors_iff] at hn
  rcases hn with ⟨h1, rfl⟩ | ⟨h1, rfl⟩ | ⟨h1, rfl⟩ | ⟨h1, rfl⟩
  · have hmul : (c / g.dimension - 1) * g.dimension =
        c / g.dimension * g.dimension - g.dimension := by
      rw [Nat.sub_mul, one_mul]
    have hone : 1 * g.dimension ≤ c / g.dimension * g.dimension :=
      Nat.mul_le_mul_right _ h1
    rw [one_mul] at hone
    have hceq : c - g.dimension =
        (c / g.dimension - 1) * g.dimension + c % g.dimension := by omega
    obtain ⟨hdiv, hmod⟩ := div_mod_of_mul_add g.dimension (c / g.dimension - 1)
      (c % g.dimension) hd hrlt
    simp only [Grid.manhattanDistance, Grid.toXY]
    rw [hceq, hdiv, hmod]
    omega
  · have hceq : c + g.dimension =
        (c / g.dimension + 1) * g.dimension + c % g.dimension := by
      have hmul : (c / g.dimension + 1) * g.dimension =
          c / g.dimension * g.dimension + g.dimension := by ring
      omega
    obtain ⟨hdiv, hmod⟩ := div_mod_of_mul_add g.dimension (c / g.dimension + 1)
      (c % g.dimension) hd hrlt
    simp only [Grid.manhattanDistance, Grid.toXY]
    rw [hceq, hdiv, hmod]
    omega
  · have hceq : c - 1 = c / g.dimension * g.dimension + (c % g.dimension - 1) := by omega
    obtain ⟨hdiv, hmod⟩ := div_mod_of_mul_add g.dimension (c / g.dimension)
      (c % g.dimension - 1) hd (by omega)
    simp only [Grid.manhattanDistance, Grid.toXY]
    rw [hceq, hdiv, hmod]
    omega
  · have hceq : c + 1 = c / g.dimension * g.dimension + (c % g.dimension + 1) := by omega
    obtain ⟨hdiv, hmod⟩ := div_mod_of_mul_add g.dimension (c / g.dimension)
      (c % g.dimension + 1) hd (by omega)
    simp only [Grid.manhattanDistance, Grid.toXY]
    rw [hceq, hdiv, hmod]
    omega

/-- BFS paths are at least as long as the Manhattan distance. -/
theorem manhattan_le_of_reaches (g : Grid) (hd : 0 < g.dimension) {src d x : Nat}
    (h : Reaches g src d x) : g.manhattanDistance src x ≤ d := by
  induction h with
  | zero =>
    simp only [Grid.manhattanDistance, Grid.toXY]
    omega
  | @succ n c c' hy hadj hcol ih =>
    have htri : g.manhattanDistance src c' ≤
        g.manhattanDistance src c + g.manhattanDistance c c' := by
      simp only [Grid.manhattanDistance, Grid.toXY]
      omega
    have hone := manhattan_adj g hd hadj
    omega

/-- On an obstacle-free grid every cell is reachable in exactly its
Manhattan distance. -/
theorem reaches_of_manhattan (g : Grid)
    (hwf : g.cells.length = g.dimension * g.dimension) (hd : 0 < g.dimension)
    (hfree : ∀ i < g.cells.length, g.colorAt i ≠ Color.snake)
    (src : Nat) (hsrc : src < g.cells.length) :
    ∀ m x, x < g.cells.length → g.manhattanDistance src x = m → Reaches g src m x := by
  have hsq : src / g.dimension < g.dimension := by
    rw [hwf] at hsrc
    exact Nat.div_lt_iff_lt_mul hd |>.mpr (by omega)
  have hsr : src % g.dimension < g.dimension := Nat.mod_lt _ hd
  intro m
  induction m with
  | zero =>
    intro x hx hman
    have hxeq : x = src := by
      simp only [Grid.manhattanDistance, Grid.toXY] at hman
      have h1 : x / g.dimension = src / g.dimension ∧
          x % g.dimension = src % g.dimension := by omega
      have hsp1 := Nat.div_add_mod x g.dimension
      have hsp2 := Nat.div_add_mod src g.dimension
      rw [h1.1, h1.2] at hsp1
      omega
    rw [hxeq]
    exact Reaches.zero
  | succ k ihk =>
    intro x hx hman
    have hsp : x / g.dimension * g.dimension + x % g.dimension = x := by
      rw [Nat.mul_comm]
      exact Nat.div_add_mod x g.dimension
    have hrlt : x % g.dimension < g.dimension := Nat.mod_lt _ hd
    have hqlt : x / g.dimension < g.dimension := by
      rw [hwf] at hx
      exact Nat.div_lt_iff_lt_mul hd |>.mpr (by omega)
    have hbound : (g.dimension - 1) * g.dimension =
        g.dimension * g.dimension - g.dimension := by
      rw [Nat.sub_mul, one_mul, Nat.mul_comm]
    simp only [Grid.manhattanDistance, Grid.toXY] at hman
    rcases Nat.lt_trichotomy (src / g.dimension) (x / g.dimension) with hq | hq | hq
    · -- step from x - dimension
      have h1 : 1 ≤ x / g.dimension := Nat.lt_of_le_of_lt (Nat.zero_le _) hq
      have hmul : (x / g.dimension - 1) * g.dimension =
          x / g.dimension * g.dimension - g.dimension := by
        rw [Nat.sub_mul, one_mul]
      have hone : 1 * g.dimension ≤ x / g.dimension * g.dimension :=
        Nat.mul_le_mul_right _ h1
      rw [one_mul] at hone
      have hceq : x - g.dimension =
          (x / g.dimension - 1) * g.dimension + x % g.dimension := by omega
      obtain ⟨hdiv, hmod⟩ := div_mod_of_mul_add g.dimension (x / g.dimension - 1)
        (x % g.dimension) hd hrlt
      rw [← hceq] at hdiv hmod
      have hy_lt : x - g.dimension < g.cells.length := by omega
      have hy_man : g.manhattanDistance src (x - g.dimension) = k := by
        simp only [Grid.manhattanDistance, Grid.toXY]
        rw [hdiv, hmod]
        omega
      have hmem : x ∈ g.neighbors (x - g.dimension) := by
        rw [Grid.mem_neighbors_iff]
        right; left
        refine ⟨by rw [hdiv]; omega, by omega⟩
      exact Reaches.succ (ihk _ hy_lt hy_man) hmem (hfree x hx)
    · rcases Nat.lt_trichotomy (src % g.dimension) (x % g.dimension) with hr | hr | hr
      · -- step from x - 1
        have hceq : x - 1 = x / g.dimension * g.dimension + (x % g.dimension - 1) := by
          omega
        obtain ⟨hdiv, hmod⟩ := div_mod_of_mul_add g.dimension (x / g.dimension)
          (x % g.dimension - 1) hd (by omega)
        rw [← hceq] at hdiv hmod
        have hy_lt : x - 1 < g.cells.length := by omega
        have hy_man : g.manhattanDistance src (x - 1) = k := by
          simp only [Grid.manhattanDistance, Grid.toXY]
          rw [hdiv, hmod]
          omega
        have hmem : x ∈ g.neighbors (x - 1) := by
          rw [Grid.mem_neighbors_iff]
          right; right; right
          refine ⟨by rw [hmod]; omega, by omega⟩
        exact Reaches.succ (ihk _ hy_lt hy_man) hmem (hfree x hx)
      · exfalso
        omega
      · -- step from x + 1
        have hceq : x + 1 = x / g.dimension * g.dimension + (x % g.dimension + 1) := by
          omega
        obtain ⟨hdiv, hmod⟩ := div_mod_of_mul_add g.dimension (x / g.dimension)
          (x % g.dimension + 1) hd (by omega)
        rw [← hceq] at hdiv hmod
        have hxb : x / g.dimension * g.dimension ≤ (g.dimension - 1) * g.dimension :=
          Nat.mul_le_mul_right _ (by omega)
        have hslt : x % g.dimension + 1 < g.dimension :=
          Nat.lt_of_lt_of_le (Nat.succ_lt_succ hr) (Nat.succ_le_of_lt hsr)
        have hy_lt : x + 1 < g.cells.length := by
          rw [hwf]
          calc x + 1 = x / g.dimension * g.dimension + (x % g.dimension + 1) := hceq
            _ < x / g.dimension * g.dimension + g.dimension :=
              Nat.add_lt_add_left hslt _
            _ = (x / g.dimension + 1) * g.dimension := by ring
            _ ≤ g.dimension * g.dimension := Nat.mul_le_mul_right _ hqlt
        have hy_man : g.manhattanDistance src (x + 1) = k := by
          simp only [Grid.manhattanDistance, Grid.toXY]
          rw [hdiv, hmod]
          omega
        have hmem : x ∈ g.neighbors (x + 1) := by
          rw [Grid.mem_neighbors_iff]
          right; right; left
          refine ⟨by rw [hmod]; omega, by omega⟩
        exact Reaches.succ (ihk _ hy_lt hy_man) hmem (hfree x hx)
    · -- step from x + dimension
      have hceq : x + g.dimension =
          (x / g.dimension + 1) * g.dimension + x % g.dimension := by
        have hmul : (x / g.dimension + 1) * g.dimension =
            x / g.dimension * g.dimension + g.dimension := by ring
        omega
      obtain ⟨hdiv, hmod⟩ := div_mod_of_mul_add g.dimension (x / g.dimension + 1)
        (x % g.dimension) hd hrlt
      rw [← hceq] at hdiv hmod
      have hxb : (x / g.dimension + 1) * g.dimension ≤ (g.dimension - 1) * g.dimension :=
        Nat.mul_le_mul_right _ (by omega)
      have hy_lt : x + g.dimension < g.cells.length := by
        rw [hwf]
        have hmul : (x / g.dimension + 1) * g.dimension =
            x / g.dimension * g.dimension + g.dimension := by ring
        omega
      have hy_man : g.manhattanDistance src (x + g.dimension) = k := by
        simp only [Grid.manhattanDistance, Grid.toXY]
        rw [hdiv, hmod]
        omega
      have hmem : x ∈ g.neighbors (x + g.dimension) := by
        rw [Grid.mem_neighbors_iff]
        left
        refine ⟨by rw [hdiv]; exact Nat.succ_pos _, by omega⟩
      exact Reaches.succ (ihk _ hy_lt hy_man) hmem (hfree x hx)

/-- C4: for every (square) grid and valid source cell, `gradient(source)`
assigns to each cell exactly the BFS shortest-path distance from the source
over cells that are not snake-colored (body cells act as impassable walls;
the source itself is exempt, as the tail gradient starts on a body cell),
and the `Infinity` sentinel (`none`) to exactly the cells unreachable
through non-body cells; on an obstacle-free grid the distance of every cell
equals its Manhattan distance from the source. -/
theorem C4_gradient_bfs (g : Grid) (src : Nat) (hsrc : src < g.cells.length)
    (hwf : g.cells.length = g.dimension * g.dimension) :
    (∀ x d, gradAt (g.gradient (some src)) x = some d ↔ IsBFSDist g src x d) ∧
    (∀ x, gradAt (g.gradient (some src)) x = none ↔ ∀ d, ¬ Reaches g src d x) ∧
    ((∀ i < g.cells.length, g.colorAt i ≠ Color.snake) → ∀ x, x < g.cells.length →
      gradAt (g.gradient (some src)) x = some (g.manhattanDistance src x)) := by
  have hd : 0 < g.dimension := by
    by_contra h
    have h0 : g.dimension = 0 := by omega
    rw [hwf, h0] at hsrc
    omega
  refine ⟨fun x d => (gradient_correct g src hsrc hwf x).1 d,
    fun x => (gradient_correct g src hsrc hwf x).2, ?_⟩
  intro hfree x hx
  have hreach : Reaches g src (g.manhattanDistance src x) x :=
    reaches_of_manhattan g hwf hd hfree src hsrc _ x hx rfl
  have hmin : IsBFSDist g src x (g.manhattanDistance src x) :=
    ⟨hreach, fun d' hr' => manhattan_le_of_reaches g hd hr'⟩
  exact ((gradient_correct g src hsrc hwf x).1 _).mpr hmin

/-- Witness for C4 on the obstacle-free 2x2 grid with source 0: cell 3 gets
its Manhattan distance 2. -/
theorem C4_gradient_bfs_witness :
    gradAt (free2.gradient (some 0)) 3 = some (free2.manhattanDistance 0 3) :=
  (C4_gradient_bfs free2 0 (by decide) (by decide)).2.2 (by decide) 3 (by decide)

/-- Witness for C6: the first dimension-2 commit eats the food at cell 3
with commit-stage score 0 and bonus 21; the score becomes exactly
0 + 1 + max 0 (21 - 1) = 21. -/
theorem C6_score_increment_witness :
    ∃ q' : Int, (Game.update ⟨1, false⟩ tinyA1 0).2.scorekeeper.score = some q' ∧
      (0 : Int) ≤ q' ∧ 0 ≤ q' ∧
      (∀ nx, tinyA1.commitCell = some nx →
        tinyA1.turnApplied.grid.isTraversable (some nx) = true →
        (tinyA1.turnApplied.grid.isFood nx = true → q' = 0 + 1 + max 0 (21 - 1)) ∧
        (tinyA1.turnApplied.grid.isFood nx = false → q' = 0)) ∧
      ((tinyA1.turnApplied.grid.isTraversable tinyA1.commitCell = false) → q' = 0) := by
  have h := (C6_score_increment ⟨1, false⟩ tinyA1 0).2 tinyA1 0 21
    (by decide) (by decide) (by decide) (by decide)
  exact h

/-! ## C2: the snake window and the grid's body cells -/

theorem mod_two_cases (a N : Nat) (h : a < 2 * N) :
    a % N = if a < N then a else a - N := by
  split
  · exact Nat.mod_eq_of_lt (by assumption)
  · rw [Nat.mod_eq_sub_mod (by omega), Nat.mod_eq_of_lt (by omega)]

theorem mod_shift_inj {N t i j : Nat} (hi : i < N) (hj : j < N)
    (h : (t + i) % N = (t + j) % N) : i = j := by
  have h2 : Nat.ModEq N i j := Nat.ModEq.add_left_cancel' t h
  have h3 : i % N = j % N := h2
  rwa [Nat.mod_eq_of_lt hi, Nat.mod_eq_of_lt hj] at h3

theorem mod_shift_surj {N t j : Nat} (ht : t < N) (hj : j < N) :
    ∃ i, i < N ∧ (t + i) % N = j := by
  rcases Nat.lt_or_ge j t with hc | hc
  · refine ⟨N + j - t, by omega, ?_⟩
    rw [show t + (N + j - t) = N + j by omega, Nat.add_mod_left, Nat.mod_eq_of_lt hj]
  · refine ⟨j - t, by omega, ?_⟩
    rw [show t + (j - t) = j by omega, Nat.mod_eq_of_lt hj]

theorem mod_shift_surj_ne {N t j : Nat} (ht : t < N) (hj : j < N) (hne : j ≠ t) :
    ∃ i, i < N - 1 ∧ (t + 1 + i) % N = j := by
  rcases Nat.lt_or_ge j t with hc | hc
  · refine ⟨N + j - t - 1, by omega, ?_⟩
    rw [show t + 1 + (N + j - t - 1) = N + j by omega, Nat.add_mod_left,
      Nat.mod_eq_of_lt hj]
  · refine ⟨j - t - 1, by omega, ?_⟩
    rw [show t + 1 + (j - t - 1) = j by omega, Nat.mod_eq_of_lt hj]

theorem mem_iff_getD {α : Type} (l : List α) (d a : α) :
    a ∈ l ↔ ∃ j, j < l.length ∧ l.getD j d = a := by
  rw [List.mem_iff_getElem?]
  constructor
  · rintro ⟨j, hj⟩
    have hjl : j < l.length := by
      by_contra hcon
      rw [List.getElem?_eq_none (by omega)] at hj
      cases hj
    refine ⟨j, hjl, ?_⟩
    rw [List.getD_eq_getElem?_getD, hj]
    rfl
  · rintro ⟨j, hjl, hj⟩
    refine ⟨j, ?_⟩
    rw [List.getD_eq_getElem?_getD, List.getElem?_eq_getElem hjl] at hj
    rw [List.getElem?_eq_getElem hjl]
    simpa using hj

theorem nodup_getD_ne {α : Type} {l : List α} (hnd : l.Nodup) (d : α) {i j : Nat}
    (hi : i < l.length) (hj : j < l.length) (hij : i ≠ j) :
    l.getD i d ≠ l.getD j d := by
  intro h
  have hinj := List.nodup_iff_injective_get.mp hnd
  have hg : l.get ⟨i, hi⟩ = l.get ⟨j, hj⟩ := by
    rw [List.getD_eq_getElem?_getD, List.getElem?_eq_getElem hi,
      List.getD_eq_getElem?_getD, List.getElem?_eq_getElem hj] at h
    simpa using h
  exact hij (congrArg Fin.val (hinj hg))

theorem nodup_of_getD_ne {α : Type} {l : List α} (d : α)
    (h : ∀ i j, i < l.length → j < l.length → i ≠ j → l.getD i d ≠ l.getD j d) :
    l.Nodup := by
  rw [List.nodup_iff_injective_get]
  intro a b hab
  by_contra hne
  have hne' : a.1 ≠ b.1 := fun hv => hne (Fin.ext hv)
  refine h a.1 b.1 a.2 b.2 hne' ?_
  rw [List.getD_eq_getElem?_getD, List.getElem?_eq_getElem a.2,
    List.getD_eq_getElem?_getD, List.getElem?_eq_getElem b.2]
  simpa using hab

theorem coverage_of_nodup {l : List (Option Nat)} {N : Nat} (hnd : l.Nodup)
    (hsome : ∀ o ∈ l, ∃ v, o = some v ∧ v < N) (hlen : N ≤ l.length) :
    ∀ i, i < N → some i ∈ l := by
  intro i hi
  have hsub : l.toFinset ⊆ (Finset.range N).image Option.some := by
    intro o ho
    rw [List.mem_toFinset] at ho
    obtain ⟨v, rfl, hv⟩ := hsome o ho
    exact Finset.mem_image.mpr ⟨v, Finset.mem_range.mpr hv, rfl⟩
  have hcard : ((Finset.range N).image Option.some).card ≤ l.toFinset.card := by
    rw [List.toFinset_card_of_nodup hnd]
    calc ((Finset.range N).image Option.some).card ≤ (Finset.range N).card :=
          Finset.card_image_le
      _ = N := Finset.card_range N
      _ ≤ l.length := hlen
  have heq : l.toFinset = (Finset.range N).image Option.some :=
    Finset.eq_of_subset_of_card_le hsub hcard
  have hmem : some i ∈ l.toFinset := by
    rw [heq]
    exact Finset.mem_image.mpr ⟨i, Finset.mem_range.mpr hi, rfl⟩
  rwa [List.mem_toFinset] at hmem

theorem getD_replicate {α : Type} (n i : Nat) (a : α) :
    (List.replicate n a).getD i a = a := by
  rcases Nat.lt_or_ge i n with h | h
  · rw [List.getD_eq_getElem?_getD, List.getElem?_replicate]
    simp [h]
  · rw [List.getD_eq_getElem?_getD, List.getElem?_eq_none (by simpa using h)]
    rfl

theorem ring_add_len {N h t : Nat} (hh : h < N) (ht : t < N)
    (hroom : (N + h - t) % N + 1 < N) :
    (N + (h + 1) % N - t) % N = (N + h - t) % N + 1 := by
  have hd : (h = t + (N + h - t) % N) ∨ (h + N = t + (N + h - t) % N) := by
    rw [mod_two_cases _ _ (by omega)]
    by_cases hc : h < t
    · rw [if_pos (by omega)]; right; omega
    · rw [if_neg (by omega)]; left; omega
  have hLlt : (N + h - t) % N < N := Nat.mod_lt _ (by omega)
  rw [mod_two_cases (h + 1) N (by omega)]
  by_cases h1 : h + 1 < N
  · rw [if_pos h1, mod_two_cases _ _ (by omega)]
    rcases hd with hd | hd
    · rw [if_neg (by omega)]; omega
    · rw [if_pos (by omega)]; omega
  · rw [if_neg h1, mod_two_cases _ _ (by omega)]
    rcases hd with hd | hd
    · rw [if_pos (by omega)]; omega
    · exfalso; omega

theorem ring_add_wrap {N h t : Nat} (hh : h < N) (ht : t < N)
    (hwrap : (N + h - t) % N + 1 = N) : (h + 1) % N = t := by
  have hd : (h = t + (N + h - t) % N) ∨ (h + N = t + (N + h - t) % N) := by
    rw [mod_two_cases _ _ (by omega)]
    by_cases hc : h < t
    · rw [if_pos (by omega)]; right; omega
    · rw [if_neg (by omega)]; left; omega
  have hLlt : (N + h - t) % N < N := Nat.mod_lt _ (by omega)
  rw [mod_two_cases (h + 1) N (by omega)]
  rcases hd with hd | hd
  · rw [if_neg (by omega)]; omega
  · rw [if_pos (by omega)]; omega

theorem ring_sub_len {N h t : Nat} (hh : h < N) (ht : t < N)
    (hpos : 1 ≤ (N + h - t) % N) :
    (N + h - (t + 1) % N) % N = (N + h - t) % N - 1 := by
  have hd : (h = t + (N + h - t) % N) ∨ (h + N = t + (N + h - t) % N) := by
    rw [mod_two_cases _ _ (by omega)]
    by_cases hc : h < t
    · rw [if_pos (by omega)]; right; omega
    · rw [if_neg (by omega)]; left; omega
  have hLlt : (N + h - t) % N < N := Nat.mod_lt _ (by omega)
  rw [mod_two_cases (t + 1) N (by omega)]
  by_cases h1 : t + 1 < N
  · rw [if_pos h1, mod_two_cases _ _ (by omega)]
    rcases hd with hd | hd
    · rw [if_neg (by omega)]; omega
    · rw [if_pos (by omega)]; omega
  · rw [if_neg h1]
    have ht1 : t + 1 - N = 0 := by omega
    rw [ht1, Nat.sub_zero, Nat.add_mod_left, Nat.mod_eq_of_lt hh]
    rcases hd with hd | hd <;> omega

theorem ring_sub_len_full {N t : Nat} (hN : 0 < N) (ht : t < N) :
    (N + t - (t + 1) % N) % N = N - 1 := by
  rw [mod_two_cases (t + 1) N (by omega)]
  by_cases h1 : t + 1 < N
  · rw [if_pos h1, mod_two_cases _ _ (by omega), if_pos (by omega)]
    omega
  · rw [if_neg h1]
    have ht1 : t + 1 - N = 0 := by omega
    rw [ht1, Nat.sub_zero, Nat.add_mod_left, Nat.mod_eq_of_lt ht]
    omega

namespace Snake

@[simp] theorem applyNextTurn_segments (s : Snake) :
    s.applyNextTurn.segments = s.segments := rfl

@[simp] theorem applyNextTurn_head (s : Snake) : s.applyNextTurn.head = s.head := rfl

@[simp] theorem applyNextTurn_tail (s : Snake) : s.applyNextTurn.tail = s.tail := rfl

@[simp] theorem applyNextTurn_window (s : Snake) :
    s.applyNextTurn.window = s.window := rfl

@[simp] theorem applyNextTurn_len (s : Snake) : s.applyNextTurn.len = s.len := rfl

@[simp] theorem changeDirection_segments (s : Snake) (d : Option Dir) :
    (s.changeDirection d).segments = s.segments := rfl

@[simp] theorem changeDirection_head (s : Snake) (d : Option Dir) :
    (s.changeDirection d).head = s.head := rfl

@[simp] theorem changeDirection_tail (s : Snake) (d : Option Dir) :
    (s.changeDirection d).tail = s.tail := rfl

@[simp] theorem changeDirection_window (s : Snake) (d : Option Dir) :
    (s.changeDirection d).window = s.window := rfl

@[simp] theorem changeDirection_len (s : Snake) (d : Option Dir) :
    (s.changeDirection d).len = s.len := rfl

@[simp] theorem addAtHead_segments_length (s : Snake) (c : Option Nat) :
    (s.addAtHead c).segments.length = s.segments.length := by
  simp [addAtHead]

@[simp] theorem addAtHead_tail (s : Snake) (c : Option Nat) :
    (s.addAtHead c).tail = s.tail := rfl

@[simp] theorem removeTail_segments (s : Snake) :
    s.removeTail.segments = s.segments := rfl

@[simp] theorem removeTail_head (s : Snake) : s.removeTail.head = s.head := rfl

theorem len_lt {s : Snake} (hh : s.head < s.segments.length) :
    s.len < s.segments.length :=
  Nat.mod_lt _ (Nat.lt_of_le_of_lt (Nat.zero_le _) hh)

theorem head_cases {s : Snake} (hh : s.head < s.segments.length)
    (ht : s.tail < s.segments.length) :
    s.head = s.tail + s.len ∨ s.head + s.segments.length = s.tail + s.len := by
  simp only [Snake.len]
  rw [mod_two_cases _ _ (by omega)]
  by_cases hc : s.head < s.tail
  · rw [if_pos (by omega)]; right; omega
  · rw [if_neg (by omega)]; left; omega

theorem head_mod {s : Snake} (hh : s.head < s.segments.length)
    (ht : s.tail < s.segments.length) :
    s.head = (s.tail + s.len) % s.segments.length := by
  rcases head_cases hh ht with hd | hd
  · rw [← hd, Nat.mod_eq_of_lt hh]
  · rw [← hd, Nat.add_mod_right, Nat.mod_eq_of_lt hh]

@[simp] theorem window_length (s : Snake) : s.window.length = s.len := by
  simp [window]

theorem window_getElem? (s : Snake) {i : Nat} (h : i < s.len) :
    s.window[i]? =
      some (s.segments.getD ((s.tail + i) % s.segments.length) none) := by
  unfold window
  rw [List.getElem?_map]
  simp [List.getElem?_range, h]

theorem window_getElem_none (s : Snake) {i : Nat} (h : s.len ≤ i) :
    s.window[i]? = none := by
  apply List.getElem?_eq_none
  simpa [window] using h

theorem window_getD (s : Snake) {i : Nat} (h : i < s.len) :
    s.window.getD i none =
      s.segments.getD ((s.tail + i) % s.segments.length) none := by
  rw [List.getD_eq_getElem?_getD, window_getElem? s h]
  rfl

theorem getTail_eq {s : Snake} (ht : s.tail < s.segments.length)
    (hpos : 1 ≤ s.len) : s.getTail = s.window.getD 0 none := by
  rw [window_getD _ (by omega)]
  simp only [Snake.getTail]
  rw [Nat.add_zero, Nat.mod_eq_of_lt ht]

theorem getHead_eq {s : Snake} (hh : s.head < s.segments.length)
    (ht : s.tail < s.segments.length) (hpos : 1 ≤ s.len) :
    s.getHead = s.window.getD (s.len - 1) none := by
  have hlt := len_lt hh
  have hd := head_cases hh ht
  rw [window_getD _ (by omega)]
  simp only [Snake.getHead]
  congr 1
  rw [mod_two_cases _ _ (by omega), mod_two_cases _ _ (by omega)]
  rcases hd with hd | hd <;> split_ifs <;> omega

theorem addAtHead_head_lt {s : Snake} (c : Option Nat)
    (hh : s.head < s.segments.length) :
    (s.addAtHead c).head < (s.addAtHead c).segments.length := by
  rw [addAtHead_segments_length]
  exact Nat.mod_lt _ (by omega)

theorem addAtHead_len {s : Snake} (c : Option Nat)
    (hh : s.head < s.segments.length) (ht : s.tail < s.segments.length)
    (hroom : s.len + 1 < s.segments.length) :
    (s.addAtHead c).len = s.len + 1 := by
  simp only [Snake.len, Snake.addAtHead, List.length_set] at hroom ⊢
  exact ring_add_len hh ht hroom

theorem addAtHead_window {s : Snake} (c : Option Nat)
    (hh : s.head < s.segments.length) (ht : s.tail < s.segments.length)
    (hroom : s.len + 1 < s.segments.length) :
    (s.addAtHead c).window = s.window ++ [c] := by
  have hN : 0 < s.segments.length := by omega
  have hlt := len_lt hh
  have hlen' : (s.addAtHead c).len = s.len + 1 := addAtHead_len c hh ht hroom
  apply List.ext_getElem?
  intro i
  by_cases hi : i < s.len + 1
  · rw [window_getElem? _ (by rw [hlen']; exact hi)]
    simp only [Snake.addAtHead, List.length_set]
    rcases Nat.lt_or_ge i s.len with hil | hil
    · have hne : s.head ≠ (s.tail + i) % s.segments.length := by
        intro he
        rw [head_mod hh ht] at he
        exact absurd (@mod_shift_inj s.segments.length s.tail s.len i hlt
          (by omega) he) (by omega)
      rw [getD_set_ne hne c,
        List.getElem?_append_left (by rw [window_length]; exact hil),
        window_getElem? _ hil]
    · have hieq : i = s.len := by omega
      subst hieq
      rw [← head_mod hh ht, getD_set_self hh c,
        List.getElem?_append_right (by rw [window_length])]
      simp
  · rw [window_getElem_none _ (by omega), List.getElem?_eq_none]
    simp only [List.length_append, window_length, List.length_singleton]
    omega

theorem addAtHead_wrap_head {s : Snake} (c : Option Nat)
    (hh : s.head < s.segments.length) (ht : s.tail < s.segments.length)
    (hwrap : s.len + 1 = s.segments.length) :
    (s.addAtHead c).head = (s.addAtHead c).tail := by
  simp only [Snake.len] at hwrap
  simp only [Snake.addAtHead]
  exact ring_add_wrap hh ht hwrap

theorem addAtHead_wrap_getD {s : Snake} (c : Option Nat)
    (hh : s.head < s.segments.length) (ht : s.tail < s.segments.length)
    (hwrap : s.len + 1 = s.segments.length) :
    ∀ j, j < s.segments.length → j ≠ s.head →
      ∃ i, i < s.len ∧ (s.tail + i) % s.segments.length = j ∧
        (s.addAtHead c).segments.getD j none = s.window.getD i none := by
  intro j hj hne
  obtain ⟨i, hiN, hieq⟩ := @mod_shift_surj s.segments.length s.tail j ht hj
  have hil : i < s.len := by
    rcases Nat.lt_or_ge i s.len with h | h
    · exact h
    · exfalso
      have hieq2 : i = s.len := by omega
      subst hieq2
      exact hne (by rw [← hieq, ← head_mod hh ht])
  refine ⟨i, hil, hieq, ?_⟩
  rw [window_getD _ hil, hieq]
  simp only [Snake.addAtHead]
  exact getD_set_ne (fun he => hne he.symm) c

theorem removeTail_tail_lt {s : Snake} (ht : s.tail < s.segments.length) :
    s.removeTail.tail < s.removeTail.segments.length := by
  simp only [Snake.removeTail]
  exact Nat.mod_lt _ (by omega)

theorem removeTail_len {s : Snake} (hh : s.head < s.segments.length)
    (ht : s.tail < s.segments.length) (hpos : 1 ≤ s.len) :
    s.removeTail.len = s.len - 1 := by
  simp only [Snake.len, Snake.removeTail] at hpos ⊢
  exact ring_sub_len hh ht hpos

theorem removeTail_window {s : Snake} (hh : s.head < s.segments.length)
    (ht : s.tail < s.segments.length) (hpos : 1 ≤ s.len) :
    s.removeTail.window = s.window.drop 1 := by
  have hN : 0 < s.segments.length := by omega
  have hlen' := removeTail_len hh ht hpos
  apply List.ext_getElem?
  intro i
  by_cases hi : i < s.len - 1
  · rw [window_getElem? _ (by rw [hlen']; exact hi), List.getElem?_drop,
      window_getElem? _ (show 1 + i < s.len by omega)]
    simp only [Snake.removeTail]
    rw [Nat.mod_add_mod, show s.tail + 1 + i = s.tail + (1 + i) by omega]
  · rw [window_getElem_none _ (by omega), List.getElem?_eq_none]
    simp only [List.length_drop, window_length]
    omega

theorem removeTail_full_len {s : Snake} (hN : 0 < s.segments.length)
    (ht : s.tail < s.segments.length) (hfull : s.head = s.tail) :
    s.removeTail.len = s.segments.length - 1 := by
  simp only [Snake.len, Snake.removeTail, hfull]
  exact ring_sub_len_full hN ht

theorem removeTail_full_getD {s : Snake} (hN : 0 < s.segments.length)
    (ht : s.tail < s.segments.length) (hfull : s.head = s.tail) :
    ∀ i, i < s.segments.length - 1 →
      s.removeTail.window.getD i none =
        s.segments.getD ((s.tail + 1 + i) % s.segments.length) none := by
  intro i hi
  rw [window_getD _ (by rw [removeTail_full_len hN ht hfull]; exact hi)]
  simp only [Snake.removeTail]
  rw [Nat.mod_add_mod]

end Snake

namespace Grid

@[simp] theorem length_set (g : Grid) (c : Nat) (col : Color) :
    (g.set c col).cells.length = g.cells.length := by
  simp [Grid.set]

@[simp] theorem dimension_set (g : Grid) (c : Nat) (col : Color) :
    (g.set c col).dimension = g.dimension := rfl

theorem colorAt_set_self (g : Grid) {c : Nat} (h : c < g.cells.length)
    (col : Color) : (g.set c col).colorAt c = col := by
  simp only [Grid.colorAt, Grid.set]
  rw [List.getD_eq_getElem?_getD, List.getElem?_set_self (by simpa using h)]
  rfl

theorem colorAt_set_ne (g : Grid) {c i : Nat} (h : c ≠ i) (col : Color) :
    (g.set c col).colorAt i = g.colorAt i := by
  simp only [Grid.colorAt, Grid.set]
  rw [List.getD_eq_getElem?_getD, List.getElem?_set_ne h,
    ← List.getD_eq_getElem?_getD]

theorem mem_cells_iff (g : Grid) (col : Color) :
    col ∈ g.cells ↔ ∃ j, j < g.cells.length ∧ g.colorAt j = col :=
  mem_iff_getD g.cells Color.grass col

theorem count_pos_of_colorAt (g : Grid) {i : Nat} {v : Color}
    (hi : i < g.cells.length) (hc : g.colorAt i = v) : 0 < g.count v := by
  have hv : v ∈ g.cells := (mem_cells_iff g v).mpr ⟨i, hi, hc⟩
  simp only [Grid.count]
  exact List.count_pos_iff.mpr hv

theorem count_zero_of_all (g : Grid) {v : Color}
    (h : ∀ i, i < g.cells.length → g.colorAt i ≠ v) : g.count v = 0 := by
  by_contra hc
  have hpos : 0 < g.cells.count v := Nat.pos_of_ne_zero hc
  have hv : v ∈ g.cells := List.count_pos_iff.mp hpos
  obtain ⟨j, hjl, hjc⟩ := (mem_cells_iff g v).mp hv
  exact h j hjl hjc

theorem randomCell_spec (g : Grid) (v : Color) (p : Nat) {c : Nat}
    (h : g.randomCell v p = some c) :
    c < g.cells.length ∧ g.colorAt c = v := by
  unfold Grid.randomCell at h
  split at h
  · rename_i hcnt
    injection h with h
    subst h
    split
    · rename_i hp
      simp only [Bool.and_eq_true, decide_eq_true_eq, beq_iff_eq] at hp
      exact ⟨hp.1, hp.2⟩
    · have hvmem : v ∈ g.cells := by
        simp only [Grid.count] at hcnt
        exact List.count_pos_iff.mp hcnt
      obtain ⟨j, hjl, hjc⟩ := (mem_cells_iff g v).mp hvmem
      have hex : ∃ x ∈ List.range g.cells.length,
          (fun i => g.colorAt i == v) x = true :=
        ⟨j, List.mem_range.mpr hjl, by simpa using hjc⟩
      have hsome : ((List.range g.cells.length).find? fun i =>
          g.colorAt i == v).isSome := List.find?_isSome.mpr hex
      obtain ⟨i, hfind⟩ := Option.isSome_iff_exists.mp hsome
      rw [hfind]
      simp only [Option.getD_some]
      have h1 := List.find?_some hfind
      have h2 := List.mem_of_find?_eq_some hfind
      exact ⟨List.mem_range.mp h2, by simpa using h1⟩
  · cases h

theorem randomCell_none (g : Grid) (v : Color) (p : Nat)
    (h : g.count v = 0) : g.randomCell v p = none := by
  unfold Grid.randomCell
  rw [h]
  simp

theorem inDirectionO_lt (g : Grid)
    (hwf : g.cells.length = g.dimension * g.dimension)
    {o : Option Nat} {d : Dir} {nx : Nat} (h : g.inDirectionO o d = some nx) :
    nx < g.cells.length := by
  unfold Grid.inDirectionO Grid.inDirection at h
  dsimp only at h
  split at h
  · rename_i hb
    obtain ⟨hx0, hx1, hy0, hy1⟩ := hb
    injection h with h
    subst h
    rw [hwf]
    have h1 : (((o.getD 0 : Nat) : Int) / (g.dimension : Int) + d.dx) * (g.dimension : Int) ≤
        ((g.dimension : Int) - 1) * g.dimension :=
      mul_le_mul_of_nonneg_right (by omega) (Int.natCast_nonneg _)
    have h2 : ((g.dimension : Int) - 1) * g.dimension =
        (g.dimension : Int) * g.dimension - g.dimension := by ring
    have hbound : (((o.getD 0 : Nat) : Int) / (g.dimension : Int) + d.dx) * (g.dimension : Int) +
        (((o.getD 0 : Nat) : Int) % (g.dimension : Int) + d.dy) <
          (g.dimension : Int) * g.dimension := by
      have hy2 : ((o.getD 0 : Nat) : Int) % (g.dimension : Int) + d.dy ≤
          (g.dimension : Int) - 1 := by omega
      linarith [h1, h2, hy2]
    have hnn : 0 ≤ (((o.getD 0 : Nat) : Int) / (g.dimension : Int) + d.dx) * (g.dimension : Int) +
        (((o.getD 0 : Nat) : Int) % (g.dimension : Int) + d.dy) := by
      have hp : 0 ≤ (((o.getD 0 : Nat) : Int) / (g.dimension : Int) + d.dx) * (g.dimension : Int) :=
        mul_nonneg (by omega) (Int.natCast_nonneg _)
      omega
    have hcast : ((g.dimension * g.dimension : Nat) : Int) =
        (g.dimension : Int) * g.dimension := by push_cast; ring
    rw [Int.toNat_lt hnn, hcast]
    exact hbound
  · cases h

end Grid

theorem corrA_mono {lo lo' : Nat} {g : Grid} {s : Snake} (h : lo' ≤ lo)
    (hA : CorrACore lo g s) : CorrACore lo' g s := by
  obtain ⟨h1, h2, h3, h4⟩ := hA
  exact ⟨by omega, h2, h3, h4⟩

theorem corrA_set_snake_mem {lo : Nat} {g : Grid} {s : Snake}
    (hA : CorrACore lo g s) {v : Nat} (hv : v < g.cells.length)
    (hmem : some v ∈ s.window) : CorrACore lo (g.set v Color.snake) s := by
  obtain ⟨h1, h2, h3, h4⟩ := hA
  refine ⟨h1, by simpa using h2, h3, ?_⟩
  intro i hi
  rw [Grid.length_set] at hi
  by_cases hiv : i = v
  · subst hiv
    rw [Grid.colorAt_set_self g hv]
    simp [hmem]
  · rw [Grid.colorAt_set_ne g (fun he => hiv he.symm)]
    exact h4 i hi

theorem corrB_set_snake {g : Grid} {s : Snake} (hB : CorrBCore g s)
    {v : Nat} (hv : v < g.cells.length) :
    CorrBCore (g.set v Color.snake) s := by
  obtain ⟨h1, h2, h3, h4⟩ := hB
  refine ⟨h1, by simpa using h2, h3, ?_⟩
  intro i hi
  rw [Grid.length_set] at hi
  by_cases hiv : i = v
  · subst hiv
    rw [Grid.colorAt_set_self g hv]
  · rw [Grid.colorAt_set_ne g (fun he => hiv he.symm)]
    exact h4 i hi

theorem corrA_set_notsnake {lo : Nat} {g : Grid} {s : Snake}
    (hA : CorrACore lo g s) {v : Nat} {col : Color} (hv : v < g.cells.length)
    (hcol : col ≠ Color.snake) (hgr : g.colorAt v ≠ Color.snake) :
    CorrACore lo (g.set v col) s := by
  obtain ⟨h1, h2, h3, h4⟩ := hA
  have hnm : some v ∉ s.window := fun hm => hgr ((h4 v hv).mpr hm)
  refine ⟨h1, by simpa using h2, h3, ?_⟩
  intro i hi
  rw [Grid.length_set] at hi
  by_cases hiv : i = v
  · subst hiv
    rw [Grid.colorAt_set_self g hv]
    exact iff_of_false hcol hnm
  · rw [Grid.colorAt_set_ne g (fun he => hiv he.symm)]
    exact h4 i hi

theorem corrA_enterSquare {lo : Nat} {g : Grid} {s : Snake}
    (hA : CorrACore lo g s)
    (hh : s.head < s.segments.length) (ht : s.tail < s.segments.length)
    (hroom : s.len + 1 < s.segments.length)
    {nx : Nat} (hnx : nx < g.cells.length) (hcol : g.colorAt nx ≠ Color.snake) :
    CorrACore (lo + 1) (g.set nx Color.snake) (s.addAtHead (some nx)) := by
  obtain ⟨h1, h2, h3, h4⟩ := hA
  have hnm : some nx ∉ s.window := fun hm => hcol ((h4 nx hnx).mpr hm)
  have hwin := Snake.addAtHead_window (some nx) hh ht hroom
  refine ⟨?_, ?_, ?_, ?_⟩
  · rw [Snake.addAtHead_len _ hh ht hroom]
    omega
  · intro o ho
    rw [hwin, List.mem_append] at ho
    rcases ho with ho | ho
    · obtain ⟨v, hv, hvlt⟩ := h2 o ho
      exact ⟨v, hv, by simpa using hvlt⟩
    · simp only [List.mem_singleton] at ho
      subst ho
      exact ⟨nx, rfl, by simpa using hnx⟩
  · rw [hwin, List.nodup_append]
    refine ⟨h3, List.nodup_singleton _, ?_⟩
    intro a ha hb
    simp only [List.mem_singleton] at hb
    subst hb
    exact hnm ha
  · intro i hi
    rw [Grid.length_set] at hi
    rw [hwin, List.mem_append]
    by_cases hinx : i = nx
    · subst hinx
      rw [Grid.colorAt_set_self g hnx]
      simp
    · rw [Grid.colorAt_set_ne g (fun he => hinx he.symm), h4 i hi]
      constructor
      · exact Or.inl
      · rintro (hm | hm)
        · exact hm
        · simp only [List.mem_singleton, Option.some_inj] at hm
          exact absurd hm hinx

theorem corrB_enterSquare {g : Grid} {s : Snake}
    (hA : CorrACore 1 g s)
    (hh : s.head < s.segments.length) (ht : s.tail < s.segments.length)
    (hwrap : s.len + 1 = s.segments.length)
    (hglen : g.cells.length = s.segments.length)
    {nx : Nat} (hnx : nx < g.cells.length) (hcol : g.colorAt nx ≠ Color.snake) :
    CorrBCore (g.set nx Color.snake) (s.addAtHead (some nx)) := by
  obtain ⟨h1, h2, h3, h4⟩ := hA
  have hnm : some nx ∉ s.window := fun hm => hcol ((h4 nx hnx).mpr hm)
  have hwrapGet := Snake.addAtHead_wrap_getD (some nx) hh ht hwrap
  have hN : 0 < s.segments.length := by omega
  refine ⟨Snake.addAtHead_wrap_head _ hh ht hwrap, ?_, ?_, ?_⟩
  · intro o ho
    obtain ⟨j, hj, hjeq⟩ := (mem_iff_getD _ none _).mp ho
    rw [Snake.addAtHead_segments_length] at hj
    by_cases hjh : j = s.head
    · subst hjh
      simp only [Snake.addAtHead] at hjeq
      rw [getD_set_self hh] at hjeq
      exact ⟨nx, hjeq.symm, by simpa using hnx⟩
    · obtain ⟨i, hil, _, hieq⟩ := hwrapGet j hj hjh
      rw [hieq] at hjeq
      have hm : o ∈ s.window :=
        (mem_iff_getD _ none _).mpr ⟨i, by rw [Snake.window_length]; exact hil, hjeq⟩
      obtain ⟨v, hv, hvlt⟩ := h2 o hm
      exact ⟨v, hv, by simpa using hvlt⟩
  · apply nodup_of_getD_ne none
    intro j k hj hk hjk
    rw [Snake.addAtHead_segments_length] at hj hk
    by_cases hjh : j = s.head <;> by_cases hkh : k = s.head
    · exact absurd (hjh.trans hkh.symm) hjk
    · subst hjh
      obtain ⟨i, hil, _, hieq⟩ := hwrapGet k hk hkh
      simp only [Snake.addAtHead] at hieq ⊢
      rw [getD_set_self hh, hieq]
      intro he
      apply hnm
      rw [he]
      exact (mem_iff_getD _ none _).mpr
        ⟨i, by rw [Snake.window_length]; exact hil, rfl⟩
    · subst hkh
      obtain ⟨i, hil, _, hieq⟩ := hwrapGet j hj hjh
      simp only [Snake.addAtHead] at hieq ⊢
      rw [getD_set_self hh, hieq]
      intro he
      apply hnm
      rw [← he]
      exact (mem_iff_getD _ none _).mpr
        ⟨i, by rw [Snake.window_length]; exact hil, rfl⟩
    · obtain ⟨i1, hi1, hs1, he1⟩ := hwrapGet j hj hjh
      obtain ⟨i2, hi2, hs2, he2⟩ := hwrapGet k hk hkh
      simp only [Snake.addAtHead] at he1 he2 ⊢
      rw [he1, he2]
      apply nodup_getD_ne h3 none (by rw [Snake.window_length]; exact hi1)
        (by rw [Snake.window_length]; exact hi2)
      intro hii
      subst hii
      exact hjk (by rw [← hs1, ← hs2])
  · intro i hi
    rw [Grid.length_set] at hi
    by_cases hinx : i = nx
    · subst hinx
      exact Grid.colorAt_set_self g hnx Color.snake
    · rw [Grid.colorAt_set_ne g (fun he => hinx he.symm)]
      apply (h4 i hi).mpr
      have hnd' : (s.window ++ [some nx]).Nodup := by
        rw [List.nodup_append]
        refine ⟨h3, List.nodup_singleton _, ?_⟩
        intro a ha hb
        simp only [List.mem_singleton] at hb
        subst hb
        exact hnm ha
      have hsome' : ∀ o ∈ s.window ++ [some nx],
          ∃ v, o = some v ∧ v < g.cells.length := by
        intro o ho
        rw [List.mem_append] at ho
        rcases ho with ho | ho
        · exact h2 o ho
        · simp only [List.mem_singleton] at ho
          subst ho
          exact ⟨nx, rfl, hnx⟩
      have hlen' : g.cells.length ≤ (s.window ++ [some nx]).length := by
        rw [List.length_append, Snake.window_length, List.length_singleton]
        omega
      have hcov := @coverage_of_nodup (s.window ++ [some nx]) g.cells.length
        hnd' hsome' hlen' i hi
      rw [List.mem_append] at hcov
      rcases hcov with hm | hm
      · exact hm
      · simp only [List.mem_singleton, Option.some_inj] at hm
        exact absurd hm hinx

theorem corrA_removeTail {lo : Nat} {g : Grid} {s : Snake}
    (hA : CorrACore (lo + 1) g s)
    (hh : s.head < s.segments.length) (ht : s.tail < s.segments.length)
    {w : Nat} (hw : s.getTail = some w) :
    CorrACore lo (g.set w Color.grass) s.removeTail := by
  obtain ⟨h1, h2, h3, h4⟩ := hA
  have hpos : 1 ≤ s.len := by omega
  have hwin := Snake.removeTail_window hh ht hpos
  have h0 : s.window.getD 0 none = some w := by
    rw [← Snake.getTail_eq ht hpos, hw]
  have hwmem : some w ∈ s.window :=
    (mem_iff_getD _ none _).mpr ⟨0, by rw [Snake.window_length]; omega, h0⟩
  have hwlt : w < g.cells.length := by
    obtain ⟨v, hveq, hvlt⟩ := h2 _ hwmem
    have := Option.some_inj.mp hveq
    omega
  refine ⟨?_, ?_, ?_, ?_⟩
  · rw [Snake.removeTail_len hh ht hpos]
    omega
  · intro o ho
    rw [hwin] at ho
    have := h2 o (List.mem_of_mem_drop ho)
    simpa using this
  · rw [hwin]
    exact h3.sublist (List.drop_sublist 1 _)
  · intro i hi
    rw [Grid.length_set] at hi
    rw [hwin]
    by_cases hiw : i = w
    · subst hiw
      rw [Grid.colorAt_set_self g hwlt]
      apply iff_of_false (by decide)
      intro hmem
      obtain ⟨k, hk, hkeq⟩ := (mem_iff_getD (s.window.drop 1) none _).mp hmem
      rw [List.length_drop, Snake.window_length] at hk
      have hdk : (s.window.drop 1).getD k none = s.window.getD (1 + k) none := by
        rw [List.getD_eq_getElem?_getD, List.getElem?_drop,
          ← List.getD_eq_getElem?_getD]
      rw [hdk] at hkeq
      exact nodup_getD_ne h3 none
        (show 1 + k < s.window.length by rw [Snake.window_length]; omega)
        (show 0 < s.window.length by rw [Snake.window_length]; omega)
        (by omega) (hkeq.trans h0.symm)
    · rw [Grid.colorAt_set_ne g (fun he => hiw he.symm), h4 i hi]
      constructor
      · intro hm
        obtain ⟨k, hk, hkeq⟩ := (mem_iff_getD s.window none _).mp hm
        rw [Snake.window_length] at hk
        rcases Nat.eq_zero_or_pos k with hk0 | hkp
        · subst hk0
          rw [h0] at hkeq
          exact absurd (Option.some_inj.mp hkeq).symm hiw
        · apply (mem_iff_getD _ none _).mpr
          refine ⟨k - 1, by rw [List.length_drop, Snake.window_length]; omega, ?_⟩
          rw [List.getD_eq_getElem?_getD, List.getElem?_drop,
            ← List.getD_eq_getElem?_getD, show 1 + (k - 1) = k by omega]
          exact hkeq
      · exact List.mem_of_mem_drop

theorem corrB_removeTail {g : Grid} {s : Snake} (hB : CorrBCore g s)
    (hN : 0 < s.segments.length) (ht : s.tail < s.segments.length)
    (hglen : g.cells.length = s.segments.length)
    {w : Nat} (hw : s.getTail = some w) :
    CorrACore (s.segments.length - 1) (g.set w Color.grass) s.removeTail := by
  obtain ⟨hft, hsome, hnd, hall⟩ := hB
  have hwseg : s.segments.getD s.tail none = some w := hw
  have hwmem : some w ∈ s.segments :=
    (mem_iff_getD _ none _).mpr ⟨s.tail, ht, hwseg⟩
  have hwlt : w < g.cells.length := by
    obtain ⟨v, hveq, hvlt⟩ := hsome _ hwmem
    have := Option.some_inj.mp hveq
    omega
  refine ⟨?_, ?_, ?_, ?_⟩
  · rw [Snake.removeTail_full_len hN ht hft]
  · intro o ho
    obtain ⟨k, hk, hkeq⟩ := (mem_iff_getD _ none _).mp ho
    rw [Snake.window_length, Snake.removeTail_full_len hN ht hft] at hk
    rw [Snake.removeTail_full_getD hN ht hft k hk] at hkeq
    have hslot : (s.tail + 1 + k) % s.segments.length < s.segments.length :=
      Nat.mod_lt _ hN
    have homem : o ∈ s.segments := (mem_iff_getD _ none _).mpr ⟨_, hslot, hkeq⟩
    simpa using hsome _ homem
  · apply nodup_of_getD_ne none
    intro i j hi hj hij
    rw [Snake.window_length, Snake.removeTail_full_len hN ht hft] at hi hj
    rw [Snake.removeTail_full_getD hN ht hft i hi,
      Snake.removeTail_full_getD hN ht hft j hj]
    have hii : (s.tail + 1 + i) % s.segments.length ≠
        (s.tail + 1 + j) % s.segments.length := by
      intro he
      exact hij (@mod_shift_inj s.segments.length (s.tail + 1) i j
        (by omega) (by omega) he)
    exact nodup_getD_ne hnd none (Nat.mod_lt _ hN) (Nat.mod_lt _ hN) hii
  · intro i hi
    rw [Grid.length_set] at hi
    by_cases hiw : i = w
    · subst hiw
      rw [Grid.colorAt_set_self g hwlt]
      apply iff_of_false (by decide)
      intro hm
      obtain ⟨k, hk, hkeq⟩ := (mem_iff_getD _ none _).mp hm
      rw [Snake.window_length, Snake.removeTail_full_len hN ht hft] at hk
      rw [Snake.removeTail_full_getD hN ht hft k hk] at hkeq
      have hslot_ne : (s.tail + 1 + k) % s.segments.length ≠ s.tail := by
        intro he
        have hre : (s.tail + (1 + k)) % s.segments.length =
            (s.tail + 0) % s.segments.length := by
          rw [show s.tail + (1 + k) = s.tail + 1 + k by omega, he, Nat.add_zero,
            Nat.mod_eq_of_lt ht]
        have := @mod_shift_inj s.segments.length s.tail (1 + k) 0
          (by omega) (by omega) hre
        omega
      exact nodup_getD_ne hnd none (Nat.mod_lt _ hN) ht hslot_ne
        (hkeq.trans hwseg.symm)
    · rw [Grid.colorAt_set_ne g (fun he => hiw he.symm)]
      constructor
      · intro _
        have hcov : some i ∈ s.segments := by
          apply @coverage_of_nodup s.segments s.segments.length hnd ?_ (by omega) i
            (by omega)
          intro o ho
          obtain ⟨v, hv, hvlt⟩ := hsome o ho
          exact ⟨v, hv, by omega⟩
        obtain ⟨j, hjN, hjeq⟩ := (mem_iff_getD s.segments none _).mp hcov
        have hjne : j ≠ s.tail := by
          intro he
          subst he
          rw [hwseg] at hjeq
          exact hiw (Option.some_inj.mp hjeq).symm
        obtain ⟨k, hkN, hkeq⟩ := @mod_shift_surj_ne s.segments.length s.tail j
          ht hjN hjne
        apply (mem_iff_getD _ none _).mpr
        refine ⟨k, by rw [Snake.window_length,
          Snake.removeTail_full_len hN ht hft]; exact hkN, ?_⟩
        rw [Snake.removeTail_full_getD hN ht hft k hkN, hkeq, hjeq]
      · intro _
        exact hall i hi

namespace Game

@[simp] theorem drawCell_grid_none (gm : Game) (col : Color) :
    (gm.drawCell none col).grid = gm.grid := rfl

@[simp] theorem drawCell_grid_some (gm : Game) (c : Nat) (col : Color) :
    (gm.drawCell (some c) col).grid = gm.grid.set c col := rfl

theorem drawCell_none (gm : Game) (col : Color) : gm.drawCell none col = gm := rfl

@[simp] theorem removeTail_snake (gm : Game) :
    gm.removeTail.snake = gm.snake.removeTail := by
  cases h : gm.snake.getTail with
  | none => simp [Game.removeTail, Game.drawCell, h]
  | some w => simp [Game.removeTail, Game.drawCell, h]

@[simp] theorem removeTail_grid (gm : Game) :
    gm.removeTail.grid = (gm.drawCell gm.snake.getTail Color.grass).grid := rfl

@[simp] theorem enterSquare_snake (gm : Game) (c : Nat) (ts : JNum) (f : Bool) :
    (gm.enterSquare c ts f).snake = gm.snake.addAtHead (some c) := rfl

@[simp] theorem enterSquare_grid (gm : Game) (c : Nat) (ts : JNum) (f : Bool) :
    (gm.enterSquare c ts f).grid = gm.grid.set c Color.snake := rfl

@[simp] theorem turnApplied_snake (gm : Game) :
    gm.turnApplied.snake = gm.snake.applyNextTurn := rfl

end Game

theorem WFCore_congr {d d' : Nat} {g g' : Grid} {s s' : Snake}
    (hd : d' = d) (hg : g' = g) (hseg : s'.segments = s.segments)
    (hhd : s'.head = s.head) (htl : s'.tail = s.tail)
    (h : WFCore d g s) : WFCore d' g' s' := by
  obtain ⟨h1, h2, h3, h4, h5, h6⟩ := h
  subst hd
  subst hg
  exact ⟨h1, h2, h3, by rw [hseg]; exact h4, by rw [hhd, hseg]; exact h5,
    by rw [htl, hseg]; exact h6⟩

theorem CorrACore_congr {lo : Nat} {g g' : Grid} {s s' : Snake}
    (hg : g' = g) (hseg : s'.segments = s.segments)
    (hhd : s'.head = s.head) (htl : s'.tail = s.tail)
    (h : CorrACore lo g s) : CorrACore lo g' s' := by
  subst hg
  have hlen : s'.len = s.len := by
    simp only [Snake.len]
    rw [hseg, hhd, htl]
  have hwin : s'.window = s.window := by
    simp only [Snake.window]
    rw [hseg, htl, hlen]
  obtain ⟨h1, h2, h3, h4⟩ := h
  exact ⟨by rw [hlen]; exact h1, by rw [hwin]; exact h2, by rw [hwin]; exact h3,
    fun i hi => by rw [hwin]; exact h4 i hi⟩

theorem CorrBCore_congr {g g' : Grid} {s s' : Snake}
    (hg : g' = g) (hseg : s'.segments = s.segments)
    (hhd : s'.head = s.head) (htl : s'.tail = s.tail)
    (h : CorrBCore g s) : CorrBCore g' s' := by
  subst hg
  obtain ⟨h1, h2, h3, h4⟩ := h
  exact ⟨by rw [hhd, htl]; exact h1, by rw [hseg]; exact h2,
    by rw [hseg]; exact h3, h4⟩

theorem inv_congr_game {g1 g2 : Game} (hd : g1.dimension = g2.dimension)
    (hg : g1.grid = g2.grid) (hs : g1.snake.segments = g2.snake.segments)
    (hhd : g1.snake.head = g2.snake.head) (htl : g1.snake.tail = g2.snake.tail)
    {lo : Nat}
    (h : WFCore g2.dimension g2.grid g2.snake ∧
      (CorrACore lo g2.grid g2.snake ∨ CorrBCore g2.grid g2.snake)) :
    WFCore g1.dimension g1.grid g1.snake ∧
      (CorrACore lo g1.grid g1.snake ∨ CorrBCore g1.grid g1.snake) := by
  obtain ⟨hwf, hc⟩ := h
  refine ⟨WFCore_congr hd hg hs hhd htl hwf, ?_⟩
  rcases hc with hA | hB
  · exact Or.inl (CorrACore_congr hg hs hhd htl hA)
  · exact Or.inr (CorrBCore_congr hg hs hhd htl hB)

theorem removeTail_inv_A (gm : Game) {lo : Nat}
    (hwf : WFCore gm.dimension gm.grid gm.snake)
    (hA : CorrACore (lo + 1) gm.grid gm.snake) :
    WFCore gm.removeTail.dimension gm.removeTail.grid gm.removeTail.snake ∧
      CorrACore lo gm.removeTail.grid gm.removeTail.snake := by
  obtain ⟨hd2, hgd, hgl, hsl, hh, ht⟩ := hwf
  have hpos : 1 ≤ gm.snake.len := by
    have := hA.1
    omega
  have hw : ∃ w, gm.snake.getTail = some w := by
    have h0 : gm.snake.getTail = gm.snake.window.getD 0 none :=
      Snake.getTail_eq ht hpos
    have hm : gm.snake.getTail ∈ gm.snake.window :=
      (mem_iff_getD _ none _).mpr
        ⟨0, by rw [Snake.window_length]; omega, h0.symm⟩
    obtain ⟨v, hveq, _⟩ := hA.2.1 _ hm
    exact ⟨v, hveq⟩
  obtain ⟨w, hweq⟩ := hw
  have hgrid : gm.removeTail.grid = gm.grid.set w Color.grass := by
    rw [Game.removeTail_grid, hweq, Game.drawCell_grid_some]
  have hsnake : gm.removeTail.snake = gm.snake.removeTail := Game.removeTail_snake gm
  constructor
  · rw [Game.removeTail_dimension, hgrid, hsnake]
    refine ⟨hd2, by simpa using hgd, by simpa using hgl, by simpa using hsl, ?_, ?_⟩
    · simpa using hh
    · exact Snake.removeTail_tail_lt ht
  · rw [hgrid, hsnake]
    exact corrA_removeTail hA hh ht hweq

theorem removeTail_inv_B (gm : Game)
    (hwf : WFCore gm.dimension gm.grid gm.snake)
    (hB : CorrBCore gm.grid gm.snake) :
    WFCore gm.removeTail.dimension gm.removeTail.grid gm.removeTail.snake ∧
      CorrACore 1 gm.removeTail.grid gm.removeTail.snake := by
  obtain ⟨hd2, hgd, hgl, hsl, hh, ht⟩ := hwf
  have hN4 : 4 ≤ gm.snake.segments.length := by
    rw [hsl]
    calc 4 = 2 * 2 := rfl
      _ ≤ gm.dimension * gm.dimension := Nat.mul_le_mul hd2 hd2
  have hN : 0 < gm.snake.segments.length := by omega
  have hglen : gm.grid.cells.length = gm.snake.segments.length := by
    rw [hgl, hsl]
  have hw : ∃ w, gm.snake.getTail = some w := by
    have hmem : gm.snake.segments.getD gm.snake.tail none ∈ gm.snake.segments :=
      (mem_iff_getD _ none _).mpr ⟨_, ht, rfl⟩
    obtain ⟨v, hveq, _⟩ := hB.2.1 _ hmem
    exact ⟨v, hveq⟩
  obtain ⟨w, hweq⟩ := hw
  have hgrid : gm.removeTail.grid = gm.grid.set w Color.grass := by
    rw [Game.removeTail_grid, hweq, Game.drawCell_grid_some]
  have hsnake : gm.removeTail.snake = gm.snake.removeTail := Game.removeTail_snake gm
  constructor
  · rw [Game.removeTail_dimension, hgrid, hsnake]
    refine ⟨hd2, by simpa using hgd, by simpa using hgl, by simpa using hsl, ?_, ?_⟩
    · simpa using hh
    · exact Snake.removeTail_tail_lt ht
  · rw [hgrid, hsnake]
    have hcore := corrB_removeTail hB hN ht hglen hweq
    exact corrA_mono (by omega) hcore

theorem addRandomFood_inv (gm : Game) (r : Rand) {lo : Nat}
    (hwf : WFCore gm.dimension gm.grid gm.snake)
    (hc : CorrACore lo gm.grid gm.snake ∨ CorrBCore gm.grid gm.snake) :
    WFCore (gm.addRandomFood r).2.dimension (gm.addRandomFood r).2.grid
        (gm.addRandomFood r).2.snake ∧
      (CorrACore lo (gm.addRandomFood r).2.grid (gm.addRandomFood r).2.snake ∨
        CorrBCore (gm.addRandomFood r).2.grid (gm.addRandomFood r).2.snake) := by
  unfold Game.addRandomFood
  cases hrc : gm.grid.randomCell Color.grass r.cell with
  | none => exact ⟨hwf, hc⟩
  | some c =>
    obtain ⟨hclt, hcgr⟩ := Grid.randomCell_spec _ _ _ hrc
    dsimp only
    constructor
    · obtain ⟨h1, h2, h3, h4, h5, h6⟩ := hwf
      exact ⟨h1, by simpa using h2, by simpa using h3, h4, h5, h6⟩
    · rcases hc with hA | hB
      · left
        exact corrA_set_notsnake hA hclt (by split <;> decide)
          (by rw [hcgr]; decide)
      · exfalso
        have hsn := hB.2.2.2 c hclt
        rw [hcgr] at hsn
        exact absurd hsn (by decide)

theorem eatFood_inv (gm : Game) (r : Rand) (f sfd : Bool) {lo : Nat}
    (hwf : WFCore gm.dimension gm.grid gm.snake)
    (hc : CorrACore lo gm.grid gm.snake ∨ CorrBCore gm.grid gm.snake) :
    WFCore (gm.eatFood r f sfd).dimension (gm.eatFood r f sfd).grid
        (gm.eatFood r f sfd).snake ∧
      (CorrACore lo (gm.eatFood r f sfd).grid (gm.eatFood r f sfd).snake ∨
        CorrBCore (gm.eatFood r f sfd).grid (gm.eatFood r f sfd).snake) := by
  unfold Game.eatFood
  dsimp only
  split
  · exact addRandomFood_inv _ r hwf hc
  · split
    · exact addRandomFood_inv _ r hwf hc
    · exact addRandomFood_inv _ r hwf hc

theorem frameFillStage_inv (gm : Game)
    (hwf : WFCore gm.dimension gm.grid gm.snake)
    (hc : CorrACore 2 gm.grid gm.snake ∨ CorrBCore gm.grid gm.snake) :
    WFCore gm.frameFillStage.dimension gm.frameFillStage.grid
        gm.frameFillStage.snake ∧
      (CorrACore 1 gm.frameFillStage.grid gm.frameFillStage.snake ∨
        CorrBCore gm.frameFillStage.grid gm.frameFillStage.snake) := by
  obtain ⟨hd2, hgd, hgl, hsl, hh, ht⟩ := hwf
  have h1 : WFCore (gm.drawCell gm.snake.getHead Color.snake).dimension
      (gm.drawCell gm.snake.getHead Color.snake).grid
      (gm.drawCell gm.snake.getHead Color.snake).snake ∧
      (CorrACore 2 (gm.drawCell gm.snake.getHead Color.snake).grid
          (gm.drawCell gm.snake.getHead Color.snake).snake ∨
        CorrBCore (gm.drawCell gm.snake.getHead Color.snake).grid
          (gm.drawCell gm.snake.getHead Color.snake).snake) := by
    cases hgh : gm.snake.getHead with
    | none =>
      rw [Game.drawCell_none]
      exact ⟨⟨hd2, hgd, hgl, hsl, hh, ht⟩, hc⟩
    | some v =>
      simp only [Game.drawCell_grid_some, Game.drawCell_snake,
        Game.drawCell_dimension]
      rcases hc with hA | hB
      · have hpos : 1 ≤ gm.snake.len := by
          have := hA.1
          omega
        have hwv : some v ∈ gm.snake.window := by
          rw [← hgh, Snake.getHead_eq hh ht hpos]
          exact (mem_iff_getD _ none _).mpr
            ⟨gm.snake.len - 1, by rw [Snake.window_length]; omega, rfl⟩
        have hvlt : v < gm.grid.cells.length := by
          obtain ⟨w, hw, hwlt⟩ := hA.2.1 _ hwv
          have := Option.some_inj.mp hw
          omega
        exact ⟨⟨hd2, by simpa using hgd, by simpa using hgl, hsl, hh, ht⟩,
          Or.inl (corrA_set_snake_mem hA hvlt hwv)⟩
      · have hvmem : gm.snake.getHead ∈ gm.snake.segments := by
          simp only [Snake.getHead]
          exact (mem_iff_getD _ none _).mpr ⟨_, Nat.mod_lt _ (by omega), rfl⟩
        rw [hgh] at hvmem
        have hvlt : v < gm.grid.cells.length := by
          obtain ⟨w, hw, hwlt⟩ := hB.2.1 _ hvmem
          have := Option.some_inj.mp hw
          omega
        exact ⟨⟨hd2, by simpa using hgd, by simpa using hgl, hsl, hh, ht⟩,
          Or.inr (corrB_set_snake hB hvlt)⟩
  unfold Game.frameFillStage
  dsimp only
  set g1 := gm.drawCell gm.snake.getHead Color.snake with hg1
  set g2 := if !g1.isEating then g1.removeTail else g1 with hg2
  have h2 : WFCore g2.dimension g2.grid g2.snake ∧
      (CorrACore 1 g2.grid g2.snake ∨ CorrBCore g2.grid g2.snake) := by
    rw [hg2]
    split
    · rcases h1.2 with hA | hB
      · have hr := @removeTail_inv_A g1 1 h1.1 hA
        exact ⟨hr.1, Or.inl hr.2⟩
      · have hr := removeTail_inv_B g1 h1.1 hB
        exact ⟨hr.1, Or.inl hr.2⟩
    · rcases h1.2 with hA | hB
      · exact ⟨h1.1, Or.inl (corrA_mono (by omega) hA)⟩
      · exact ⟨h1.1, Or.inr hB⟩
  split
  · split
    · exact inv_congr_game rfl rfl (by simp) (by simp) (by simp) h2
    · exact h2
  · exact h2

theorem updateHead_inv (r : Rand) (gm : Game) (t : JNum) {g1 : Game}
    (hwf : WFCore gm.dimension gm.grid gm.snake)
    (hc : CorrACore 1 gm.grid gm.snake ∨ CorrBCore gm.grid gm.snake)
    (h : Game.updateHead r gm t = (true, g1)) : g1.BodyInv := by
  obtain ⟨hd2, hgd, hgl, hsl, hh, ht⟩ := hwf
  rw [Game.updateHead_char] at h
  cases hcc : gm.commitCell with
  | none =>
    rw [hcc] at h
    simp at h
  | some nx =>
    rw [hcc] at h
    cases htrav : gm.turnApplied.grid.isTraversable (some nx) with
    | false =>
      rw [htrav] at h
      simp at h
    | true =>
      rw [htrav] at h
      dsimp only at h
      have hcc' : gm.grid.inDirectionO gm.snake.applyNextTurn.getHead
          gm.snake.applyNextTurn.direction = some nx := hcc
      have hwfgrid : gm.grid.cells.length =
          gm.grid.dimension * gm.grid.dimension := by
        rw [hgd]
        exact hgl
      have hnxlt : nx < gm.grid.cells.length :=
        Grid.inDirectionO_lt gm.grid hwfgrid hcc'
      have hcol : gm.grid.colorAt nx ≠ Color.snake := by
        simp only [Grid.isTraversable, Game.turnApplied_grid] at htrav
        simpa using htrav
      rcases hc with hA | hB
      · have hh' : gm.snake.applyNextTurn.head <
            gm.snake.applyNextTurn.segments.length := by simpa using hh
        have ht' : gm.snake.applyNextTurn.tail <
            gm.snake.applyNextTurn.segments.length := by simpa using ht
        have hA' : CorrACore 1 gm.grid gm.snake.applyNextTurn :=
          CorrACore_congr rfl (by simp) (by simp) (by simp) hA
        have hlt := Snake.len_lt hh'
        have hwf2 : ∀ f : Bool,
            WFCore (gm.turnApplied.enterSquare nx t f).dimension
              (gm.turnApplied.enterSquare nx t f).grid
              (gm.turnApplied.enterSquare nx t f).snake := by
          intro f
          refine ⟨hd2, ?_, ?_, ?_, ?_, ?_⟩
          · simpa using hgd
          · simpa using hgl
          · simpa using hsl
          · have := Snake.addAtHead_head_lt (some nx) hh'
            simpa using this
          · simpa using ht
        rcases Nat.lt_or_ge (gm.snake.applyNextTurn.len + 1)
            gm.snake.applyNextTurn.segments.length with hroom | hge
        · have hA2 := corrA_enterSquare hA' hh' ht' hroom hnxlt hcol
          have hA2' : ∀ f : Bool,
              CorrACore 2 (gm.turnApplied.enterSquare nx t f).grid
                (gm.turnApplied.enterSquare nx t f).snake := by
            intro f
            simp only [Game.enterSquare_grid, Game.enterSquare_snake,
              Game.turnApplied_grid, Game.turnApplied_snake]
            exact hA2
          by_cases hfood : gm.turnApplied.grid.isFood nx = true
          · rw [if_pos hfood] at h
            injection h with hb hg
            subst hg
            exact eatFood_inv (gm.turnApplied.enterSquare nx t true) r true
              (gm.turnApplied.grid.isSuperFood nx) (hwf2 true)
              (Or.inl (hA2' true))
          · rw [if_neg hfood] at h
            injection h with hb hg
            subst hg
            exact ⟨hwf2 false, Or.inl (hA2' false)⟩
        · have hwrap : gm.snake.applyNextTurn.len + 1 =
              gm.snake.applyNextTurn.segments.length := by omega
          have hglen' : gm.grid.cells.length =
              gm.snake.applyNextTurn.segments.length := by
            have hseq : gm.snake.applyNextTurn.segments.length =
                gm.dimension * gm.dimension := by simpa using hsl
            omega
          have hB2 := corrB_enterSquare (corrA_mono (by omega) hA') hh' ht'
            hwrap hglen' hnxlt hcol
          have hB2' : ∀ f : Bool,
              CorrBCore (gm.turnApplied.enterSquare nx t f).grid
                (gm.turnApplied.enterSquare nx t f).snake := by
            intro f
            simp only [Game.enterSquare_grid, Game.enterSquare_snake,
              Game.turnApplied_grid, Game.turnApplied_snake]
            exact hB2
          by_cases hfood : gm.turnApplied.grid.isFood nx = true
          · rw [if_pos hfood] at h
            injection h with hb hg
            subst hg
            exact eatFood_inv (gm.turnApplied.enterSquare nx t true) r true
              (gm.turnApplied.grid.isSuperFood nx) (hwf2 true)
              (Or.inr (hB2' true))
          · rw [if_neg hfood] at h
            injection h with hb hg
            subst hg
            exact ⟨hwf2 false, Or.inr (hB2' false)⟩
      · exact absurd (hB.2.2.2 nx hnxlt) hcol

theorem placeSnake_spec (d : Nat) (hd : 2 ≤ d) (gm : Game)
    (hgrid : gm.grid = ⟨d, List.replicate (d * d) Color.grass⟩)
    (hsnake : gm.snake = Snake.init d) :
    (gm.placeSnake gm.grid.center 2).snake =
      { segments := ((List.replicate (d * d) (none : Option Nat)).set 0
          (some ((d / 2 - 1) * (d + 1)))).set 1
            (some ((d / 2 - 1) * (d + 1) + d)),
        head := 2, tail := 0, direction := ⟨1, 0⟩, turns := [] } ∧
    (gm.placeSnake gm.grid.center 2).grid =
      ((⟨d, List.replicate (d * d) Color.grass⟩ : Grid).set
        ((d / 2 - 1) * (d + 1)) Color.snake).set
          ((d / 2 - 1) * (d + 1) + d) Color.snake ∧
    (gm.placeSnake gm.grid.center 2).dimension = gm.dimension := by
  have hdd : 0 < d := by omega
  have hN4 : 4 ≤ d * d := by
    calc 4 = 2 * 2 := rfl
      _ ≤ d * d := Nat.mul_le_mul hd hd
  have hm1 : d / 2 - 1 ≤ d - 2 := by
    have h2 : d / 2 < d := Nat.div_lt_self (by omega) (by omega)
    omega
  have hcd : (d / 2 - 1) * (d + 1) = (d / 2 - 1) * d + (d / 2 - 1) := by ring
  have hcx : ((d / 2 - 1) * (d + 1)) / d = d / 2 - 1 := by
    rw [hcd, show (d / 2 - 1) * d + (d / 2 - 1) =
      (d / 2 - 1) + d * (d / 2 - 1) by ring,
      Nat.add_mul_div_left _ _ hdd, Nat.div_eq_of_lt (by omega)]
    omega
  have hcy : ((d / 2 - 1) * (d + 1)) % d = d / 2 - 1 := by
    rw [hcd, show (d / 2 - 1) * d + (d / 2 - 1) =
      (d / 2 - 1) + d * (d / 2 - 1) by ring, Nat.add_mul_mod_self_left]
    exact Nat.mod_eq_of_lt (by omega)
  have hcen : gm.grid.center = (d / 2 - 1) * (d + 1) := by
    rw [hgrid]
    rfl
  have hs1 : ((gm.snake.addAtHead (some ((d / 2 - 1) * (d + 1)))).changeDirection
      none).applyNextTurn =
      { segments := (List.replicate (d * d) (none : Option Nat)).set 0
          (some ((d / 2 - 1) * (d + 1))),
        head := 1, tail := 0, direction := ⟨1, 0⟩, turns := [] } := by
    rw [hsnake]
    simp only [Snake.init, Snake.addAtHead, Snake.changeDirection,
      Snake.applyNextTurn, Snake.applyNextTurnAux, Snake.legalTurn,
      List.length_replicate]
    rw [Nat.mod_eq_of_lt (by omega)]
    simp
  have hgh1 : (Snake.mk ((List.replicate (d * d) (none : Option Nat)).set 0
        (some ((d / 2 - 1) * (d + 1)))) 1 0 ⟨1, 0⟩ []).getHead =
      some ((d / 2 - 1) * (d + 1)) := by
    simp only [Snake.getHead, List.length_set, List.length_replicate]
    rw [show 1 + d * d - 1 = d * d by omega, Nat.mod_self]
    exact getD_set_self (by simp; omega) _
  have hdir : gm.grid.inDirectionO (some ((d / 2 - 1) * (d + 1))) ⟨1, 0⟩ =
      some ((d / 2 - 1) * (d + 1) + d) := by
    unfold Grid.inDirectionO Grid.inDirection
    dsimp only
    rw [hgrid]
    dsimp only
    simp only [Option.getD_some]
    have hxc : (((d / 2 - 1) * (d + 1) : Nat) : Int) / (d : Int) =
        ((d / 2 - 1 : Nat) : Int) := by
      rw [← Int.natCast_div, hcx]
    have hyc : (((d / 2 - 1) * (d + 1) : Nat) : Int) % (d : Int) =
        ((d / 2 - 1 : Nat) : Int) := by
      rw [← Int.natCast_mod, hcy]
    rw [if_pos (by rw [hxc, hyc]; omega)]
    rw [hxc, hyc]
    congr 1
    have he2 : (((d / 2 - 1 : Nat) : Int) + 1) * (d : Int) +
        (((d / 2 - 1 : Nat) : Int) + 0) =
          (((d / 2 - 1 + 1) * d + (d / 2 - 1) : Nat) : Int) := by
      push_cast
      ring
    rw [he2]
    have hlink : (d / 2 - 1 + 1) * d = (d / 2 - 1) * d + d := by ring
    omega
  unfold Game.placeSnake
  dsimp only
  rw [hcen, show (2 - 1 : Nat) = 1 from rfl, Function.iterate_one]
  unfold Game.placeSnakeStep
  dsimp only
  rw [hs1]
  have hgrid2 : ({ gm with snake := (Snake.mk ((List.replicate (d * d)
      (none : Option Nat)).set 0 (some ((d / 2 - 1) * (d + 1)))) 1 0
        ⟨1, 0⟩ []) } : Game).grid = gm.grid := rfl
  rw [hgrid2, hgh1, hdir]
  have hs2 : (Snake.mk ((List.replicate (d * d) (none : Option Nat)).set 0
        (some ((d / 2 - 1) * (d + 1)))) 1 0 ⟨1, 0⟩ []).addAtHead
      (some ((d / 2 - 1) * (d + 1) + d)) =
      Snake.mk (((List.replicate (d * d) (none : Option Nat)).set 0
        (some ((d / 2 - 1) * (d + 1)))).set 1
          (some ((d / 2 - 1) * (d + 1) + d))) 2 0 ⟨1, 0⟩ [] := by
    simp only [Snake.addAtHead, List.length_set, List.length_replicate]
    rw [Nat.mod_eq_of_lt (by omega)]
  rw [hs2]
  have hwin : (Snake.mk (((List.replicate (d * d) (none : Option Nat)).set 0
        (some ((d / 2 - 1) * (d + 1)))).set 1
          (some ((d / 2 - 1) * (d + 1) + d))) 2 0 ⟨1, 0⟩ []).window =
      [some ((d / 2 - 1) * (d + 1)), some ((d / 2 - 1) * (d + 1) + d)] := by
    have hlen : (Snake.mk (((List.replicate (d * d) (none : Option Nat)).set 0
          (some ((d / 2 - 1) * (d + 1)))).set 1
            (some ((d / 2 - 1) * (d + 1) + d))) 2 0 ⟨1, 0⟩ []).len = 2 := by
      simp only [Snake.len, List.length_set, List.length_replicate]
      rw [Nat.sub_zero, Nat.add_mod_left, Nat.mod_eq_of_lt (by omega)]
    rw [Snake.window, hlen, show List.range 2 = [0, 1] from rfl]
    simp only [List.map, List.length_set, List.length_replicate, Nat.zero_add]
    rw [Nat.mod_eq_of_lt (by omega), Nat.mod_eq_of_lt (by omega)]
    rw [getD_set_self (by simp; omega) _]
    rw [getD_set_ne (by omega) _, getD_set_self (by simp; omega) _]
  rw [hwin]
  simp only [List.foldl]
  rw [hgrid]
  exact ⟨rfl, rfl, rfl⟩

theorem freshWindow (d a b : Nat) (hd : 2 ≤ d) :
    (Snake.mk (((List.replicate (d * d) (none : Option Nat)).set 0
      (some a)).set 1 (some b)) 2 0 ⟨1, 0⟩ []).window = [some a, some b] := by
  have h4 : 4 ≤ d * d := by
    calc 4 = 2 * 2 := rfl
      _ ≤ d * d := Nat.mul_le_mul hd hd
  have hlen : (Snake.mk (((List.replicate (d * d) (none : Option Nat)).set 0
      (some a)).set 1 (some b)) 2 0 ⟨1, 0⟩ []).len = 2 := by
    simp only [Snake.len, List.length_set, List.length_replicate]
    rw [Nat.sub_zero, Nat.add_mod_left, Nat.mod_eq_of_lt (by omega)]
  rw [Snake.window, hlen, show List.range 2 = [0, 1] from rfl]
  simp only [List.map, List.length_set, List.length_replicate, Nat.zero_add]
  rw [Nat.mod_eq_of_lt (by omega), Nat.mod_eq_of_lt (by omega)]
  rw [getD_set_self (by rw [List.length_set, List.length_replicate]; omega) _]
  rw [getD_set_ne (by omega) _,
    getD_set_self (by rw [List.length_replicate]; omega) _]

theorem bodyInv_addRandomFood_foodCell (gm : Game) (r : Rand)
    (hwf : WFCore gm.dimension gm.grid gm.snake)
    (hc : CorrACore 2 gm.grid gm.snake) :
    ({ (gm.addRandomFood r).2 with
      foodCell := (gm.addRandomFood r).1 } : Game).BodyInv :=
  addRandomFood_inv gm r hwf (Or.inl hc)

theorem reset_inv (d : Nat) (r : Rand) (hd : 2 ≤ d) :
    (Game.reset d r).BodyInv := by
  have hdd : 0 < d := by omega
  have hN4 : 4 ≤ d * d := by
    calc 4 = 2 * 2 := rfl
      _ ≤ d * d := Nat.mul_le_mul hd hd
  have hm1 : d / 2 - 1 ≤ d - 2 := by
    have h2 : d / 2 < d := Nat.div_lt_self (by omega) (by omega)
    omega
  have hcd : (d / 2 - 1) * (d + 1) = (d / 2 - 1) * d + (d / 2 - 1) := by ring
  have hmul1 : (d / 2 - 1) * d ≤ (d - 2) * d := Nat.mul_le_mul_right _ hm1
  have hmul2 : (d - 2) * d = d * d - 2 * d := Nat.sub_mul _ _ _
  have hmul3 : 2 * d ≤ d * d := Nat.mul_le_mul_right _ hd
  have hclt : (d / 2 - 1) * (d + 1) < d * d := by omega
  have hc2lt : (d / 2 - 1) * (d + 1) + d < d * d := by omega
  have hcne : (d / 2 - 1) * (d + 1) ≠ (d / 2 - 1) * (d + 1) + d := by omega
  have hps := placeSnake_spec d hd
    { dimension := d
      grid := ⟨d, List.replicate (d * d) Color.grass⟩
      snake := Snake.init d
      running := false
      scorekeeper := Scorekeeper.init
      enteredSquare := none
      isEating := false
      speedUp := speedUpFactor
      boosted := false
      squaresPerSecond := initialSquaresPerSecond
      automatic := false
      foodCell := none } rfl rfl
  obtain ⟨hsn, hgr, hdim⟩ := hps
  unfold Game.reset
  dsimp only
  apply bodyInv_addRandomFood_foodCell
  · rw [hdim, hgr, hsn]
    dsimp only
    refine ⟨hd, rfl, ?_, ?_, ?_, ?_⟩
    · rw [Grid.length_set, Grid.length_set]
      simp
    · simp
    · simp only [List.length_set, List.length_replicate]
      omega
    · simp only [List.length_set, List.length_replicate]
      omega
  · rw [hgr, hsn]
    have hwin := freshWindow d ((d / 2 - 1) * (d + 1))
      ((d / 2 - 1) * (d + 1) + d) hd
    refine ⟨?_, ?_, ?_, ?_⟩
    · have hlen : (Snake.mk (((List.replicate (d * d)
          (none : Option Nat)).set 0 (some ((d / 2 - 1) * (d + 1)))).set 1
            (some ((d / 2 - 1) * (d + 1) + d))) 2 0 ⟨1, 0⟩ []).len = 2 := by
        simp only [Snake.len, List.length_set, List.length_replicate]
        rw [Nat.sub_zero, Nat.add_mod_left, Nat.mod_eq_of_lt (by omega)]
      rw [hlen]
    · rw [hwin]
      intro o ho
      simp only [List.mem_cons, List.mem_singleton] at ho
      rcases ho with ho | ho | ho
      · refine ⟨_, ho, ?_⟩
        rw [Grid.length_set, Grid.length_set]
        simpa using hclt
      · refine ⟨_, ho, ?_⟩
        rw [Grid.length_set, Grid.length_set]
        simpa using hc2lt
      · cases ho
    · rw [hwin]
      simp [hcne]
    · intro i hi
      rw [Grid.length_set, Grid.length_set] at hi
      simp only [List.length_replicate] at hi
      rw [hwin]
      have hbase : ∀ j, ((⟨d, List.replicate (d * d) Color.grass⟩ :
          Grid)).colorAt j = Color.grass := by
        intro j
        simp only [Grid.colorAt]
        exact getD_replicate _ _ _
      by_cases h2 : i = (d / 2 - 1) * (d + 1) + d
      · subst h2
        rw [Grid.colorAt_set_self _ (by rw [Grid.length_set]; simpa using hc2lt)]
        simp
      · rw [Grid.colorAt_set_ne _ (fun he => h2 he.symm)]
        by_cases h1 : i = (d / 2 - 1) * (d + 1)
        · subst h1
          rw [Grid.colorAt_set_self _ (by simpa using hclt)]
          simp
        · rw [Grid.colorAt_set_ne _ (fun he => h1 he.symm), hbase]
          constructor
          · intro he
            exact absurd he (by decide)
          · intro hm
            simp only [List.mem_cons, List.mem_singleton, Option.some_inj] at hm
            rcases hm with hm | hm | hm
            · exact absurd hm h1
            · exact absurd hm h2
            · cases hm

namespace Game

@[simp] theorem toggleAutomatic_grid (gm : Game) :
    gm.toggleAutomatic.grid = gm.grid := by
  unfold Game.toggleAutomatic
  split <;> rfl

@[simp] theorem toggleAutomatic_snake (gm : Game) :
    gm.toggleAutomatic.snake = gm.snake := by
  unfold Game.toggleAutomatic
  split <;> rfl

@[simp] theorem toggleAutomatic_dimension (gm : Game) :
    gm.toggleAutomatic.dimension = gm.dimension := by
  unfold Game.toggleAutomatic
  split <;> rfl

@[simp] theorem start_grid (gm : Game) : gm.start.grid = gm.grid := rfl

@[simp] theorem start_snake (gm : Game) : gm.start.snake = gm.snake := rfl

@[simp] theorem start_dimension (gm : Game) :
    gm.start.dimension = gm.dimension := rfl

end Game

theorem update_inv (r : Rand) (gm : Game) (t : JNum) {g1 : Game}
    (h : gm.BodyInv) (hu : Game.update r gm t = (true, g1)) : g1.BodyInv := by
  cases hcs : gm.frameCommitState t with
  | none =>
    rw [Game.update_of_commit_none r gm t hcs] at hu
    injection hu with hb hg
    subst hg
    exact h
  | some gc =>
    have hgc : gc = gm ∨ gc = gm.frameFillStage := by
      unfold Game.frameCommitState at hcs
      split at hcs
      · simp at hcs
      · split at hcs
        · exact Or.inl (Option.some_inj.mp hcs).symm
        · split at hcs
          · exact Or.inr (Option.some_inj.mp hcs).symm
          · simp at hcs
    rw [Game.update_of_commit_some r gm t gc hcs] at hu
    rcases hgc with hgc | hgc
    · subst hgc
      refine updateHead_inv r gc t h.1 ?_ hu
      rcases h.2 with hA | hB
      · exact Or.inl (corrA_mono (by omega) hA)
      · exact Or.inr hB
    · subst hgc
      have hf := frameFillStage_inv gm h.1 h.2
      exact updateHead_inv r _ t hf.1 hf.2 hu

theorem handleEvent_inv (r : Rand) (gm : Game) (k : Key)
    (h : gm.BodyInv) : (Game.handleEvent r gm k).BodyInv := by
  have hcongr : ∀ g1 : Game, g1.dimension = gm.dimension → g1.grid = gm.grid →
      g1.snake.segments = gm.snake.segments → g1.snake.head = gm.snake.head →
      g1.snake.tail = gm.snake.tail → g1.BodyInv := by
    intro g1 h1 h2 h3 h4 h5
    exact inv_congr_game h1 h2 h3 h4 h5 h
  cases k with
  | space => exact hcongr _ rfl rfl rfl rfl rfl
  | rerun => exact reset_inv _ r h.1.1
  | pointer =>
    unfold Game.handleEvent
    dsimp only
    split
    · exact hcongr _ (by simp) (by simp) (by simp) (by simp) (by simp)
    · exact hcongr _ (by simp) (by simp) (by simp) (by simp) (by simp)
  | auto =>
    unfold Game.handleEvent
    dsimp only
    split
    · exact hcongr _ (by simp) (by simp) (by simp) (by simp) (by simp)
    · exact hcongr _ (by simp) (by simp) (by simp) (by simp) (by simp)
  | up =>
    unfold Game.handleEvent
    dsimp only
    split
    · exact hcongr _ (by split <;> simp) (by split <;> simp)
        (by split <;> simp) (by split <;> simp) (by split <;> simp)
    · exact hcongr _ rfl rfl rfl rfl rfl
  | down =>
    unfold Game.handleEvent
    dsimp only
    split
    · exact hcongr _ (by split <;> simp) (by split <;> simp)
        (by split <;> simp) (by split <;> simp) (by split <;> simp)
    · exact hcongr _ rfl rfl rfl rfl rfl
  | left =>
    unfold Game.handleEvent
    dsimp only
    split
    · exact hcongr _ (by split <;> simp) (by split <;> simp)
        (by split <;> simp) (by split <;> simp) (by split <;> simp)
    · exact hcongr _ rfl rfl rfl rfl rfl
  | right =>
    unfold Game.handleEvent
    dsimp only
    split
    · exact hcongr _ (by split <;> simp) (by split <;> simp)
        (by split <;> simp) (by split <;> simp) (by split <;> simp)
    · exact hcongr _ rfl rfl rfl rfl rfl

theorem reachRun_bodyInv {d : Nat} (hd : 2 ≤ d) {gm : Game}
    (h : ReachRun d gm) : gm.BodyInv := by
  induction h with
  | init r => exact reset_inv d r hd
  | inp hg r k ih => exact handleEvent_inv r _ k ih
  | upd hg r t hupd ih => exact update_inv r _ t ih hupd

/-- C2 (amended): in every state reachable from reset under the
stop-honoring frame schedule (side length at least 2), as long as the
snake's ring buffer has not wrapped around (its occupied window is
nonempty), the set of grid cells colored snake equals exactly the set of
cells in the snake's segment window; in the wrapped state — the snake has
just grown to fill the entire grid, making `head == tail` — the segment
sequence reads back as empty while every grid cell is snake-colored, so the
claimed set equality fails there. -/
theorem C2_body_segments (d : Nat) (hd : 2 ≤ d) (gm : Game)
    (h : ReachRun d gm) :
    (gm.snake.len ≠ 0 →
      ∀ i, i < gm.grid.cells.length →
        (gm.grid.colorAt i = Color.snake ↔ some i ∈ gm.snake.window)) ∧
    (gm.snake.len = 0 → gm.snake.window = [] ∧
      ∀ i, i < gm.grid.cells.length → gm.grid.colorAt i = Color.snake) := by
  obtain ⟨hwf, hc⟩ := reachRun_bodyInv hd h
  constructor
  · intro hlen i hi
    rcases hc with hA | hB
    · exact hA.2.2.2 i hi
    · exfalso
      apply hlen
      have hft := hB.1
      simp only [Snake.len, hft]
      rw [show gm.snake.segments.length + gm.snake.tail - gm.snake.tail =
        gm.snake.segments.length by omega, Nat.mod_self]
  · intro hlen
    rcases hc with hA | hB
    · exfalso
      have := hA.1
      omega
    · refine ⟨?_, hB.2.2.2⟩
      have hwl : gm.snake.window.length = 0 := by
        rw [Snake.window_length, hlen]
      exact List.eq_nil_of_length_eq_zero hwl

/-- Witness for C2 at the fresh dimension-2 board: the correspondence holds
in the freshly reset state (reachable in zero steps). -/
theorem C2_body_segments_witness :
    (tinyA0.snake.len ≠ 0 →
      ∀ i, i < tinyA0.grid.cells.length →
        (tinyA0.grid.colorAt i = Color.snake ↔ some i ∈ tinyA0.snake.window)) ∧
    (tinyA0.snake.len = 0 → tinyA0.snake.window = [] ∧
      ∀ i, i < tinyA0.grid.cells.length →
        tinyA0.grid.colorAt i = Color.snake) :=
  C2_body_segments 2 (by decide) tinyA0 (ReachRun.init ⟨3, false⟩)

/-- Counterexample to C2 as stated: after the dimension-2 snake eats the
second food it fills the whole grid and the ring buffer wraps (`head ==
tail`); cell 0 is snake-colored in the grid but the segment window reads
back empty, so the set of Body cells is not the set of cells in the
segment sequence.  The state is reachable with the frame scheduler
honoring every continue signal. -/
theorem C2_body_segments_cex :
    ReachRun 2 tinyA4 ∧
      tinyA4.grid.colorAt 0 = Color.snake ∧
        some 0 ∉ tinyA4.snake.window := by
  refine ⟨?_, by decide, by decide⟩
  have h0 : ReachRun 2 tinyA0 := ReachRun.init ⟨3, false⟩
  have h1 : ReachRun 2 tinyA1 := ReachRun.inp h0 ⟨0, false⟩ Key.down
  have h2 : ReachRun 2 tinyA2 := ReachRun.upd h1 ⟨1, false⟩ 0 (by decide)
  have h3 : ReachRun 2 tinyA3 := ReachRun.inp h2 ⟨0, false⟩ Key.left
  exact ReachRun.upd h3 ⟨0, false⟩ 1000 (by decide)

/-! ## C9/C10: food counting and the boost invariant -/

theorem list_count_set (l : List Color) (c : Nat) (hc : c < l.length)
    (col v : Color) :
    (l.set c col).count v + (if l.getD c Color.grass = v then 1 else 0) =
      l.count v + (if col = v then 1 else 0) := by
  induction l generalizing c with
  | nil => simp at hc
  | cons a as ih =>
    cases c with
    | zero =>
      simp only [List.set, List.getD_cons_zero, List.count_cons, beq_iff_eq]
      split_ifs <;> omega
    | succ n =>
      simp only [List.set, List.getD_cons_succ, List.count_cons, beq_iff_eq]
      have hn : n < as.length := by simpa using hc
      have hih := ih n hn
      split_ifs at hih ⊢ <;> omega

theorem list_set_oob {α : Type} (l : List α) (c : Nat) (hc : l.length ≤ c)
    (a : α) : l.set c a = l := by
  induction l generalizing c with
  | nil => rfl
  | cons x xs ih =>
    cases c with
    | zero => simp at hc
    | succ n =>
      simp only [List.set]
      rw [ih n (by simpa using hc)]

namespace Grid

theorem count_set_eq (g : Grid) {c : Nat} (hc : c < g.cells.length)
    (col v : Color) :
    (g.set c col).count v + (if g.colorAt c = v then 1 else 0) =
      g.count v + (if col = v then 1 else 0) := by
  simp only [Grid.count, Grid.set, Grid.colorAt]
  exact list_count_set g.cells c hc col v

theorem set_oob (g : Grid) {c : Nat} (hc : g.cells.length ≤ c)
    (col : Color) : g.set c col = g := by
  cases g with
  | mk dim cells =>
    simp only [Grid.set]
    rw [list_set_oob cells c (by simpa using hc) col]

theorem count_set_le_any (g : Grid) (c : Nat) {col v : Color}
    (hcol : col ≠ v) : (g.set c col).count v ≤ g.count v := by
  rcases Nat.lt_or_ge c g.cells.length with hc | hc
  · have h := count_set_eq g hc col v
    rw [if_neg hcol] at h
    split_ifs at h <;> omega
  · rw [set_oob g hc]

theorem count_set_sub (g : Grid) {c : Nat} (hc : c < g.cells.length)
    {col v : Color} (hcol : col ≠ v) (hcv : g.colorAt c = v) :
    (g.set c col).count v + 1 = g.count v := by
  have h := count_set_eq g hc col v
  rw [if_pos hcv, if_neg hcol] at h
  omega

theorem count_set_same (g : Grid) {c : Nat} (hc : c < g.cells.length)
    {col v : Color} (hcol : col ≠ v) (hcv : g.colorAt c ≠ v) :
    (g.set c col).count v = g.count v := by
  have h := count_set_eq g hc col v
  rw [if_neg hcv, if_neg hcol] at h
  omega

theorem count_set_add (g : Grid) {c : Nat} (hc : c < g.cells.length)
    {v : Color} (hcv : g.colorAt c ≠ v) :
    (g.set c v).count v = g.count v + 1 := by
  have h := count_set_eq g hc v v
  rw [if_neg hcv, if_pos rfl] at h
  omega

theorem isFood_plain (g : Grid) (c : Nat) (hf : g.isFood c = true)
    (hs : g.isSuperFood c = false) : g.colorAt c = Color.food := by
  simp only [Grid.isFood, Grid.isSuperFood, Bool.or_eq_true, beq_iff_eq] at hf
  simp only [Grid.isSuperFood, beq_eq_false_iff_ne] at hs
  rcases hf with hf | hf
  · exact hf
  · exact absurd hf hs

theorem not_food_colors (g : Grid) (c : Nat) (hf : g.isFood c = false) :
    g.colorAt c ≠ Color.food ∧ g.colorAt c ≠ Color.superFood := by
  simp only [Grid.isFood, Grid.isSuperFood, Bool.or_eq_false_iff,
    beq_eq_false_iff_ne] at hf
  exact hf

end Grid

@[simp] theorem Game.toggleAutomatic_boosted (gm : Game) :
    gm.toggleAutomatic.boosted = gm.boosted := by
  unfold Game.toggleAutomatic
  split <;> rfl

@[simp] theorem Game.start_boosted (gm : Game) :
    gm.start.boosted = gm.boosted := rfl

theorem Game.drawCell_grid_dimension (gm : Game) (o : Option Nat) (col : Color) :
    (gm.drawCell o col).grid.dimension = gm.grid.dimension := by
  cases o <;> rfl

theorem Game.drawCell_grid_length (gm : Game) (o : Option Nat) (col : Color) :
    (gm.drawCell o col).grid.cells.length = gm.grid.cells.length := by
  cases o with
  | none => rfl
  | some c => simp

theorem foodInv_congr {g1 g2 : Game} (hd : g1.dimension = g2.dimension)
    (hg : g1.grid = g2.grid) (hb : g1.boosted = g2.boosted)
    (h : g2.FoodInv) : g1.FoodInv := by
  rw [Game.FoodInv, hd, hg, hb]
  exact h

theorem foodInv_addRandomFood_foodCell (gm : Game) (r : Rand)
    (h1 : gm.grid.dimension = gm.dimension)
    (h2 : gm.grid.cells.length = gm.dimension * gm.dimension)
    (hb : gm.boosted = true → gm.grid.count Color.superFood = 0)
    (hsum : gm.grid.count Color.food + gm.grid.count Color.superFood = 0) :
    ({ (gm.addRandomFood r).2 with
      foodCell := (gm.addRandomFood r).1 } : Game).FoodInv := by
  unfold Game.addRandomFood
  cases hrc : gm.grid.randomCell Color.grass r.cell with
  | none =>
    have hle : gm.grid.count Color.food + gm.grid.count Color.superFood ≤ 1 := by
      omega
    exact ⟨h1, h2, hb, hle⟩
  | some c =>
    obtain ⟨hclt, hcgr⟩ := Grid.randomCell_spec _ _ _ hrc
    dsimp only
    refine ⟨by simpa using h1, by simpa using h2, ?_, ?_⟩
    · intro hbt
      have hbt' : gm.boosted = true := by simpa using hbt
      have hcol : (if (!gm.boosted && r.super) = true then Color.superFood
          else Color.food) = Color.food := by
        rw [hbt']
        simp
      simp only [Game.drawCell_grid_some, hcol]
      have hs := Grid.count_set_same gm.grid hclt
        (show Color.food ≠ Color.superFood by decide) (by rw [hcgr]; decide)
      rw [hs]
      exact hb hbt'
    · simp only [Game.drawCell_grid_some]
      by_cases hcnd : (!gm.boosted && r.super) = true
      · rw [if_pos hcnd]
        have ha : (gm.grid.set c Color.superFood).count Color.superFood =
            gm.grid.count Color.superFood + 1 :=
          Grid.count_set_add gm.grid hclt (by rw [hcgr]; decide)
        have hf : (gm.grid.set c Color.superFood).count Color.food =
            gm.grid.count Color.food :=
          Grid.count_set_same gm.grid hclt (by decide) (by rw [hcgr]; decide)
        rw [ha, hf]
        omega
      · rw [if_neg hcnd]
        have ha : (gm.grid.set c Color.food).count Color.food =
            gm.grid.count Color.food + 1 :=
          Grid.count_set_add gm.grid hclt (by rw [hcgr]; decide)
        have hf : (gm.grid.set c Color.food).count Color.superFood =
            gm.grid.count Color.superFood :=
          Grid.count_set_same gm.grid hclt (by decide) (by rw [hcgr]; decide)
        rw [ha, hf]
        omega

theorem eatFood_foodInv (gm2 : Game) (r : Rand) (sfd : Bool)
    (h1 : gm2.grid.dimension = gm2.dimension)
    (h2 : gm2.grid.cells.length = gm2.dimension * gm2.dimension)
    (hsup0 : gm2.grid.count Color.superFood = 0)
    (hsum : gm2.grid.count Color.food + gm2.grid.count Color.superFood = 0) :
    (gm2.eatFood r true sfd).FoodInv := by
  unfold Game.eatFood
  dsimp only
  split
  · exact foodInv_addRandomFood_foodCell _ r h1 h2 (fun _ => hsup0) hsum
  · split
    · exact foodInv_addRandomFood_foodCell _ r h1 h2 (fun _ => hsup0) hsum
    · exact foodInv_addRandomFood_foodCell _ r h1 h2 (fun _ => hsup0) hsum

theorem updateHead_foodInv (r : Rand) (gm : Game) (t : JNum)
    (h : gm.FoodInv) : ((Game.updateHead r gm t).2).FoodInv := by
  obtain ⟨h1, h2, hbs, hsum⟩ := h
  have hta : gm.turnApplied.FoodInv := ⟨h1, h2, hbs, hsum⟩
  rw [Game.updateHead_char]
  cases hcc : gm.commitCell with
  | none => exact hta
  | some nx =>
    cases htrav : gm.turnApplied.grid.isTraversable (some nx) with
    | false => exact hta
    | true =>
      dsimp only
      have hcc' : gm.grid.inDirectionO gm.snake.applyNextTurn.getHead
          gm.snake.applyNextTurn.direction = some nx := hcc
      have hwfg : gm.grid.cells.length =
          gm.grid.dimension * gm.grid.dimension := by
        rw [h1]
        exact h2
      have hnxlt : nx < gm.grid.cells.length :=
        Grid.inDirectionO_lt gm.grid hwfg hcc'
      by_cases hfood : gm.turnApplied.grid.isFood nx = true
      · rw [if_pos hfood]
        by_cases hsfd : gm.turnApplied.grid.isSuperFood nx = true
        · rw [hsfd]
          have hcols : gm.grid.colorAt nx = Color.superFood := by
            simpa [Grid.isSuperFood, Game.turnApplied_grid] using hsfd
          have hsub := Grid.count_set_sub gm.grid hnxlt
            (show Color.snake ≠ Color.superFood by decide) hcols
          have hfle : (gm.grid.set nx Color.snake).count Color.food ≤
              gm.grid.count Color.food :=
            Grid.count_set_le_any gm.grid nx (by decide)
          have hsup1 : 1 ≤ gm.grid.count Color.superFood :=
            Grid.count_pos_of_colorAt gm.grid hnxlt hcols
          dsimp only
          apply eatFood_foodInv
          · simpa using h1
          · simpa using h2
          · simp only [Game.enterSquare_grid, Game.turnApplied_grid]
            omega
          · simp only [Game.enterSquare_grid, Game.turnApplied_grid]
            omega
        · have hsfd' : gm.turnApplied.grid.isSuperFood nx = false := by
            simpa using hsfd
          rw [hsfd']
          have hcolf : gm.grid.colorAt nx = Color.food :=
            Grid.isFood_plain gm.grid nx (by simpa using hfood)
              (by simpa [Game.turnApplied_grid] using hsfd')
          have hsub := Grid.count_set_sub gm.grid hnxlt
            (show Color.snake ≠ Color.food by decide) hcolf
          have hseq : (gm.grid.set nx Color.snake).count Color.superFood =
              gm.grid.count Color.superFood :=
            Grid.count_set_same gm.grid hnxlt (by decide) (by rw [hcolf]; decide)
          have hfo1 : 1 ≤ gm.grid.count Color.food :=
            Grid.count_pos_of_colorAt gm.grid hnxlt hcolf
          dsimp only
          apply eatFood_foodInv
          · simpa using h1
          · simpa using h2
          · simp only [Game.enterSquare_grid, Game.turnApplied_grid]
            omega
          · simp only [Game.enterSquare_grid, Game.turnApplied_grid]
            omega
      · rw [if_neg hfood]
        dsimp only
        obtain ⟨hnf, hns⟩ := Grid.not_food_colors gm.grid nx
          (by simpa [Game.turnApplied_grid] using hfood)
        have hseq := Grid.count_set_same gm.grid hnxlt
          (show Color.snake ≠ Color.superFood by decide) hns
        have hfeq := Grid.count_set_same gm.grid hnxlt
          (show Color.snake ≠ Color.food by decide) hnf
        refine ⟨by simpa using h1, by simpa using h2, ?_, ?_⟩
        · intro hbt
          have hbt' : gm.boosted = true := by simpa using hbt
          simp only [Game.enterSquare_grid, Game.turnApplied_grid]
          rw [hseq]
          exact hbs hbt'
        · simp only [Game.enterSquare_grid, Game.turnApplied_grid]
          omega

theorem frameFillStage_foodInv (gm : Game) (h : gm.FoodInv) :
    gm.frameFillStage.FoodInv := by
  unfold Game.frameFillStage
  dsimp only
  set g1 := gm.drawCell gm.snake.getHead Color.snake with hg1
  have h1 : g1.FoodInv := by
    rw [hg1]
    cases hgh : gm.snake.getHead with
    | none =>
      rw [Game.drawCell_none]
      exact h
    | some v =>
      obtain ⟨ha, hb, hc, hdm⟩ := h
      refine ⟨by simpa using ha, by simpa using hb, ?_, ?_⟩
      · intro hbt
        have hbt' : gm.boosted = true := by simpa using hbt
        have h0 := hc hbt'
        have hle := Grid.count_set_le_any gm.grid v
          (show Color.snake ≠ Color.superFood by decide)
        simp only [Game.drawCell_grid_some]
        omega
      · have hle1 := Grid.count_set_le_any gm.grid v
          (show Color.snake ≠ Color.food by decide)
        have hle2 := Grid.count_set_le_any gm.grid v
          (show Color.snake ≠ Color.superFood by decide)
        simp only [Game.drawCell_grid_some]
        omega
  set g2 := if !g1.isEating then g1.removeTail else g1 with hg2
  have h2 : g2.FoodInv := by
    rw [hg2]
    split
    · cases hgt : g1.snake.getTail with
      | none =>
        refine foodInv_congr ?_ ?_ ?_ h1
        · simp
        · rw [Game.removeTail_grid, hgt, Game.drawCell_grid_none]
        · simp
      | some w =>
        obtain ⟨ha, hb, hc, hdm⟩ := h1
        refine ⟨?_, ?_, ?_, ?_⟩
        · rw [Game.removeTail_dimension, Game.removeTail_grid, hgt,
            Game.drawCell_grid_some]
          simpa using ha
        · rw [Game.removeTail_dimension, Game.removeTail_grid, hgt,
            Game.drawCell_grid_some]
          simpa using hb
        · intro hbt
          have hbt' : g1.boosted = true := by simpa using hbt
          have h0 := hc hbt'
          have hle := Grid.count_set_le_any g1.grid w
            (show Color.grass ≠ Color.superFood by decide)
          rw [Game.removeTail_grid, hgt, Game.drawCell_grid_some]
          omega
        · have hle1 := Grid.count_set_le_any g1.grid w
            (show Color.grass ≠ Color.food by decide)
          have hle2 := Grid.count_set_le_any g1.grid w
            (show Color.grass ≠ Color.superFood by decide)
          rw [Game.removeTail_grid, hgt, Game.drawCell_grid_some]
          omega
    · exact h1
  split
  · split
    · exact foodInv_congr rfl rfl rfl h2
    · exact h2
  · exact h2

theorem frameCommitState_cases (gm : Game) (t : JNum) {gc : Game}
    (hcs : gm.frameCommitState t = some gc) :
    gc = gm ∨ gc = gm.frameFillStage := by
  unfold Game.frameCommitState at hcs
  split at hcs
  · simp at hcs
  · split at hcs
    · exact Or.inl (Option.some_inj.mp hcs).symm
    · split at hcs
      · exact Or.inr (Option.some_inj.mp hcs).symm
      · simp at hcs

theorem update_foodInv (r : Rand) (gm : Game) (t : JNum)
    (h : gm.FoodInv) : ((Game.update r gm t).2).FoodInv := by
  cases hcs : gm.frameCommitState t with
  | none =>
    rw [Game.update_of_commit_none r gm t hcs]
    exact h
  | some gc =>
    rw [Game.update_of_commit_some r gm t gc hcs]
    rcases frameCommitState_cases gm t hcs with hgc | hgc
    · subst hgc
      exact updateHead_foodInv r gc t h
    · subst hgc
      exact updateHead_foodInv r _ t (frameFillStage_foodInv gm h)

theorem updateHead_dimension (r : Rand) (gm : Game) (t : JNum) :
    ((Game.updateHead r gm t).2).dimension = gm.dimension := by
  rw [Game.updateHead_char]
  cases hcc : gm.commitCell with
  | none => rfl
  | some nx =>
    cases htrav : gm.turnApplied.grid.isTraversable (some nx) with
    | false => rfl
    | true =>
      dsimp only
      split
      · simp
      · simp

theorem update_dimension (r : Rand) (gm : Game) (t : JNum) :
    ((Game.update r gm t).2).dimension = gm.dimension := by
  cases hcs : gm.frameCommitState t with
  | none => rw [Game.update_of_commit_none r gm t hcs]
  | some gc =>
    rw [Game.update_of_commit_some r gm t gc hcs]
    rcases frameCommitState_cases gm t hcs with hgc | hgc <;> subst hgc
    · exact updateHead_dimension r gc t
    · rw [updateHead_dimension]
      simp

theorem placeSnake_dimension (gm : Game) (c len : Nat) :
    (gm.placeSnake c len).dimension = gm.dimension := by
  unfold Game.placeSnake
  dsimp only
  have hfold : ∀ (l : List (Option Nat)) (g : Game),
      (l.foldl (fun a cc => a.drawCell cc Color.snake) g).dimension =
        g.dimension := by
    intro l
    induction l with
    | nil => intro g; rfl
    | cons x xs ih =>
      intro g
      rw [List.foldl_cons, ih]
      cases x <;> rfl
  rw [hfold]
  have hiter : ∀ n (g : Game),
      (Game.placeSnakeStep^[n] g).dimension = g.dimension := by
    intro n
    induction n with
    | zero => intro g; rfl
    | succ k ih =>
      intro g
      rw [Function.iterate_succ_apply, ih]
      rfl
  rw [hiter]

theorem reset_dimension (d : Nat) (r : Rand) :
    (Game.reset d r).dimension = d := by
  unfold Game.reset
  dsimp only
  rw [Game.addRandomFood_dimension, placeSnake_dimension]

theorem handleEvent_dimension (r : Rand) (gm : Game) (k : Key) :
    (Game.handleEvent r gm k).dimension = gm.dimension := by
  cases k with
  | space => rfl
  | rerun => exact reset_dimension gm.dimension r
  | pointer =>
    unfold Game.handleEvent
    dsimp only
    split <;> simp
  | auto =>
    unfold Game.handleEvent
    dsimp only
    split <;> simp
  | up =>
    unfold Game.handleEvent
    dsimp only
    split
    · split <;> simp
    · rfl
  | down =>
    unfold Game.handleEvent
    dsimp only
    split
    · split <;> simp
    · rfl
  | left =>
    unfold Game.handleEvent
    dsimp only
    split
    · split <;> simp
    · rfl
  | right =>
    unfold Game.handleEvent
    dsimp only
    split
    · split <;> simp
    · rfl

theorem placeSnake_boosted (gm : Game) (c len : Nat) :
    (gm.placeSnake c len).boosted = gm.boosted := by
  unfold Game.placeSnake
  dsimp only
  have hfold : ∀ (l : List (Option Nat)) (g : Game),
      (l.foldl (fun a cc => a.drawCell cc Color.snake) g).boosted = g.boosted := by
    intro l
    induction l with
    | nil => intro g; rfl
    | cons x xs ih =>
      intro g
      rw [List.foldl_cons, ih]
      cases x <;> rfl
  rw [hfold]
  have hiter : ∀ n (g : Game),
      (Game.placeSnakeStep^[n] g).boosted = g.boosted := by
    intro n
    induction n with
    | zero => intro g; rfl
    | succ k ih =>
      intro g
      rw [Function.iterate_succ_apply, ih]
      rfl
  rw [hiter]

theorem reset_foodInv (d : Nat) (r : Rand) (hd : 2 ≤ d) :
    (Game.reset d r).FoodInv := by
  obtain ⟨hsn, hgr, hdim⟩ := placeSnake_spec d hd
    { dimension := d
      grid := ⟨d, List.replicate (d * d) Color.grass⟩
      snake := Snake.init d
      running := false
      scorekeeper := Scorekeeper.init
      enteredSquare := none
      isEating := false
      speedUp := speedUpFactor
      boosted := false
      squaresPerSecond := initialSquaresPerSecond
      automatic := false
      foodCell := none } rfl rfl
  have hbo := placeSnake_boosted
    { dimension := d
      grid := ⟨d, List.replicate (d * d) Color.grass⟩
      snake := Snake.init d
      running := false
      scorekeeper := Scorekeeper.init
      enteredSquare := none
      isEating := false
      speedUp := speedUpFactor
      boosted := false
      squaresPerSecond := initialSquaresPerSecond
      automatic := false
      foodCell := none }
    (({ dimension := d
        grid := ⟨d, List.replicate (d * d) Color.grass⟩
        snake := Snake.init d
        running := false
        scorekeeper := Scorekeeper.init
        enteredSquare := none
        isEating := false
        speedUp := speedUpFactor
        boosted := false
        squaresPerSecond := initialSquaresPerSecond
        automatic := false
        foodCell := none } : Game).grid.center) 2
  unfold Game.reset
  dsimp only
  apply foodInv_addRandomFood_foodCell
  case h1 => simp [hgr, hdim]
  case h2 => simp [hgr, hdim]
  case hb =>
    intro hbt
    rw [hbo] at hbt
    simp at hbt
  case hsum =>
    rw [hgr]
    have hf0 : (⟨d, List.replicate (d * d) Color.grass⟩ : Grid).count
        Color.food = 0 := by
      simp [Grid.count, List.count_replicate]
    have hs0 : (⟨d, List.replicate (d * d) Color.grass⟩ : Grid).count
        Color.superFood = 0 := by
      simp [Grid.count, List.count_replicate]
    have hf1 := Grid.count_set_le_any (⟨d, List.replicate (d * d)
      Color.grass⟩ : Grid) ((d / 2 - 1) * (d + 1))
      (show Color.snake ≠ Color.food by decide)
    have hs1 := Grid.count_set_le_any (⟨d, List.replicate (d * d)
      Color.grass⟩ : Grid) ((d / 2 - 1) * (d + 1))
      (show Color.snake ≠ Color.superFood by decide)
    have hf2 := Grid.count_set_le_any ((⟨d, List.replicate (d * d)
      Color.grass⟩ : Grid).set ((d / 2 - 1) * (d + 1)) Color.snake)
      ((d / 2 - 1) * (d + 1) + d) (show Color.snake ≠ Color.food by decide)
    have hs2 := Grid.count_set_le_any ((⟨d, List.replicate (d * d)
      Color.grass⟩ : Grid).set ((d / 2 - 1) * (d + 1)) Color.snake)
      ((d / 2 - 1) * (d + 1) + d) (show Color.snake ≠ Color.superFood by decide)
    omega

theorem handleEvent_foodInv (r : Rand) (gm : Game) (k : Key)
    (hd2 : 2 ≤ gm.dimension) (h : gm.FoodInv) :
    (Game.handleEvent r gm k).FoodInv := by
  cases k with
  | space => exact foodInv_congr rfl rfl rfl h
  | rerun => exact reset_foodInv gm.dimension r hd2
  | pointer =>
    unfold Game.handleEvent
    dsimp only
    split
    · exact foodInv_congr (by simp) (by simp) (by simp) h
    · exact foodInv_congr (by simp) (by simp) (by simp) h
  | auto =>
    unfold Game.handleEvent
    dsimp only
    split
    · exact foodInv_congr (by simp) (by simp) (by simp) h
    · exact foodInv_congr (by simp) (by simp) (by simp) h
  | up =>
    unfold Game.handleEvent
    dsimp only
    split
    · exact foodInv_congr (by split <;> simp) (by split <;> simp)
        (by split <;> simp) h
    · exact foodInv_congr rfl rfl rfl h
  | down =>
    unfold Game.handleEvent
    dsimp only
    split
    · exact foodInv_congr (by split <;> simp) (by split <;> simp)
        (by split <;> simp) h
    · exact foodInv_congr rfl rfl rfl h
  | left =>
    unfold Game.handleEvent
    dsimp only
    split
    · exact foodInv_congr (by split <;> simp) (by split <;> simp)
        (by split <;> simp) h
    · exact foodInv_congr rfl rfl rfl h
  | right =>
    unfold Game.handleEvent
    dsimp only
    split
    · exact foodInv_congr (by split <;> simp) (by split <;> simp)
        (by split <;> simp) h
    · exact foodInv_congr rfl rfl rfl h

theorem reachAny_foodInv {d : Nat} (hd : 2 ≤ d) {gm : Game}
    (h : ReachAny d gm) : gm.FoodInv ∧ gm.dimension = d := by
  induction h with
  | init r => exact ⟨reset_foodInv d r hd, reset_dimension d r⟩
  | inp hg r k ih =>
    refine ⟨handleEvent_foodInv r _ k (by rw [ih.2]; exact hd) ih.1, ?_⟩
    rw [handleEvent_dimension]
    exact ih.2
  | upd hg r t ih =>
    refine ⟨update_foodInv r _ t ih.1, ?_⟩
    rw [update_dimension]
    exact ih.2

/-! ## C9 and C10: boost bookkeeping and food placement while boosted -/

theorem Game.eatFood_boost_super (gm2 : Game) (r : Rand) (f : Bool) :
    (gm2.eatFood r f true).boosted = true ∧
    (gm2.eatFood r f true).squaresPerSecond =
      (gm2.squaresPerSecond.mul boostFactor).mul gm2.speedUp := by
  constructor <;> simp [Game.eatFood]

theorem Game.eatFood_plain_boosted (gm2 : Game) (r : Rand) (hb : gm2.boosted = true) :
    (gm2.eatFood r true false).boosted = false ∧
    (gm2.eatFood r true false).squaresPerSecond =
      (gm2.squaresPerSecond.div boostFactor).mul gm2.speedUp := by
  constructor <;> simp [Game.eatFood, hb]

theorem Game.eatFood_plain_unboosted (gm2 : Game) (r : Rand) (hb : gm2.boosted = false) :
    (gm2.eatFood r true false).boosted = false ∧
    (gm2.eatFood r true false).squaresPerSecond =
      gm2.squaresPerSecond.mul gm2.speedUp := by
  constructor <;> simp [Game.eatFood, hb]

/-- C9: boost bookkeeping is as specified. (1) In every reachable boosted
state the cell the head is about to commit is never a super-food (the
food-placement invariant keeps the grid free of super-food while boosted),
so the super-food branch cannot re-fire while boosted; (2) committing a
super-food cell sets the boosted flag and multiplies the traversal speed by
the boost factor (and the per-food compounding speed-up); (3) committing a
plain-food cell while boosted clears the flag and divides the speed by the
boost factor (times the compounding speed-up); (4) committing plain food
while not boosted leaves the flag clear and only applies the compounding
speed-up, touching no boost multiplier; (5) a non-food commit changes
neither the flag nor the speed. -/
theorem C9_boost_idempotent :
    (∀ (d : Nat) (gm : Game), 2 ≤ d → ReachAny d gm → gm.boosted = true →
      ∀ nx : Nat, gm.commitCell = some nx →
        gm.turnApplied.grid.isSuperFood nx = false) ∧
    (∀ (r : Rand) (gm : Game) (t : JNum) (nx : Nat) (g2 : Game),
      gm.commitCell = some nx →
      gm.turnApplied.grid.isTraversable (some nx) = true →
      gm.turnApplied.grid.isSuperFood nx = true →
      Game.updateHead r gm t = (true, g2) →
      g2.boosted = true ∧
        g2.squaresPerSecond = (gm.squaresPerSecond.mul boostFactor).mul gm.speedUp) ∧
    (∀ (r : Rand) (gm : Game) (t : JNum) (nx : Nat) (g2 : Game),
      gm.boosted = true →
      gm.commitCell = some nx →
      gm.turnApplied.grid.isTraversable (some nx) = true →
      gm.turnApplied.grid.isFood nx = true →
      gm.turnApplied.grid.isSuperFood nx = false →
      Game.updateHead r gm t = (true, g2) →
      g2.boosted = false ∧
        g2.squaresPerSecond = (gm.squaresPerSecond.div boostFactor).mul gm.speedUp) ∧
    (∀ (r : Rand) (gm : Game) (t : JNum) (nx : Nat) (g2 : Game),
      gm.boosted = false →
      gm.commitCell = some nx →
      gm.turnApplied.grid.isTraversable (some nx) = true →
      gm.turnApplied.grid.isFood nx = true →
      gm.turnApplied.grid.isSuperFood nx = false →
      Game.updateHead r gm t = (true, g2) →
      g2.boosted = false ∧
        g2.squaresPerSecond = gm.squaresPerSecond.mul gm.speedUp) ∧
    (∀ (r : Rand) (gm : Game) (t : JNum) (nx : Nat) (g2 : Game),
      gm.commitCell = some nx →
      gm.turnApplied.grid.isFood nx = false →
      Game.updateHead r gm t = (true, g2) →
      g2.boosted = gm.boosted ∧ g2.squaresPerSecond = gm.squaresPerSecond) := by
  refine ⟨?_, ?_, ?_, ?_, ?_⟩
  · intro d gm hd hre hbo nx hcc
    obtain ⟨hinv, hdim⟩ := reachAny_foodInv hd hre
    obtain ⟨hgd, hglen, hbsup, hsum⟩ := hinv
    cases hsf : gm.turnApplied.grid.isSuperFood nx with
    | false => rfl
    | true =>
      exfalso
      have hcol : gm.turnApplied.grid.colorAt nx = Color.superFood := by
        simpa [Grid.isSuperFood] using hsf
      have hwf : gm.turnApplied.grid.cells.length =
          gm.turnApplied.grid.dimension * gm.turnApplied.grid.dimension := by
        simp only [Game.turnApplied_grid]
        rw [hgd]
        exact hglen
      have hcc' : gm.turnApplied.grid.inDirectionO gm.turnApplied.snake.getHead
          gm.turnApplied.snake.direction = some nx := hcc
      have hlt : nx < gm.turnApplied.grid.cells.length :=
        Grid.inDirectionO_lt _ hwf hcc'
      have hpos : 0 < gm.turnApplied.grid.count Color.superFood :=
        Grid.count_pos_of_colorAt _ hlt hcol
      have hz : gm.grid.count Color.superFood = 0 := hbsup hbo
      rw [Game.turnApplied_grid] at hpos
      omega
  · intro r gm t nx g2 hcc htrav hsf hupd
    have hfood : gm.turnApplied.grid.isFood nx = true := by
      simp only [Grid.isFood, hsf, Bool.or_true]
    rw [Game.updateHead_char, hcc, htrav] at hupd
    dsimp only at hupd
    rw [if_pos hfood, hsf] at hupd
    simp only [Prod.mk.injEq] at hupd
    obtain ⟨-, hg2⟩ := hupd
    rw [← hg2]
    obtain ⟨hb', hs'⟩ :=
      Game.eatFood_boost_super (gm.turnApplied.enterSquare nx t true) r true
    refine ⟨hb', ?_⟩
    rw [hs']
    simp
  · intro r gm t nx g2 hbo hcc htrav hfood hsf hupd
    rw [Game.updateHead_char, hcc, htrav] at hupd
    dsimp only at hupd
    rw [if_pos hfood, hsf] at hupd
    simp only [Prod.mk.injEq] at hupd
    obtain ⟨-, hg2⟩ := hupd
    rw [← hg2]
    obtain ⟨hb', hs'⟩ :=
      Game.eatFood_plain_boosted (gm.turnApplied.enterSquare nx t true) r (by simpa using hbo)
    refine ⟨hb', ?_⟩
    rw [hs']
    simp
  · intro r gm t nx g2 hbo hcc htrav hfood hsf hupd
    rw [Game.updateHead_char, hcc, htrav] at hupd
    dsimp only at hupd
    rw [if_pos hfood, hsf] at hupd
    simp only [Prod.mk.injEq] at hupd
    obtain ⟨-, hg2⟩ := hupd
    rw [← hg2]
    obtain ⟨hb', hs'⟩ :=
      Game.eatFood_plain_unboosted (gm.turnApplied.enterSquare nx t true) r
        (by simpa using hbo)
    refine ⟨hb', ?_⟩
    rw [hs']
    simp
  · intro r gm t nx g2 hcc hfood hupd
    rw [Game.updateHead_char, hcc] at hupd
    cases htrav : gm.turnApplied.grid.isTraversable (some nx) with
    | false =>
      rw [htrav] at hupd
      dsimp only at hupd
      simp only [Prod.mk.injEq] at hupd
      exact absurd hupd.1 (by simp)
    | true =>
      rw [htrav] at hupd
      dsimp only at hupd
      rw [if_neg (by rw [hfood]; simp)] at hupd
      simp only [Prod.mk.injEq] at hupd
      obtain ⟨-, hg2⟩ := hupd
      rw [← hg2]
      exact ⟨by simp, by simp⟩

theorem C9_boost_idempotent_witness :
    boostA2.boosted = true ∧
    boostA2.squaresPerSecond =
      (boostA1.squaresPerSecond.mul boostFactor).mul boostA1.speedUp :=
  C9_boost_idempotent.2.1 ⟨1, false⟩ boostA1 0 3 boostA2
    (by decide) (by decide) (by decide) (by decide)

/-- C10: while the boosted flag is set, the food-placement operation always
places plain food (the 10% super-food draw is suppressed by the
`!this.boosted` conjunct), and consequently in every reachable boosted
state the grid holds no super-food cell at all. -/
theorem C10_no_superfood_while_boosted :
    (∀ (gm : Game) (r : Rand) (c : Nat) (g2 : Game),
      gm.boosted = true →
      gm.addRandomFood r = (some c, g2) →
      g2.grid.colorAt c = Color.food) ∧
    (∀ (d : Nat) (gm : Game), 2 ≤ d → ReachAny d gm →
      gm.boosted = true → gm.grid.count Color.superFood = 0) := by
  constructor
  · intro gm r c g2 hb h
    unfold Game.addRandomFood at h
    dsimp only at h
    cases hrc : gm.grid.randomCell Color.grass r.cell with
    | none =>
      rw [hrc] at h
      simp at h
    | some c0 =>
      have hlt : c0 < gm.grid.cells.length :=
        (Grid.randomCell_spec gm.grid Color.grass r.cell hrc).1
      rw [hrc] at h
      dsimp only at h
      rw [hb] at h
      simp only [Bool.not_true, Bool.false_and, Bool.false_eq_true, if_false,
        Prod.mk.injEq, Option.some.injEq] at h
      obtain ⟨hc0, hg2⟩ := h
      rw [← hg2, ← hc0]
      simp only [Game.drawCell_grid_some]
      exact Grid.colorAt_set_self gm.grid hlt Color.food
  · intro d gm hd hre hb
    exact (reachAny_foodInv hd hre).1.2.2.1 hb

theorem C10_no_superfood_while_boosted_witness :
    (Game.addRandomFood boostB ⟨0, true⟩).2.grid.colorAt 0 = Color.food ∧
    boostA2.grid.count Color.superFood = 0 := by
  constructor
  · exact C10_no_superfood_while_boosted.1 boostB ⟨0, true⟩ 0
      (Game.addRandomFood boostB ⟨0, true⟩).2 (by decide) (by decide)
  · exact C10_no_superfood_while_boosted.2 2 boostA2 (by decide)
      (ReachAny.upd (ReachAny.inp (ReachAny.init ⟨3, true⟩) ⟨0, false⟩ Key.down)
        ⟨1, false⟩ 0)
      (by decide)

end SnakeSpec
